import Mathlib

/-!
OVN command dispatch and output shaping.

A shallow embedding of `pkg/ovn/mcp` (validators, command builder, exec
dispatcher, tool handlers) together with the line utilities it relies on.

Go strings are modelled as Lean `String`s (sequences of Unicode code points);
every character the validators look at is ASCII, so the byte view and the code
point view of a request string agree on them.  Go `error` values are modelled
by the inductive type `Err`, one constructor per `fmt.Errorf` site, `nil` being
`none`.
-/

namespace OvnMcp

/-! ## The fragment of Go's `regexp` used by the fixed patterns -/

/-- Syntax tree of the regular expressions that occur as literals in the source. -/
inductive Regexp where
  /-- A bracket expression, as a union of inclusive character ranges. -/
  | cls (ranges : List (Char × Char))
  /-- The anchor `^` (without the multi-line flag: beginning of the text). -/
  | beginText
  /-- The anchor `$` (without the multi-line flag: end of the text). -/
  | endText
  /-- Concatenation. -/
  | cat (a b : Regexp)
  /-- Kleene star. -/
  | star (a : Regexp)

/-- Membership of a character in a bracket expression. -/
def classHas (ranges : List (Char × Char)) (c : Char) : Bool :=
  ranges.any fun r => decide (r.1.toNat ≤ c.toNat) && decide (c.toNat ≤ r.2.toNat)

/-- Iteration of a one-step matcher, each round consuming at least one character. -/
def starEnds (step : List Char → List (List Char)) : Nat → List Char → List (List Char)
  | 0, xs => [xs]
  | k + 1, xs =>
    xs :: ((step xs).filter fun r => decide (r.length < xs.length)).flatMap (starEnds step k)

/-- All the ways the expression can match at the front of `xs`, each given by the
text left over after the match; `total` is the length of the whole text, so that
`^` can tell whether `xs` starts at its beginning. -/
def Regexp.ends (total : Nat) : Regexp → List Char → List (List Char)
  | .cls ranges => fun xs =>
    match xs with
    | [] => []
    | c :: cs => if classHas ranges c then [cs] else []
  | .beginText => fun xs => if xs.length = total then [xs] else []
  | .endText => fun xs => if xs.isEmpty then [xs] else []
  | .cat a b => fun xs => (Regexp.ends total a xs).flatMap (Regexp.ends total b)
  | .star a => fun xs => starEnds (Regexp.ends total a) xs.length xs

/-- Search for a match starting at any position of the remaining text. -/
def Regexp.searchFrom (re : Regexp) (total : Nat) : List Char → Bool
  | [] => !(re.ends total []).isEmpty
  | c :: cs => !(re.ends total (c :: cs)).isEmpty || Regexp.searchFrom re total cs

/-- The method `(*regexp.Regexp).MatchString`: the text contains a match. -/
def Regexp.MatchString (re : Regexp) (s : String) : Bool :=
  re.searchFrom s.data.length s.data

/-! ## Types (`pkg/ovn/types/command.go`) -/

/-- Type `Database`: a string. -/
abbrev Database := String

def NorthboundDB : Database := "nbdb"
def SouthboundDB : Database := "sbdb"

/-- Type `TraceMode`: a string. -/
abbrev TraceMode := String

def TraceModeDetailed : TraceMode := "detailed"
def TraceModeSummary : TraceMode := "summary"
def TraceModeMinimal : TraceMode := "minimal"

/-- Pod coordinates shared by every request. -/
structure NamespacedNameParams where
  Namespace : String
  Name : String
  deriving DecidableEq, Repr

/-- Errors, one constructor per place where the source builds one. -/
inductive Err where
  /-- An error returned by the cluster client. -/
  | client (msg : String)
  /-- Member of `runCommand`: the command wrote to stderr. -/
  | commandStderr (commands : List String) (ns name stderr : String)
  /-- Member of `filterLines`: the pattern does not compile. -/
  | invalidFilter (pattern : String) (cause : String)
  | invalidDatabase (db : Database)
  | tableNameEmpty
  | invalidTableName (table : String)
  /-- Member of `validateSafeString`: `<fieldName> cannot be empty`. -/
  | fieldEmpty (fieldName : String)
  /-- Member of `validateSafeString`: dangerous characters in `<fieldName>`. -/
  | fieldDangerous (fieldName : String)
  | microflowEmpty
  | microflowDangerous
  | showFailed (ns name : String) (cause : Err)
  | getRecordFailed (record table ns name : String) (cause : Err)
  | listTableFailed (table ns name : String) (cause : Err)
  | lflowListFailed (ns name : String) (cause : Err)
  | traceFailed (ns name : String) (cause : Err)
  /-- Handlers: `invalid filter pattern: %w`. -/
  | filterFailed (cause : Err)
  /-- Member of `ExecuteWithMatch`: `invalid search pattern: %w`. -/
  | invalidSearchPattern (cause : String)
  deriving DecidableEq, Repr

/-! ## Validators (`pkg/ovn/mcp/commands.go`) -/

def defaultMaxLines : Int := 100

/-- The pattern `^[a-zA-Z][a-zA-Z0-9_]*$`. -/
def validTableNamePattern : Regexp :=
  .cat .beginText
    (.cat (.cls [('a', 'z'), ('A', 'Z')])
      (.cat (.star (.cls [('a', 'z'), ('A', 'Z'), ('0', '9'), ('_', '_')])) .endText))

/-- The eight characters of the bracket expression of `dangerousCharsPattern`. -/
def dangerousChars : List Char := ";&|$`<>\\".data

/-- The seven characters of the bracket expression of `dangerousCharsNoAmpPattern`. -/
def dangerousCharsNoAmp : List Char := ";|$`<>\\".data

/-- The pattern that matches one shell metacharacter, `&` included. -/
def dangerousCharsPattern : Regexp := .cls (dangerousChars.map fun c => (c, c))

/-- The pattern that matches one shell metacharacter other than `&`. -/
def dangerousCharsNoAmpPattern : Regexp := .cls (dangerousCharsNoAmp.map fun c => (c, c))

def validateDatabase (db : Database) : Option Err :=
  if db = NorthboundDB ∨ db = SouthboundDB then none
  else some (.invalidDatabase db)

def validateTableName (table : String) : Option Err :=
  if table = "" then some .tableNameEmpty
  else if !validTableNamePattern.MatchString table then some (.invalidTableName table)
  else none

def validateSafeString (value fieldName : String) (allowEmpty : Bool) : Option Err :=
  if value = "" then
    if allowEmpty then none else some (.fieldEmpty fieldName)
  else if dangerousCharsPattern.MatchString value then some (.fieldDangerous fieldName)
  else none

def validateRecordName (record : String) : Option Err :=
  validateSafeString record "record identifier" false

def validateDatapath (datapath : String) : Option Err :=
  validateSafeString datapath "datapath name" false

def validateMicroflow (microflow : String) : Option Err :=
  if microflow = "" then some .microflowEmpty
  else if dangerousCharsNoAmpPattern.MatchString microflow then some .microflowDangerous
  else none

def validateColumnSpec (columns : String) : Option Err :=
  validateSafeString columns "column specification" true

def getDBCommand (db : Database) : String :=
  if db = SouthboundDB then "ovn-sbctl" else "ovn-nbctl"

/-! ## Output pipeline (`pkg/ovn/mcp/commands.go`) -/

/-- Function `unicode.IsSpace`: the code points with the White_Space property. -/
def isSpace (c : Char) : Bool :=
  let n := c.toNat
  (decide (0x09 ≤ n) && decide (n ≤ 0x0D)) || n == 0x20 || n == 0x85 || n == 0xA0 ||
    n == 0x1680 || (decide (0x2000 ≤ n) && decide (n ≤ 0x200A)) || n == 0x2028 ||
    n == 0x2029 || n == 0x202F || n == 0x205F || n == 0x3000

/-- Function `strings.TrimSpace`: drop the leading and trailing white space. -/
def TrimSpace (s : String) : String :=
  ⟨((s.data.dropWhile isSpace).reverse.dropWhile isSpace).reverse⟩

/-- The pieces of a text between its newline characters. -/
def splitNewline : List Char → List (List Char)
  | [] => [[]]
  | c :: cs =>
    if c = '\n' then [] :: splitNewline cs
    else
      match splitNewline cs with
      | [] => [[c]]
      | l :: ls => (c :: l) :: ls

/-- Function `strings.Split(s, "\n")`. -/
def Split (s : String) : List String :=
  (splitNewline s.data).map String.mk

def parseOutput (stdout : String) : List String :=
  (Split stdout).foldl
    (fun output line =>
      let line := TrimSpace line
      if line ≠ "" then output ++ [line] else output)
    []

/-- Function `regexp.Compile` of the standard library, taken as a parameter: a
pattern either fails to compile, with a message, or yields the `MatchString`
predicate of the compiled expression. -/
abbrev Compile := String → Except String (String → Bool)

def filterLines (compile : Compile) (lines : List String) (pattern : String) :
    Except Err (List String) :=
  if pattern = "" then .ok lines
  else
    match compile pattern with
    | .error cause => .error (.invalidFilter pattern cause)
    | .ok filterPattern =>
      .ok (lines.foldl
        (fun filtered line => if filterPattern line then filtered ++ [line] else filtered) [])

def limitLines (lines : List String) (maxLines : Int) : List String :=
  let maxLines := if maxLines ≤ 0 then defaultMaxLines else maxLines
  if (lines.length : Int) > maxLines then lines.take maxLines.toNat else lines

/-! ## Exec in a pod (`pkg/kubernetes/mcp/pods.go`) -/

/-- One call received by the cluster client, with its arguments in call order. -/
structure ExecCall where
  Name : String
  Namespace : String
  Container : String
  Command : List String
  deriving DecidableEq, Repr

/-- The cluster client: what `clientSet.ExecPod` answers, either an error or the
pair of stdout and stderr. -/
structure ClientSet where
  ExecPod : String → String → String → List String → Except Err (String × String)

structure ExecPodParams extends NamespacedNameParams where
  Container : String
  Command : List String

structure ExecPodResult where
  Stdout : String
  Stderr : String
  deriving DecidableEq, Repr

namespace Kubernetes

/-- The Kubernetes tool server, holder of the cluster client. -/
structure MCPServer where
  clientSet : ClientSet

/-- Method `ExecPod`: one call to the cluster client, recorded in the first component. -/
def MCPServer.ExecPod (s : MCPServer) (inp : ExecPodParams) :
    List ExecCall × Except Err ExecPodResult :=
  let call : ExecCall := ⟨inp.Name, inp.Namespace, inp.Container, inp.Command⟩
  match s.clientSet.ExecPod inp.Name inp.Namespace inp.Container inp.Command with
  | .error err => ([call], .error err)
  | .ok (stdout, stderr) => ([call], .ok { Stdout := stdout, Stderr := stderr })

end Kubernetes

/-! ## Requests and results (`pkg/ovn/types/command.go`) -/

structure ShowParams extends NamespacedNameParams where
  Database : Database
  MaxLines : Int

structure ShowResult where
  Database : Database
  Output : String
  deriving DecidableEq, Repr

structure LogicalFlowListParams extends NamespacedNameParams where
  Datapath : String
  Filter : String
  MaxLines : Int

structure LogicalFlowListResult where
  Datapath : String
  Flows : List String
  deriving DecidableEq, Repr

structure OVNTraceParams extends NamespacedNameParams where
  Datapath : String
  Microflow : String
  Mode : TraceMode
  Filter : String
  MaxLines : Int

structure OVNTraceResult where
  Datapath : String
  Microflow : String
  Output : String
  deriving DecidableEq, Repr

structure GetParams extends NamespacedNameParams where
  Database : Database
  Table : String
  Record : String
  Columns : String
  Filter : String
  MaxLines : Int

structure GetResult where
  Database : Database
  Table : String
  Record : String
  Output : String
  deriving DecidableEq, Repr

/-! ## Dispatcher and tool handlers (`pkg/ovn/mcp`) -/

/-- The OVN tool server. -/
structure MCPServer where
  k8sMcpServer : Kubernetes.MCPServer

/-- What a handler hands back: the result value and the error (`none` for `nil`),
together with the calls it made to the cluster client, in order. -/
structure Outcome (ρ : Type) where
  calls : List ExecCall
  result : ρ
  err : Option Err

def MCPServer.runCommand (s : MCPServer) (namespacedName : NamespacedNameParams)
    (commands : List String) : List ExecCall × Except Err (List String) :=
  match s.k8sMcpServer.ExecPod
      { toNamespacedNameParams := namespacedName, Container := "", Command := commands } with
  | (calls, .error err) => (calls, .error err)
  | (calls, .ok result) =>
    if result.Stderr ≠ "" then
      (calls, .error (.commandStderr commands namespacedName.Namespace namespacedName.Name
        result.Stderr))
    else (calls, .ok (parseOutput result.Stdout))

/-- Function `strings.Join(lines, "\n")`. -/
def joinLines (lines : List String) : String :=
  String.intercalate "\n" lines

def MCPServer.Show (s : MCPServer) (inp : ShowParams) : Outcome ShowResult :=
  let result : ShowResult := { Database := inp.Database, Output := "" }
  match validateDatabase inp.Database with
  | some err => ⟨[], result, some err⟩
  | none =>
    let cmd := getDBCommand inp.Database
    match s.runCommand inp.toNamespacedNameParams [cmd, "show"] with
    | (calls, .error err) => ⟨calls, result, some (.showFailed inp.Namespace inp.Name err)⟩
    | (calls, .ok lines) =>
      let lines := limitLines lines inp.MaxLines
      ⟨calls, { result with Output := joinLines lines }, none⟩

def MCPServer.Get (compile : Compile) (s : MCPServer) (inp : GetParams) : Outcome GetResult :=
  let result : GetResult :=
    { Database := inp.Database, Table := inp.Table, Record := inp.Record, Output := "" }
  match validateDatabase inp.Database with
  | some err => ⟨[], result, some err⟩
  | none =>
  match validateTableName inp.Table with
  | some err => ⟨[], result, some err⟩
  | none =>
  match validateColumnSpec inp.Columns with
  | some err => ⟨[], result, some err⟩
  | none =>
    let cmd := getDBCommand inp.Database
    let cmdArgs := [cmd]
    let cmdArgs := if inp.Columns ≠ "" then cmdArgs ++ ["--columns=" ++ inp.Columns] else cmdArgs
    let built : Except Err (List String) :=
      if inp.Record = "" then .ok (cmdArgs ++ ["list", inp.Table])
      else
        match validateRecordName inp.Record with
        | some err => .error err
        | none => .ok (cmdArgs ++ ["list", inp.Table, inp.Record])
    match built with
    | .error err => ⟨[], result, some err⟩
    | .ok cmdArgs =>
      match s.runCommand inp.toNamespacedNameParams cmdArgs with
      | (calls, .error err) =>
        if inp.Record ≠ "" then
          ⟨calls, result, some (.getRecordFailed inp.Record inp.Table inp.Namespace inp.Name err)⟩
        else ⟨calls, result, some (.listTableFailed inp.Table inp.Namespace inp.Name err)⟩
      | (calls, .ok lines) =>
        let filtered : Except Err (List String) :=
          if inp.Record = "" then filterLines compile lines inp.Filter else .ok lines
        match filtered with
        | .error err => ⟨calls, result, some (.filterFailed err)⟩
        | .ok lines =>
          let lines := limitLines lines inp.MaxLines
          ⟨calls, { result with Output := joinLines lines }, none⟩

def MCPServer.ListLogicalFlows (compile : Compile) (s : MCPServer)
    (inp : LogicalFlowListParams) : Outcome LogicalFlowListResult :=
  let result : LogicalFlowListResult := { Datapath := inp.Datapath, Flows := [] }
  let checked : Option Err :=
    if inp.Datapath ≠ "" then validateDatapath inp.Datapath else none
  match checked with
  | some err => ⟨[], result, some err⟩
  | none =>
    let cmdArgs := ["ovn-sbctl", "lflow-list"]
    let cmdArgs := if inp.Datapath ≠ "" then cmdArgs ++ [inp.Datapath] else cmdArgs
    match s.runCommand inp.toNamespacedNameParams cmdArgs with
    | (calls, .error err) => ⟨calls, result, some (.lflowListFailed inp.Namespace inp.Name err)⟩
    | (calls, .ok lines) =>
      match filterLines compile lines inp.Filter with
      | .error err => ⟨calls, result, some (.filterFailed err)⟩
      | .ok lines =>
        let lines := limitLines lines inp.MaxLines
        ⟨calls, { result with Flows := lines }, none⟩

def MCPServer.Trace (compile : Compile) (s : MCPServer) (inp : OVNTraceParams) :
    Outcome OVNTraceResult :=
  let result : OVNTraceResult :=
    { Datapath := inp.Datapath, Microflow := inp.Microflow, Output := "" }
  match validateDatapath inp.Datapath with
  | some err => ⟨[], result, some err⟩
  | none =>
  match validateMicroflow inp.Microflow with
  | some err => ⟨[], result, some err⟩
  | none =>
    let cmdArgs := ["ovn-trace"]
    let cmdArgs :=
      if inp.Mode = TraceModeSummary then cmdArgs ++ ["--summary"]
      else if inp.Mode = TraceModeMinimal then cmdArgs ++ ["--minimal"]
      else if inp.Mode = TraceModeDetailed ∨ inp.Mode = "" then cmdArgs ++ ["--detailed"]
      else cmdArgs
    let cmdArgs := cmdArgs ++ [inp.Datapath, inp.Microflow]
    match s.runCommand inp.toNamespacedNameParams cmdArgs with
    | (calls, .error err) => ⟨calls, result, some (.traceFailed inp.Namespace inp.Name err)⟩
    | (calls, .ok lines) =>
      match filterLines compile lines inp.Filter with
      | .error err => ⟨calls, result, some (.filterFailed err)⟩
      | .ok lines =>
        let lines := limitLines lines inp.MaxLines
        ⟨calls, { result with Output := joinLines lines }, none⟩

/-! ## Line windows and pattern matching (`pkg/utils`) -/

namespace Utils

structure HeadTailParams where
  Head : Int
  Tail : Int
  ApplyTailFirst : Bool
  deriving DecidableEq, Repr

def head (lines : List String) (n : Int) : List String :=
  if lines.length = 0 then lines
  else if n ≤ 0 ∨ n ≥ (lines.length : Int) then lines
  else lines.take n.toNat

def tail (lines : List String) (n : Int) : List String :=
  if lines.length = 0 then lines
  else if n ≤ 0 ∨ n ≥ (lines.length : Int) then lines
  else lines.drop ((lines.length : Int) - n).toNat

def HeadTailParams.Apply (h : HeadTailParams) (lines : List String) (defaultMaxLines : Int) :
    List String :=
  if h.Head = 0 ∧ h.Tail = 0 then head lines defaultMaxLines
  else if h.Head ≠ 0 ∧ h.Tail ≠ 0 then
    if h.ApplyTailFirst then head (tail lines h.Tail) h.Head
    else tail (head lines h.Head) h.Tail
  else if h.Head ≠ 0 then head lines h.Head
  else tail lines h.Tail

def StripEmptyLines (lines : List String) : List String :=
  if lines.length = 0 then lines
  else
    lines.foldl
      (fun result line => if TrimSpace line ≠ "" then result ++ [line] else result) []

structure PatternParams where
  Pattern : String
  deriving DecidableEq, Repr

/-- Method `ExecuteWithMatch`.  The function argument of the source is a closure that
may act on the world: it is a state transformer here, and the state that comes back
tells whether it ran. -/
def PatternParams.ExecuteWithMatch {σ : Type} (compile : Compile) (p : PatternParams)
    (f : σ → Except Err (List String) × σ) (st : σ) : Except Err (List String) × σ :=
  if p.Pattern = "" then f st
  else
    match compile p.Pattern with
    | .error cause => (.error (.invalidSearchPattern cause), st)
    | .ok searchPattern =>
      match f st with
      | (.error err, st1) => (.error err, st1)
      | (.ok lines, st1) =>
        (.ok (lines.foldl
          (fun matchedLines line =>
            if searchPattern line then matchedLines ++ [line] else matchedLines) []), st1)

end Utils

/-! ## Pod logs (`pkg/kubernetes/mcp/pods.go`) -/

/-- Modelled from the spec: the declaration of `GetPodLogsParams` (package
`pkg/kubernetes/types`) is not among the sources; the fields are the ones that
`GetPodLogs` reads, with the pattern and the window of the spec's data model. -/
structure GetPodLogsParams extends NamespacedNameParams where
  Container : String
  Previous : Bool
  PatternParams : Utils.PatternParams
  HeadTailParams : Utils.HeadTailParams

structure GetPodLogsResult where
  Logs : List String
  deriving DecidableEq, Repr

namespace Kubernetes

def defaultMaxLines : Int := 100

/-- Method `GetPodLogs`.  The method `clientSet.GetPodLogs` of the cluster client is a
parameter, called with namespace, name, container and the flag `previous`; the state
threaded through `ExecuteWithMatch` counts the calls made to it. -/
def GetPodLogs (compile : Compile)
    (clientGetPodLogs : String → String → String → Bool → Except Err (List String))
    (inp : GetPodLogsParams) : Except Err GetPodLogsResult × Nat :=
  match inp.PatternParams.ExecuteWithMatch compile
      (fun clientCalls =>
        match clientGetPodLogs inp.Namespace inp.Name inp.Container inp.Previous with
        | .error err => (.error err, clientCalls + 1)
        | .ok lines => (.ok (Utils.StripEmptyLines lines), clientCalls + 1))
      0 with
  | (.error err, clientCalls) => (.error err, clientCalls)
  | (.ok lines, clientCalls) =>
    (.ok { Logs := inp.HeadTailParams.Apply lines defaultMaxLines }, clientCalls)

end Kubernetes

/-! ## Go slices with their nil value (the flows of `ListLogicalFlows`) -/

/-- A slice of strings as Go sees it: `none` is the nil slice, encoded as `null` in a
result, and `some []` is the empty slice `[]string{}`, encoded as `[]`. -/
abbrev Slice := Option (List String)

/-- The elements of a slice; the nil slice has none. -/
def sliceElems : Slice → List String
  | none => []
  | some xs => xs

/-- The built-in `append` of one element: its result is never nil. -/
def sliceAppend (s : Slice) (x : String) : Slice :=
  some (sliceElems s ++ [x])

/-- Function `parseOutput`, with the nil value tracked. -/
def parseOutputSlice (stdout : String) : Slice :=
  (Split stdout).foldl
    (fun output line =>
      let line := TrimSpace line
      if line ≠ "" then sliceAppend output line else output)
    (some [])

/-- Function `filterLines`, with the nil value tracked. -/
def filterLinesSlice (compile : Compile) (lines : Slice) (pattern : String) :
    Except Err Slice :=
  if pattern = "" then .ok lines
  else
    match compile pattern with
    | .error cause => .error (.invalidFilter pattern cause)
    | .ok filterPattern =>
      .ok ((sliceElems lines).foldl
        (fun filtered line => if filterPattern line then sliceAppend filtered line else filtered)
        (some []))

/-- Function `limitLines`, with the nil value tracked. -/
def limitLinesSlice (lines : Slice) (maxLines : Int) : Slice :=
  let maxLines := if maxLines ≤ 0 then defaultMaxLines else maxLines
  if ((sliceElems lines).length : Int) > maxLines then
    some ((sliceElems lines).take maxLines.toNat)
  else lines

/-- The field `Flows` of the result of `ListLogicalFlows` as a Go slice, computed along
the path of the handler. -/
def MCPServer.ListLogicalFlowsFlows (compile : Compile) (s : MCPServer)
    (inp : LogicalFlowListParams) : Slice :=
  let flows : Slice := some []
  let checked : Option Err :=
    if inp.Datapath ≠ "" then validateDatapath inp.Datapath else none
  match checked with
  | some _ => flows
  | none =>
    let cmdArgs := ["ovn-sbctl", "lflow-list"]
    let cmdArgs := if inp.Datapath ≠ "" then cmdArgs ++ [inp.Datapath] else cmdArgs
    match (s.k8sMcpServer.ExecPod
        { toNamespacedNameParams := inp.toNamespacedNameParams, Container := "",
          Command := cmdArgs }).2 with
    | .error _ => flows
    | .ok result =>
      if result.Stderr ≠ "" then flows
      else
        match filterLinesSlice compile (parseOutputSlice result.Stdout) inp.Filter with
        | .error _ => flows
        | .ok lines => limitLinesSlice lines inp.MaxLines

/-! ## Predicates used to state the properties -/

/-- The text holds none of the listed characters. -/
def freeOf (bad : List Char) (e : String) : Prop :=
  ∀ c ∈ e.data, c ∉ bad

/-! ## Test doubles -/

/-- A server whose cluster client answers every call with the same stdout and stderr. -/
def mockServer (stdout stderr : String) : MCPServer :=
  ⟨⟨⟨fun _ _ _ _ => .ok (stdout, stderr)⟩⟩⟩

/-- A regular expression library that knows the pattern `port` only: it matches the
lines that hold the word, and every other pattern fails to compile. -/
def mockCompile : Compile := fun pattern =>
  if pattern = "port" then
    .ok fun line => (Regexp.cat (.cls [('p', 'p')])
      (.cat (.cls [('o', 'o')]) (.cat (.cls [('r', 'r')]) (.cls [('t', 't')])))).MatchString line
  else .error "unsupported pattern"

/-- The characters with a meaning of their own in a regular expression. -/
def metaChars : List Char := "\\.+*?()|[]\x7b\x7d^$".data

/-- The expression that matches a given text literally. -/
def literalRegexp : List Char → Regexp
  | [] => .star (.cls [])
  | [c] => .cls [(c, c)]
  | c :: d :: cs => .cat (.cls [(c, c)]) (literalRegexp (d :: cs))

/-- A regular expression library for literal patterns only: a pattern free of
metacharacters compiles to the search for it as a substring, and every other pattern
fails to compile. -/
def literalCompile : Compile := fun pattern =>
  if pattern.data.any fun c => metaChars.contains c then .error "unsupported pattern"
  else .ok fun line => (literalRegexp pattern.data).MatchString line

/-- A closure that counts its runs and always gives the same answer. -/
def countingThunk (answer : Except Err (List String)) :
    Nat → Except Err (List String) × Nat :=
  fun runs => (answer, runs + 1)

/-! ## Facts about the regular expression matcher -/

theorem char_eq_of_toNat_eq {c d : Char} (h : c.toNat = d.toNat) : c = d := by
  rw [← Char.ofNat_toNat c, ← Char.ofNat_toNat d, h]

/-- A bracket expression that lists single characters holds exactly those. -/
theorem classHas_singletons (l : List Char) (c : Char) :
    classHas (l.map fun d => (d, d)) c = true ↔ c ∈ l := by
  induction l with
  | nil => simp [classHas]
  | cons d ds ih =>
    have ih2 : (ds.map fun d => (d, d)).any
        (fun r => decide (r.1.toNat ≤ c.toNat) && decide (c.toNat ≤ r.2.toNat)) = true ↔
        c ∈ ds := ih
    simp only [classHas, List.map_cons, List.any_cons, Bool.or_eq_true, Bool.and_eq_true,
      decide_eq_true_eq, List.mem_cons, ih2]
    constructor
    · rintro (⟨h1, h2⟩ | h)
      · exact Or.inl (char_eq_of_toNat_eq (Nat.le_antisymm h2 h1))
      · exact Or.inr h
    · rintro (h | h)
      · exact Or.inl ⟨by rw [h], by rw [h]⟩
      · exact Or.inr h

/-- Searching for a bracket expression finds a character of the class. -/
theorem searchFrom_cls (ranges : List (Char × Char)) (total : Nat) (xs : List Char) :
    (Regexp.cls ranges).searchFrom total xs = true ↔ ∃ c ∈ xs, classHas ranges c = true := by
  induction xs with
  | nil => simp [Regexp.searchFrom, Regexp.ends]
  | cons c cs ih =>
    simp only [Regexp.searchFrom, Regexp.ends, Bool.or_eq_true, ih, List.mem_cons,
      exists_eq_or_imp]
    by_cases h : classHas ranges c = true <;> simp [h]

/-- The text matches a pattern of single characters iff it holds one of them. -/
theorem MatchString_singletons (l : List Char) (s : String) :
    (Regexp.cls (l.map fun d => (d, d))).MatchString s = true ↔ ∃ c ∈ s.data, c ∈ l := by
  unfold Regexp.MatchString
  rw [searchFrom_cls]
  simp only [classHas_singletons]

/-- The anchor `^` in front of an expression lets it match at the beginning only. -/
theorem ends_beginText_cat (total : Nat) (r : Regexp) (xs : List Char) :
    (Regexp.cat .beginText r).ends total xs = if xs.length = total then r.ends total xs else [] := by
  by_cases h : xs.length = total <;> simp [Regexp.ends, h]

theorem searchFrom_beginText_short (total : Nat) (r : Regexp) (xs : List Char)
    (h : xs.length < total) : (Regexp.cat .beginText r).searchFrom total xs = false := by
  induction xs with
  | nil =>
    have h0 : ¬ (0 = total) := by intro e; subst e; exact absurd h (by simp)
    simp [Regexp.searchFrom, ends_beginText_cat, h0]
  | cons c cs ih =>
    have h1 : ¬ ((c :: cs).length = total) := Nat.ne_of_lt h
    have h2 : cs.length < total := Nat.lt_of_succ_lt h
    simp only [Regexp.searchFrom, ends_beginText_cat, if_neg h1, ih h2]
    rfl

/-- An anchored expression matches a text iff it matches at its beginning. -/
theorem MatchString_beginText (r : Regexp) (s : String) :
    (Regexp.cat .beginText r).MatchString s = !(r.ends s.data.length s.data).isEmpty := by
  unfold Regexp.MatchString
  cases hs : s.data with
  | nil => simp [Regexp.searchFrom, ends_beginText_cat]
  | cons c cs =>
    simp only [Regexp.searchFrom, ends_beginText_cat, if_true]
    rw [searchFrom_beginText_short _ _ cs (by simp)]
    simp

/-- The anchor `$` after an expression keeps the matches that use up the text. -/
theorem flatMap_endText (total : Nat) (l : List (List Char)) :
    (l.flatMap (Regexp.ends total .endText)).isEmpty = false ↔ [] ∈ l := by
  induction l with
  | nil => simp
  | cons x xs ih =>
    cases x with
    | nil => simp [Regexp.ends]
    | cons c cs =>
      have : Regexp.ends total .endText (c :: cs) = [] := by simp [Regexp.ends]
      simp only [List.flatMap_cons, this, List.nil_append, ih, List.mem_cons]
      simp

/-- A starred bracket expression can use up the text iff every character is in the class. -/
theorem starEnds_cls_nil_mem (total : Nat) (ranges : List (Char × Char)) (cs : List Char) :
    ∀ k, cs.length ≤ k →
      ([] ∈ starEnds (Regexp.ends total (.cls ranges)) k cs ↔
        ∀ c ∈ cs, classHas ranges c = true) := by
  induction cs with
  | nil =>
    intro k _
    cases k <;> simp [starEnds]
  | cons c cs ih =>
    intro k hk
    cases k with
    | zero => simp at hk
    | succ k =>
      have hk2 : cs.length ≤ k := by simpa using hk
      by_cases hc : classHas ranges c = true
      · have hstep : Regexp.ends total (.cls ranges) (c :: cs) = [cs] := by
          simp [Regexp.ends, hc]
        simp [starEnds, hstep, hc, ih k hk2]
      · have hstep : Regexp.ends total (.cls ranges) (c :: cs) = [] := by
          simp [Regexp.ends, hc]
        simp [starEnds, hstep, hc]

/-- The class `[a-zA-Z]` holds the ASCII letters. -/
theorem classHas_letter (c : Char) :
    classHas [('a', 'z'), ('A', 'Z')] c = true ↔ c.isAlpha = true := by
  have e1 : (c.val ≥ 65) ↔ (65 ≤ c.toNat) := Iff.rfl
  have e2 : (c.val ≤ 90) ↔ (c.toNat ≤ 90) := Iff.rfl
  have e3 : (c.val ≥ 97) ↔ (97 ≤ c.toNat) := Iff.rfl
  have e4 : (c.val ≤ 122) ↔ (c.toNat ≤ 122) := Iff.rfl
  have h1 : ('a' : Char).toNat = 97 := rfl
  have h2 : ('z' : Char).toNat = 122 := rfl
  have h3 : ('A' : Char).toNat = 65 := rfl
  have h4 : ('Z' : Char).toNat = 90 := rfl
  simp only [classHas, List.any_cons, List.any_nil, Bool.or_false, Char.isAlpha,
    Char.isUpper, Char.isLower, h1, h2, h3, h4, e1, e2, e3, e4, Bool.or_eq_true,
    Bool.and_eq_true, decide_eq_true_eq]
  omega

/-- The class `[a-zA-Z0-9_]` holds the ASCII letters, the ASCII digits and `_`. -/
theorem classHas_word (d : Char) :
    classHas [('a', 'z'), ('A', 'Z'), ('0', '9'), ('_', '_')] d = true ↔
      (d.isAlphanum = true ∨ d = '_') := by
  have e1 : (d.val ≥ 65) ↔ (65 ≤ d.toNat) := Iff.rfl
  have e2 : (d.val ≤ 90) ↔ (d.toNat ≤ 90) := Iff.rfl
  have e3 : (d.val ≥ 97) ↔ (97 ≤ d.toNat) := Iff.rfl
  have e4 : (d.val ≤ 122) ↔ (d.toNat ≤ 122) := Iff.rfl
  have e5 : (d.val ≥ 48) ↔ (48 ≤ d.toNat) := Iff.rfl
  have e6 : (d.val ≤ 57) ↔ (d.toNat ≤ 57) := Iff.rfl
  have h1 : ('a' : Char).toNat = 97 := rfl
  have h2 : ('z' : Char).toNat = 122 := rfl
  have h3 : ('A' : Char).toNat = 65 := rfl
  have h4 : ('Z' : Char).toNat = 90 := rfl
  have h5 : ('0' : Char).toNat = 48 := rfl
  have h6 : ('9' : Char).toNat = 57 := rfl
  have h7 : ('_' : Char).toNat = 95 := rfl
  have hu : d = '_' ↔ d.toNat = 95 := by
    constructor
    · intro h; rw [h, h7]
    · intro a
      exact char_eq_of_toNat_eq (by rw [h7]; exact a)
  simp only [classHas, List.any_cons, List.any_nil, Bool.or_false, Char.isAlphanum,
    Char.isAlpha, Char.isUpper, Char.isLower, Char.isDigit, h1, h2, h3, h4, h5, h6, h7,
    e1, e2, e3, e4, e5, e6, hu, Bool.or_eq_true, Bool.and_eq_true, decide_eq_true_eq]
  omega

/-- Matching `[A][W]*$` at the front of a text, for bracket expressions `A` and `W`. -/
theorem ends_cls_star_endText (total : Nat) (A W : List (Char × Char)) (xs : List Char) :
    ((Regexp.cat (.cls A) (.cat (.star (.cls W)) .endText)).ends total xs).isEmpty = false ↔
      ∃ c cs, xs = c :: cs ∧ classHas A c = true ∧ ∀ d ∈ cs, classHas W d = true := by
  cases xs with
  | nil => simp [Regexp.ends]
  | cons c cs =>
    by_cases hc : classHas A c = true
    · have h1 : (Regexp.cat (.cls A) (.cat (.star (.cls W)) .endText)).ends total (c :: cs) =
          (starEnds (Regexp.ends total (.cls W)) cs.length cs).flatMap
            (Regexp.ends total .endText) := by
        simp [Regexp.ends, hc]
      rw [h1, flatMap_endText, starEnds_cls_nil_mem total W cs cs.length (Nat.le_refl _)]
      constructor
      · intro h
        exact ⟨c, cs, rfl, hc, h⟩
      · rintro ⟨c2, cs2, he, _, h⟩
        injection he with e1 e2
        subst e1 e2
        exact h
    · have h1 : (Regexp.cat (.cls A) (.cat (.star (.cls W)) .endText)).ends total (c :: cs) =
          [] := by
        simp [Regexp.ends, hc]
      rw [h1]
      constructor
      · intro h; simp at h
      · rintro ⟨c2, cs2, he, h2, _⟩
        injection he with e1 e2
        subst e1
        exact absurd h2 hc

/-- The table name pattern matches a text iff it is a letter followed by word characters. -/
theorem MatchString_validTableNamePattern (s : String) :
    validTableNamePattern.MatchString s = true ↔
      ∃ c cs, s.data = c :: cs ∧ c.isAlpha = true ∧
        ∀ d ∈ cs, d.isAlphanum = true ∨ d = '_' := by
  unfold validTableNamePattern
  rw [MatchString_beginText, Bool.not_eq_true', ends_cls_star_endText]
  simp only [classHas_letter, classHas_word]

/-- The list of the eight characters of `dangerousCharsPattern`. -/
theorem dangerousChars_eq :
    dangerousChars = [';', '&', '|', '$', '`', '<', '>', '\\'] := by decide

/-- The list of the seven characters of `dangerousCharsNoAmpPattern`. -/
theorem dangerousCharsNoAmp_eq :
    dangerousCharsNoAmp = [';', '|', '$', '`', '<', '>', '\\'] := by decide

/-- What `validateSafeString` accepts. -/
theorem validateSafeString_eq_none (value fieldName : String) (allowEmpty : Bool) :
    validateSafeString value fieldName allowEmpty = none ↔
      (value = "" ∧ allowEmpty = true) ∨
        (value ≠ "" ∧ ∀ c ∈ value.data, c ∉ [';', '&', '|', '$', '`', '<', '>', '\\']) := by
  unfold validateSafeString dangerousCharsPattern
  by_cases hv : value = ""
  · cases allowEmpty <;> simp [hv]
  · by_cases hm : (Regexp.cls (dangerousChars.map fun c => (c, c))).MatchString value = true
    · have hm2 := (MatchString_singletons _ _).1 hm
      rw [dangerousChars_eq] at hm2
      obtain ⟨c, hc1, hc2⟩ := hm2
      simp only [if_neg hv, if_pos hm]
      constructor
      · intro h; cases h
      · rintro (⟨h, _⟩ | ⟨_, h⟩)
        · exact absurd h hv
        · exact absurd hc2 (h c hc1)
    · have hm2 := mt (MatchString_singletons _ _).2 hm
      rw [dangerousChars_eq] at hm2
      simp only [if_neg hv, if_neg hm, true_iff]
      right
      exact ⟨hv, fun c hc hd => hm2 ⟨c, hc, hd⟩⟩

/-- What `validateMicroflow` accepts. -/
theorem validateMicroflow_eq_none (microflow : String) :
    validateMicroflow microflow = none ↔
      (microflow ≠ "" ∧ ∀ c ∈ microflow.data, c ∉ [';', '|', '$', '`', '<', '>', '\\']) := by
  unfold validateMicroflow dangerousCharsNoAmpPattern
  by_cases hv : microflow = ""
  · simp [hv]
  · by_cases hm :
        (Regexp.cls (dangerousCharsNoAmp.map fun c => (c, c))).MatchString microflow = true
    · have hm2 := (MatchString_singletons _ _).1 hm
      rw [dangerousCharsNoAmp_eq] at hm2
      obtain ⟨c, hc1, hc2⟩ := hm2
      simp only [if_neg hv, if_pos hm]
      constructor
      · intro h; cases h
      · rintro ⟨_, h⟩
        exact absurd hc2 (h c hc1)
    · have hm2 := mt (MatchString_singletons _ _).2 hm
      rw [dangerousCharsNoAmp_eq] at hm2
      simp only [if_neg hv, if_neg hm, true_iff]
      exact ⟨hv, fun c hc hd => hm2 ⟨c, hc, hd⟩⟩

/-! ## The validators -/

/-- C2: `validateRecordName s` succeeds if and only if `s` is non-empty and contains none
of the eight characters `;`, `&`, `|`, `$`, backtick, `<`, `>`, backslash, and
`validateDatapath` accepts exactly the same strings; a UUID and names with hyphens, dots
and underscores are accepted, and every string that contains one of the eight
characters is rejected by both. -/
theorem validateRecordName_accepts_iff :
    (∀ s : String, validateRecordName s = none ↔
      (s ≠ "" ∧ ∀ c ∈ s.data, c ∉ [';', '&', '|', '$', '`', '<', '>', '\\'])) ∧
    (∀ s : String, validateDatapath s = none ↔ validateRecordName s = none) ∧
    validateRecordName "7a8b9c0d-1234-5678-9abc-def012345678" = none ∧
    validateRecordName "GR_ovn-worker.1" = none ∧
    (∀ s : String, (∃ c ∈ s.data, c ∈ [';', '&', '|', '$', '`', '<', '>', '\\']) →
      validateRecordName s ≠ none ∧ validateDatapath s ≠ none) := by
  have h1 : ∀ s : String, validateRecordName s = none ↔
      (s ≠ "" ∧ ∀ c ∈ s.data, c ∉ [';', '&', '|', '$', '`', '<', '>', '\\']) := by
    intro s
    unfold validateRecordName
    rw [validateSafeString_eq_none]
    simp
  have h2 : ∀ s : String, validateDatapath s = none ↔ validateRecordName s = none := by
    intro s
    unfold validateDatapath validateRecordName
    rw [validateSafeString_eq_none, validateSafeString_eq_none]
  refine ⟨h1, h2, by decide, by decide, ?_⟩
  rintro s ⟨c, hc, hd⟩
  have h3 : validateRecordName s ≠ none := fun h => ((h1 s).1 h).2 c hc hd
  exact ⟨h3, fun h => h3 ((h2 s).1 h)⟩

/-- Instance of C2 at the record `record;drop`. -/
theorem validateRecordName_accepts_iff_witness :
    validateRecordName "record;drop" ≠ none ∧ validateDatapath "record;drop" ≠ none :=
  validateRecordName_accepts_iff.2.2.2.2 "record;drop" ⟨';', by decide, by decide⟩

/-- C3: `validateMicroflow s` succeeds if and only if `s` is non-empty and contains none of
the seven characters `;`, `|`, `$`, backtick, `<`, `>`, backslash; so a non-empty string
whose only characters from the full dangerous set are `&` is accepted, such as a
microflow joined by `&&`. -/
theorem validateMicroflow_accepts_iff :
    (∀ s : String, validateMicroflow s = none ↔
      (s ≠ "" ∧ ∀ c ∈ s.data, c ∉ [';', '|', '$', '`', '<', '>', '\\'])) ∧
    (∀ s : String, s ≠ "" →
      (∀ c ∈ s.data, c ∈ [';', '&', '|', '$', '`', '<', '>', '\\'] → c = '&') →
      validateMicroflow s = none) ∧
    validateMicroflow "inport==\"p\" && ip4.src==10.0.0.1" = none := by
  refine ⟨validateMicroflow_eq_none, ?_, by decide⟩
  intro s hs h
  rw [validateMicroflow_eq_none]
  refine ⟨hs, fun c hc hd => ?_⟩
  have hmem : c ∈ [';', '&', '|', '$', '`', '<', '>', '\\'] := by
    simp only [List.mem_cons, List.mem_singleton] at hd ⊢
    tauto
  have hamp : c = '&' := h c hc hmem
  rw [hamp] at hd
  revert hd
  decide

/-- Instance of C3 at the microflow `a&&b`. -/
theorem validateMicroflow_accepts_iff_witness : validateMicroflow "a&&b" = none :=
  validateMicroflow_accepts_iff.2.1 "a&&b" (by decide) (by decide)

/-- C4: `validateTableName s` succeeds if and only if `s` is non-empty, its first character
is an ASCII letter and every later character is an ASCII letter, an ASCII digit or `_`,
over the whole string (a trailing newline is not allowed); the empty string, `1Table`,
`Logical-Switch`, `Logical Switch` and `Table;drop` are rejected. -/
theorem validateTableName_accepts_iff :
    (∀ s : String, validateTableName s = none ↔
      ∃ c cs, s.data = c :: cs ∧ c.isAlpha = true ∧
        ∀ d ∈ cs, d.isAlphanum = true ∨ d = '_') ∧
    validateTableName "" ≠ none ∧
    validateTableName "1Table" ≠ none ∧
    validateTableName "Logical-Switch" ≠ none ∧
    validateTableName "Logical Switch" ≠ none ∧
    validateTableName "Table;drop" ≠ none ∧
    validateTableName "Table\n" ≠ none := by
  refine ⟨?_, by decide, by decide, by decide, by decide, by decide, by decide⟩
  intro s
  rw [← MatchString_validTableNamePattern]
  unfold validateTableName
  by_cases hs : s = ""
  · subst hs
    simp only [if_true]
    constructor
    · intro h; cases h
    · intro h; revert h; decide
  · by_cases hm : validTableNamePattern.MatchString s = true
    · simp [hs, hm]
    · simp [hs, hm]

/-- C5: `validateDatabase d` succeeds if and only if `d` is exactly `nbdb` or exactly
`sbdb`; the comparison is case-sensitive, so `NBDB`, the empty string and `unknown` are
rejected. -/
theorem validateDatabase_accepts_iff :
    (∀ d : Database, validateDatabase d = none ↔ (d = "nbdb" ∨ d = "sbdb")) ∧
    validateDatabase "NBDB" ≠ none ∧
    validateDatabase "" ≠ none ∧
    validateDatabase "unknown" ≠ none := by
  refine ⟨?_, by decide, by decide, by decide⟩
  intro d
  unfold validateDatabase NorthboundDB SouthboundDB
  by_cases h : d = "nbdb" ∨ d = "sbdb"
  · simp [h]
  · simp [h]

/-- C6: `validateColumnSpec c` succeeds if and only if `c` is empty or `c` contains none of
the eight characters `;`, `&`, `|`, `$`, backtick, `<`, `>`, backslash; the empty column
specification is accepted. -/
theorem validateColumnSpec_accepts_iff :
    (∀ c : String, validateColumnSpec c = none ↔
      (c = "" ∨ ∀ x ∈ c.data, x ∉ [';', '&', '|', '$', '`', '<', '>', '\\'])) ∧
    validateColumnSpec "" = none := by
  refine ⟨?_, by decide⟩
  intro c
  unfold validateColumnSpec
  rw [validateSafeString_eq_none]
  by_cases hc : c = ""
  · simp [hc]
  · simp [hc]

/-! ## The dispatcher -/

/-- The dispatcher makes one call to the cluster client, with an empty container name,
and turns its answer into lines or an error. -/
theorem runCommand_eq (s : MCPServer) (nn : NamespacedNameParams) (commands : List String) :
    s.runCommand nn commands =
      ([⟨nn.Name, nn.Namespace, "", commands⟩],
        match s.k8sMcpServer.clientSet.ExecPod nn.Name nn.Namespace "" commands with
        | .error err => .error err
        | .ok (stdout, stderr) =>
          if stderr ≠ "" then .error (.commandStderr commands nn.Namespace nn.Name stderr)
          else .ok (parseOutput stdout)) := by
  unfold MCPServer.runCommand Kubernetes.MCPServer.ExecPod
  cases h : s.k8sMcpServer.clientSet.ExecPod nn.Name nn.Namespace "" commands with
  | error err => simp [h]
  | ok out =>
    obtain ⟨stdout, stderr⟩ := out
    by_cases hs : stderr = "" <;> simp [h, hs]

/-- Every run of the dispatcher records exactly one call. -/
theorem runCommand_calls (s : MCPServer) (nn : NamespacedNameParams) (commands : List String) :
    (s.runCommand nn commands).1 = [⟨nn.Name, nn.Namespace, "", commands⟩] := by
  rw [runCommand_eq]

/-- The dispatcher on a successful exec with empty stderr. -/
theorem runCommand_ok (s : MCPServer) (nn : NamespacedNameParams) (commands : List String)
    (stdout : String)
    (h : s.k8sMcpServer.clientSet.ExecPod nn.Name nn.Namespace "" commands = .ok (stdout, "")) :
    s.runCommand nn commands =
      ([⟨nn.Name, nn.Namespace, "", commands⟩], .ok (parseOutput stdout)) := by
  rw [runCommand_eq, h]
  simp

/-! ## The handlers -/

/-- The calls made by `Show`. -/
theorem Show_calls (s : MCPServer) (inp : ShowParams) :
    (s.Show inp).calls =
      if validateDatabase inp.Database = none then
        [⟨inp.Name, inp.Namespace, "", [getDBCommand inp.Database, "show"]⟩]
      else [] := by
  unfold MCPServer.Show
  cases hv : validateDatabase inp.Database with
  | some err => simp
  | none =>
    have hc := runCommand_calls s inp.toNamespacedNameParams [getDBCommand inp.Database, "show"]
    dsimp only
    cases hr : s.runCommand inp.toNamespacedNameParams [getDBCommand inp.Database, "show"] with
    | mk calls r =>
      rw [hr] at hc
      cases r <;> simpa using hc

/-- A failed validator stops `Get` before any call. -/
theorem Get_invalid (compile : Compile) (s : MCPServer) (inp : GetParams)
    (h : validateDatabase inp.Database ≠ none ∨ validateTableName inp.Table ≠ none ∨
      validateColumnSpec inp.Columns ≠ none ∨
      (inp.Record ≠ "" ∧ validateRecordName inp.Record ≠ none)) :
    (MCPServer.Get compile s inp).err ≠ none ∧ (MCPServer.Get compile s inp).calls = [] := by
  unfold MCPServer.Get
  cases h1 : validateDatabase inp.Database with
  | some err => simp
  | none =>
    cases h2 : validateTableName inp.Table with
    | some err => simp
    | none =>
      cases h3 : validateColumnSpec inp.Columns with
      | some err => simp
      | none =>
        rcases h with h | h | h | ⟨hr, h⟩
        · exact absurd h1 h
        · exact absurd h2 h
        · exact absurd h3 h
        · cases h4 : validateRecordName inp.Record with
          | none => exact absurd h4 h
          | some err => simp [hr, h4]

/-- The calls made by `Get` on a request that passes validation. -/
theorem Get_valid_calls (compile : Compile) (s : MCPServer) (inp : GetParams)
    (h1 : validateDatabase inp.Database = none) (h2 : validateTableName inp.Table = none)
    (h3 : validateColumnSpec inp.Columns = none)
    (h4 : inp.Record ≠ "" → validateRecordName inp.Record = none) :
    (MCPServer.Get compile s inp).calls =
      [⟨inp.Name, inp.Namespace, "",
        [getDBCommand inp.Database] ++
          (if inp.Columns ≠ "" then ["--columns=" ++ inp.Columns] else []) ++
          ["list", inp.Table] ++ (if inp.Record ≠ "" then [inp.Record] else [])⟩] := by
  unfold MCPServer.Get
  simp only [h1, h2, h3]
  by_cases hr : inp.Record = ""
  · simp only [hr, if_true, ne_eq, not_true_eq_false, if_false]
    generalize hargs : (if ¬inp.Columns = "" then
      [getDBCommand inp.Database] ++ ["--columns=" ++ inp.Columns]
      else [getDBCommand inp.Database]) ++ ["list", inp.Table] = args
    have hargs2 : [getDBCommand inp.Database] ++
          (if ¬inp.Columns = "" then ["--columns=" ++ inp.Columns] else []) ++
          ["list", inp.Table] ++ [] = args := by
      rw [← hargs]; by_cases hc : inp.Columns = "" <;> simp [hc]
    rw [hargs2]
    have hc := runCommand_calls s inp.toNamespacedNameParams args
    cases hrun : s.runCommand inp.toNamespacedNameParams args with
    | mk calls r =>
      rw [hrun] at hc
      simp only at hc
      cases r with
      | error e => simp [hc]
      | ok lines =>
        cases hf : filterLines compile lines inp.Filter <;> simp [hc, hf]
  · simp only [hr, if_false, ne_eq, not_false_eq_true, if_true, h4 hr]
    generalize hargs : (if ¬inp.Columns = "" then
      [getDBCommand inp.Database] ++ ["--columns=" ++ inp.Columns]
      else [getDBCommand inp.Database]) ++ ["list", inp.Table, inp.Record] = args
    have hargs2 : [getDBCommand inp.Database] ++
          (if ¬inp.Columns = "" then ["--columns=" ++ inp.Columns] else []) ++
          ["list", inp.Table] ++ [inp.Record] = args := by
      rw [← hargs]; by_cases hc : inp.Columns = "" <;> simp [hc]
    rw [hargs2]
    have hc := runCommand_calls s inp.toNamespacedNameParams args
    cases hrun : s.runCommand inp.toNamespacedNameParams args with
    | mk calls r =>
      rw [hrun] at hc
      simp only at hc
      cases r with
      | error e => simp [hc]
      | ok lines => simp [hc]

/-- With an empty or compilable pattern `filterLines` succeeds. -/
theorem filterLines_ok (compile : Compile) (lines : List String) (pattern : String)
    (h : pattern = "" ∨ ∃ m, compile pattern = .ok m) :
    ∃ out, filterLines compile lines pattern = .ok out := by
  unfold filterLines
  by_cases hp : pattern = ""
  · exact ⟨lines, by simp [hp]⟩
  · rcases h with h | ⟨m, hm⟩
    · exact absurd h hp
    · simp [hp, hm]

/-- A failed datapath validator stops `ListLogicalFlows` before any call. -/
theorem ListLogicalFlows_invalid (compile : Compile) (s : MCPServer)
    (inp : LogicalFlowListParams) (h0 : inp.Datapath ≠ "")
    (h : validateDatapath inp.Datapath ≠ none) :
    (MCPServer.ListLogicalFlows compile s inp).err ≠ none ∧
      (MCPServer.ListLogicalFlows compile s inp).calls = [] := by
  unfold MCPServer.ListLogicalFlows
  cases h1 : validateDatapath inp.Datapath with
  | none => exact absurd h1 h
  | some err => simp [h0, h1]

/-- The run of `ListLogicalFlows` after validation, in terms of the dispatcher. -/
theorem ListLogicalFlows_valid (compile : Compile) (s : MCPServer)
    (inp : LogicalFlowListParams)
    (h : inp.Datapath = "" ∨ validateDatapath inp.Datapath = none) :
    MCPServer.ListLogicalFlows compile s inp =
      match s.runCommand inp.toNamespacedNameParams
          (["ovn-sbctl", "lflow-list"] ++ (if inp.Datapath ≠ "" then [inp.Datapath] else [])) with
      | (calls, .error err) =>
        ⟨calls, ⟨inp.Datapath, []⟩, some (.lflowListFailed inp.Namespace inp.Name err)⟩
      | (calls, .ok lines) =>
        match filterLines compile lines inp.Filter with
        | .error err => ⟨calls, ⟨inp.Datapath, []⟩, some (.filterFailed err)⟩
        | .ok lines => ⟨calls, ⟨inp.Datapath, limitLines lines inp.MaxLines⟩, none⟩ := by
  unfold MCPServer.ListLogicalFlows
  by_cases h0 : inp.Datapath = ""
  · simp [h0]
  · have h1 : validateDatapath inp.Datapath = none := h.resolve_left h0
    simp [h0, h1]

/-- A failed validator stops `Trace` before any call. -/
theorem Trace_invalid (compile : Compile) (s : MCPServer) (inp : OVNTraceParams)
    (h : validateDatapath inp.Datapath ≠ none ∨ validateMicroflow inp.Microflow ≠ none) :
    (MCPServer.Trace compile s inp).err ≠ none ∧ (MCPServer.Trace compile s inp).calls = [] := by
  unfold MCPServer.Trace
  cases h1 : validateDatapath inp.Datapath with
  | some err => simp
  | none =>
    cases h2 : validateMicroflow inp.Microflow with
    | some err => simp
    | none =>
      rcases h with h | h
      · exact absurd h1 h
      · exact absurd h2 h

/-- The calls made by `Trace` on a request that passes validation: the flag list is
the one the `switch` on the mode builds. -/
theorem Trace_valid_calls (compile : Compile) (s : MCPServer) (inp : OVNTraceParams)
    (h1 : validateDatapath inp.Datapath = none) (h2 : validateMicroflow inp.Microflow = none) :
    (MCPServer.Trace compile s inp).calls =
      [⟨inp.Name, inp.Namespace, "",
        ["ovn-trace"] ++
          (if inp.Mode = "summary" then ["--summary"]
            else if inp.Mode = "minimal" then ["--minimal"]
            else if inp.Mode = "detailed" ∨ inp.Mode = "" then ["--detailed"]
            else []) ++
          [inp.Datapath, inp.Microflow]⟩] := by
  unfold MCPServer.Trace
  simp only [h1, h2, TraceModeSummary, TraceModeMinimal, TraceModeDetailed]
  generalize hargs : (if inp.Mode = "summary" then ["ovn-trace"] ++ ["--summary"]
      else if inp.Mode = "minimal" then ["ovn-trace"] ++ ["--minimal"]
      else if inp.Mode = "detailed" ∨ inp.Mode = "" then ["ovn-trace"] ++ ["--detailed"]
      else ["ovn-trace"]) ++ [inp.Datapath, inp.Microflow] = args
  have hargs2 : ["ovn-trace"] ++
          (if inp.Mode = "summary" then ["--summary"]
            else if inp.Mode = "minimal" then ["--minimal"]
            else if inp.Mode = "detailed" ∨ inp.Mode = "" then ["--detailed"]
            else []) ++
          [inp.Datapath, inp.Microflow] = args := by
    rw [← hargs]
    split_ifs <;> rfl
  rw [hargs2]
  have hc := runCommand_calls s inp.toNamespacedNameParams args
  cases hrun : s.runCommand inp.toNamespacedNameParams args with
  | mk calls r =>
    rw [hrun] at hc
    simp only at hc
    cases r with
    | error e => simp [hc]
    | ok lines =>
      cases hf : filterLines compile lines inp.Filter <;> simp [hc, hf]

/-- C1: in each of the four handlers a failing validator (the database validator of
`Show`; the database, table name, column and, for a non-empty record, record validators
of `Get`; the datapath validator that `ListLogicalFlows` applies to a non-empty datapath;
the datapath and microflow validators of `Trace`) makes the handler return an error
without any call to the cluster client. -/
theorem validator_failure_no_exec :
    (∀ (s : MCPServer) (inp : ShowParams), validateDatabase inp.Database ≠ none →
      (s.Show inp).err ≠ none ∧ (s.Show inp).calls = []) ∧
    (∀ (compile : Compile) (s : MCPServer) (inp : GetParams),
      (validateDatabase inp.Database ≠ none ∨ validateTableName inp.Table ≠ none ∨
        validateColumnSpec inp.Columns ≠ none ∨
        (inp.Record ≠ "" ∧ validateRecordName inp.Record ≠ none)) →
      (MCPServer.Get compile s inp).err ≠ none ∧ (MCPServer.Get compile s inp).calls = []) ∧
    (∀ (compile : Compile) (s : MCPServer) (inp : LogicalFlowListParams),
      inp.Datapath ≠ "" → validateDatapath inp.Datapath ≠ none →
      (MCPServer.ListLogicalFlows compile s inp).err ≠ none ∧
        (MCPServer.ListLogicalFlows compile s inp).calls = []) ∧
    (∀ (compile : Compile) (s : MCPServer) (inp : OVNTraceParams),
      (validateDatapath inp.Datapath ≠ none ∨ validateMicroflow inp.Microflow ≠ none) →
      (MCPServer.Trace compile s inp).err ≠ none ∧
        (MCPServer.Trace compile s inp).calls = []) := by
  refine ⟨?_, Get_invalid, ListLogicalFlows_invalid, Trace_invalid⟩
  intro s inp h
  constructor
  · unfold MCPServer.Show
    cases h1 : validateDatabase inp.Database with
    | none => exact absurd h1 h
    | some err => simp
  · rw [Show_calls, if_neg h]

/-- Instances of C1: `Get` with database `NBDB` and table `x`, and `Trace` with datapath
`dp;rm -rf` and microflow `inport=="p"`. -/
theorem validator_failure_no_exec_witness :
    ((MCPServer.Get mockCompile (mockServer "out" "")
        { Namespace := "ovn-k8s", Name := "pod-a", Database := "NBDB", Table := "x",
          Record := "", Columns := "", Filter := "", MaxLines := 0 }).err ≠ none ∧
      (MCPServer.Get mockCompile (mockServer "out" "")
        { Namespace := "ovn-k8s", Name := "pod-a", Database := "NBDB", Table := "x",
          Record := "", Columns := "", Filter := "", MaxLines := 0 }).calls = []) ∧
    ((MCPServer.Trace mockCompile (mockServer "out" "")
        { Namespace := "ovn-k8s", Name := "pod-a", Datapath := "dp;rm -rf",
          Microflow := "inport==\"p\"", Mode := "", Filter := "", MaxLines := 0 }).err ≠ none ∧
      (MCPServer.Trace mockCompile (mockServer "out" "")
        { Namespace := "ovn-k8s", Name := "pod-a", Datapath := "dp;rm -rf",
          Microflow := "inport==\"p\"", Mode := "", Filter := "", MaxLines := 0 }).calls = []) :=
  ⟨validator_failure_no_exec.2.1 mockCompile (mockServer "out" "")
      { Namespace := "ovn-k8s", Name := "pod-a", Database := "NBDB", Table := "x",
        Record := "", Columns := "", Filter := "", MaxLines := 0 } (Or.inl (by decide)),
    validator_failure_no_exec.2.2.2 mockCompile (mockServer "out" "")
      { Namespace := "ovn-k8s", Name := "pod-a", Datapath := "dp;rm -rf",
        Microflow := "inport==\"p\"", Mode := "", Filter := "", MaxLines := 0 }
      (Or.inl (by decide))⟩

/-- C7: for every `Get` request that passes validation, the cluster client receives one
call whose argv is the binary `getDBCommand database`, then the single element
`--columns=` followed by the columns when the columns are non-empty, then `list` and the
table, then the record when it is non-empty. -/
theorem Get_argv (compile : Compile) (s : MCPServer) (inp : GetParams)
    (h1 : validateDatabase inp.Database = none) (h2 : validateTableName inp.Table = none)
    (h3 : validateColumnSpec inp.Columns = none)
    (h4 : inp.Record ≠ "" → validateRecordName inp.Record = none) :
    (MCPServer.Get compile s inp).calls.map ExecCall.Command =
      [[getDBCommand inp.Database] ++
        (if inp.Columns ≠ "" then ["--columns=" ++ inp.Columns] else []) ++
        ["list", inp.Table] ++ (if inp.Record ≠ "" then [inp.Record] else [])] := by
  rw [Get_valid_calls compile s inp h1 h2 h3 h4]
  rfl

/-- Instances of C7: the columns request and the single record request of the
specification's scenarios. -/
theorem Get_argv_witness :
    (MCPServer.Get mockCompile (mockServer "out" "")
        { Namespace := "ovn-k8s", Name := "pod-a", Database := "nbdb",
          Table := "Logical_Switch", Record := "", Columns := "name,_uuid", Filter := "",
          MaxLines := 0 }).calls.map ExecCall.Command =
      [["ovn-nbctl", "--columns=name,_uuid", "list", "Logical_Switch"]] ∧
    (MCPServer.Get mockCompile (mockServer "out" "")
        { Namespace := "ovn-k8s", Name := "pod-a", Database := "nbdb",
          Table := "Logical_Router", Record := "ovn_cluster_router", Columns := "",
          Filter := "", MaxLines := 0 }).calls.map ExecCall.Command =
      [["ovn-nbctl", "list", "Logical_Router", "ovn_cluster_router"]] :=
  ⟨(Get_argv mockCompile (mockServer "out" "")
      { Namespace := "ovn-k8s", Name := "pod-a", Database := "nbdb",
        Table := "Logical_Switch", Record := "", Columns := "name,_uuid", Filter := "",
        MaxLines := 0 } (by decide) (by decide) (by decide) (by decide)).trans (by decide),
    (Get_argv mockCompile (mockServer "out" "")
      { Namespace := "ovn-k8s", Name := "pod-a", Database := "nbdb",
        Table := "Logical_Router", Record := "ovn_cluster_router", Columns := "",
        Filter := "", MaxLines := 0 } (by decide) (by decide) (by decide) (by decide)).trans
      (by decide)⟩

/-- C8: for every `Trace` request with a valid datapath and microflow and a mode among
the empty string, `detailed`, `summary` and `minimal`, the cluster client receives one
call whose argv is `ovn-trace`, the flag (`--detailed` for the empty mode and for
`detailed`, `--summary` for `summary`, `--minimal` for `minimal`), the datapath, and the
microflow as one unmodified element. -/
theorem Trace_argv (compile : Compile) (s : MCPServer) (inp : OVNTraceParams)
    (h1 : validateDatapath inp.Datapath = none) (h2 : validateMicroflow inp.Microflow = none)
    (hm : inp.Mode = "" ∨ inp.Mode = "detailed" ∨ inp.Mode = "summary" ∨
      inp.Mode = "minimal") :
    (MCPServer.Trace compile s inp).calls.map ExecCall.Command =
      [["ovn-trace",
        if inp.Mode = "summary" then "--summary"
        else if inp.Mode = "minimal" then "--minimal" else "--detailed",
        inp.Datapath, inp.Microflow]] := by
  rw [Trace_valid_calls compile s inp h1 h2]
  rcases hm with h | h | h | h <;> simp [h]

/-- Instance of C8: datapath `node1`, microflow `inport=="p" && ip4.src==10.0.0.1`,
mode `summary`. -/
theorem Trace_argv_witness :
    (MCPServer.Trace mockCompile (mockServer "out" "")
        { Namespace := "ovn-k8s", Name := "pod-a", Datapath := "node1",
          Microflow := "inport==\"p\" && ip4.src==10.0.0.1", Mode := "summary", Filter := "",
          MaxLines := 0 }).calls.map ExecCall.Command =
      [["ovn-trace", "--summary", "node1", "inport==\"p\" && ip4.src==10.0.0.1"]] :=
  (Trace_argv mockCompile (mockServer "out" "")
    { Namespace := "ovn-k8s", Name := "pod-a", Datapath := "node1",
      Microflow := "inport==\"p\" && ip4.src==10.0.0.1", Mode := "summary", Filter := "",
      MaxLines := 0 } (by decide) (by decide) (by decide)).trans (by decide)

/-- C9: for every `ListLogicalFlows` request whose datapath is empty or valid, the
cluster client receives one call whose argv is `ovn-sbctl`, `lflow-list` and then the
datapath when it is non-empty; and when that call succeeds with empty stderr and the
filter is empty or compiles, the handler succeeds, the flows of the result are the
lines `limitLines (filterLines (parseOutput stdout) filter) max_lines`, unjoined, and
the datapath of the result is the one of the request. -/
theorem ListLogicalFlows_spec (compile : Compile) (s : MCPServer)
    (inp : LogicalFlowListParams)
    (hd : inp.Datapath = "" ∨ validateDatapath inp.Datapath = none) :
    (MCPServer.ListLogicalFlows compile s inp).calls.map ExecCall.Command =
        [["ovn-sbctl", "lflow-list"] ++ (if inp.Datapath ≠ "" then [inp.Datapath] else [])] ∧
      ∀ stdout : String,
        s.k8sMcpServer.clientSet.ExecPod inp.Name inp.Namespace ""
            (["ovn-sbctl", "lflow-list"] ++ (if inp.Datapath ≠ "" then [inp.Datapath] else []))
          = .ok (stdout, "") →
        (inp.Filter = "" ∨ ∃ m, compile inp.Filter = .ok m) →
        ∃ lines, filterLines compile (parseOutput stdout) inp.Filter = .ok lines ∧
          (MCPServer.ListLogicalFlows compile s inp).err = none ∧
          (MCPServer.ListLogicalFlows compile s inp).result =
            { Datapath := inp.Datapath, Flows := limitLines lines inp.MaxLines } := by
  rw [ListLogicalFlows_valid compile s inp hd]
  constructor
  · have hc := runCommand_calls s inp.toNamespacedNameParams
      (["ovn-sbctl", "lflow-list"] ++ (if inp.Datapath ≠ "" then [inp.Datapath] else []))
    cases hrun : s.runCommand inp.toNamespacedNameParams
      (["ovn-sbctl", "lflow-list"] ++ (if inp.Datapath ≠ "" then [inp.Datapath] else [])) with
    | mk calls r =>
      rw [hrun] at hc
      simp only at hc
      cases r with
      | error e => simp [hc]
      | ok lines =>
        cases hf : filterLines compile lines inp.Filter <;> simp [hc, hf]
  · intro stdout hexec hfilter
    obtain ⟨lines, hl⟩ := filterLines_ok compile (parseOutput stdout) inp.Filter hfilter
    refine ⟨lines, hl, ?_⟩
    rw [runCommand_ok s inp.toNamespacedNameParams _ stdout hexec]
    simp [hl]

/-- Instance of C9: the flows of datapath `node1` that hold the word `port`, two at most. -/
theorem ListLogicalFlows_spec_witness :
    (MCPServer.ListLogicalFlows mockCompile
        (mockServer "table=0 port a\n\n  table=1 ip4\n table=2 port b\ntable=3 port c\n" "")
        { Namespace := "ovn-k8s", Name := "pod-a", Datapath := "node1", Filter := "port",
          MaxLines := 2 }).calls.map ExecCall.Command = [["ovn-sbctl", "lflow-list", "node1"]] ∧
    (MCPServer.ListLogicalFlows mockCompile
        (mockServer "table=0 port a\n\n  table=1 ip4\n table=2 port b\ntable=3 port c\n" "")
        { Namespace := "ovn-k8s", Name := "pod-a", Datapath := "node1", Filter := "port",
          MaxLines := 2 }).result =
      { Datapath := "node1", Flows := ["table=0 port a", "table=2 port b"] } := by
  have h := ListLogicalFlows_spec mockCompile
    (mockServer "table=0 port a\n\n  table=1 ip4\n table=2 port b\ntable=3 port c\n" "")
    { Namespace := "ovn-k8s", Name := "pod-a", Datapath := "node1", Filter := "port",
      MaxLines := 2 } (Or.inr (by decide))
  refine ⟨h.1.trans (by decide), ?_⟩
  obtain ⟨lines, hl, _, hr⟩ :=
    h.2 "table=0 port a\n\n  table=1 ip4\n table=2 port b\ntable=3 port c\n" rfl
      (Or.inr ⟨_, rfl⟩)
  rw [hr]
  have hl2 : filterLines mockCompile
      (parseOutput "table=0 port a\n\n  table=1 ip4\n table=2 port b\ntable=3 port c\n")
      "port" = .ok ["table=0 port a", "table=2 port b", "table=3 port c"] := by rfl
  have hl3 : lines = ["table=0 port a", "table=2 port b", "table=3 port c"] := by
    have := hl.symm.trans hl2
    injection this
  rw [hl3]
  decide

/-- C10: for every `Show` request with database `nbdb` or `sbdb` on which the exec
succeeds with empty stderr and stdout `stdout`, the cluster client receives one call
with the argv `getDBCommand database`, `show`, the handler succeeds, and the result
holds the database of the request and, as output, the lines
`limitLines (parseOutput stdout) max_lines` joined with newlines. -/
theorem Show_spec (s : MCPServer) (inp : ShowParams) (stdout : String)
    (hdb : inp.Database = "nbdb" ∨ inp.Database = "sbdb")
    (hexec : s.k8sMcpServer.clientSet.ExecPod inp.Name inp.Namespace ""
      [getDBCommand inp.Database, "show"] = .ok (stdout, "")) :
    (s.Show inp).calls.map ExecCall.Command = [[getDBCommand inp.Database, "show"]] ∧
      (s.Show inp).err = none ∧
      (s.Show inp).result =
        { Database := inp.Database,
          Output := String.intercalate "\n" (limitLines (parseOutput stdout) inp.MaxLines) } := by
  have hv : validateDatabase inp.Database = none := by
    unfold validateDatabase NorthboundDB SouthboundDB
    simp [hdb]
  refine ⟨by rw [Show_calls, if_pos hv]; rfl, ?_⟩
  unfold MCPServer.Show
  simp only [hv]
  rw [runCommand_ok s inp.toNamespacedNameParams _ stdout hexec]
  simp [joinLines]

/-- Instance of C10: `Show` on `sbdb` with three lines of output and `max_lines` two. -/
theorem Show_spec_witness :
    (MCPServer.Show (mockServer "Chassis a\n\n    Encap geneve\n  Port_Binding p\n" "")
        { Namespace := "ovn-k8s", Name := "pod-a", Database := "sbdb",
          MaxLines := 2 }).calls.map ExecCall.Command = [["ovn-sbctl", "show"]] ∧
    (MCPServer.Show (mockServer "Chassis a\n\n    Encap geneve\n  Port_Binding p\n" "")
        { Namespace := "ovn-k8s", Name := "pod-a", Database := "sbdb", MaxLines := 2 }).err
      = none ∧
    (MCPServer.Show (mockServer "Chassis a\n\n    Encap geneve\n  Port_Binding p\n" "")
        { Namespace := "ovn-k8s", Name := "pod-a", Database := "sbdb", MaxLines := 2 }).result
      = { Database := "sbdb", Output := "Chassis a\nEncap geneve" } := by
  have h := Show_spec (mockServer "Chassis a\n\n    Encap geneve\n  Port_Binding p\n" "")
    { Namespace := "ovn-k8s", Name := "pod-a", Database := "sbdb", MaxLines := 2 }
    "Chassis a\n\n    Encap geneve\n  Port_Binding p\n" (Or.inr rfl) rfl
  exact ⟨h.1.trans (by decide), h.2.1, h.2.2.trans (by decide)⟩

/-! ## Scenario 1 and the dispatcher contract -/

/-- C11, as stated, fails: in end-to-end scenario 1 the output of `Show` is not
`switch 1 (w)`, newline, four spaces, `port p`; the parser has trimmed the second line. -/
theorem scenario_one_indentation_is_trimmed :
    (MCPServer.Show (mockServer "switch 1 (w)\n\n    port p\n" "")
        { Namespace := "ovn-k8s", Name := "pod-a", Database := "nbdb", MaxLines := 0 }).result
      ≠ { Database := "nbdb", Output := "switch 1 (w)\n    port p" } := by
  decide

/-- C11, amended: `Show` with database `nbdb`, namespace `ovn-k8s`, name `pod-a`, where
the exec returns stdout `switch 1 (w)\n\n    port p\n` and empty stderr, executes the
argv `ovn-nbctl show` and returns the database `nbdb` with the output
`switch 1 (w)\nport p`, each line trimmed of its leading and trailing white space. -/
theorem Show_scenario_one (s : MCPServer)
    (hexec : s.k8sMcpServer.clientSet.ExecPod "pod-a" "ovn-k8s" "" ["ovn-nbctl", "show"] =
      .ok ("switch 1 (w)\n\n    port p\n", "")) :
    (MCPServer.Show s
        { Namespace := "ovn-k8s", Name := "pod-a", Database := "nbdb", MaxLines := 0 }).calls.map ExecCall.Command = [["ovn-nbctl", "show"]] ∧
      (MCPServer.Show s
        { Namespace := "ovn-k8s", Name := "pod-a", Database := "nbdb", MaxLines := 0 }).err = none ∧
      (MCPServer.Show s
        { Namespace := "ovn-k8s", Name := "pod-a", Database := "nbdb", MaxLines := 0 }).result = { Database := "nbdb", Output := "switch 1 (w)\nport p" } := by
  have hv : validateDatabase "nbdb" = none := by decide
  refine ⟨?_, ?_⟩
  · rw [Show_calls, if_pos hv]
    decide
  · unfold MCPServer.Show
    simp only [hv]
    have hcmd : getDBCommand "nbdb" = "ovn-nbctl" := by decide
    have hrun := runCommand_ok s ⟨"ovn-k8s", "pod-a"⟩ ["ovn-nbctl", "show"] _ hexec
    simp only [hcmd, hrun]
    refine ⟨trivial, ?_⟩
    decide

/-- Instance of the amended C11 on the server that always answers with that stdout. -/
theorem Show_scenario_one_witness :
    (MCPServer.Show (mockServer "switch 1 (w)\n\n    port p\n" "")
        { Namespace := "ovn-k8s", Name := "pod-a", Database := "nbdb",
          MaxLines := 0 }).calls.map ExecCall.Command = [["ovn-nbctl", "show"]] ∧
      (MCPServer.Show (mockServer "switch 1 (w)\n\n    port p\n" "")
        { Namespace := "ovn-k8s", Name := "pod-a", Database := "nbdb", MaxLines := 0 }).err
        = none ∧
      (MCPServer.Show (mockServer "switch 1 (w)\n\n    port p\n" "")
        { Namespace := "ovn-k8s", Name := "pod-a", Database := "nbdb", MaxLines := 0 }).result
        = { Database := "nbdb", Output := "switch 1 (w)\nport p" } :=
  Show_scenario_one (mockServer "switch 1 (w)\n\n    port p\n" "") rfl

/-- C13: the dispatcher fails with the error of the exec when the exec fails; fails,
whatever stdout holds, when the exec succeeds with a non-empty stderr; returns
`parseOutput stdout` when the exec succeeds with an empty stderr; so it succeeds if and
only if the exec succeeded with stderr exactly empty. -/
theorem runCommand_spec (s : MCPServer) (nn : NamespacedNameParams) (commands : List String) :
    (∀ err, s.k8sMcpServer.clientSet.ExecPod nn.Name nn.Namespace "" commands = .error err →
      (s.runCommand nn commands).2 = .error err) ∧
    (∀ stdout stderr,
      s.k8sMcpServer.clientSet.ExecPod nn.Name nn.Namespace "" commands = .ok (stdout, stderr) →
      stderr ≠ "" → ∃ e, (s.runCommand nn commands).2 = .error e) ∧
    (∀ stdout,
      s.k8sMcpServer.clientSet.ExecPod nn.Name nn.Namespace "" commands = .ok (stdout, "") →
      (s.runCommand nn commands).2 = .ok (parseOutput stdout)) ∧
    ((∃ lines, (s.runCommand nn commands).2 = .ok lines) ↔
      ∃ stdout,
        s.k8sMcpServer.clientSet.ExecPod nn.Name nn.Namespace "" commands = .ok (stdout, "")) := by
  rw [runCommand_eq]
  cases h : s.k8sMcpServer.clientSet.ExecPod nn.Name nn.Namespace "" commands with
  | error err => simp
  | ok out =>
    obtain ⟨stdout, stderr⟩ := out
    by_cases hs : stderr = ""
    · subst hs
      simp
    · simp [hs]

/-- Instances of C13: a transport error comes back unchanged, and a warning on stderr
makes the dispatcher fail although stdout holds lines. -/
theorem runCommand_spec_witness :
    (MCPServer.runCommand ⟨⟨⟨fun _ _ _ _ => .error (.client "pod not found")⟩⟩⟩
        { Namespace := "ovn-k8s", Name := "pod-a" } ["ovn-nbctl", "show"]).2
      = .error (.client "pod not found") ∧
    (∃ e, (MCPServer.runCommand (mockServer "switch 1 (w)\n" "warning: deprecated")
        { Namespace := "ovn-k8s", Name := "pod-a" } ["ovn-nbctl", "show"]).2 = .error e) ∧
    (MCPServer.runCommand (mockServer "switch 1 (w)\n" "")
        { Namespace := "ovn-k8s", Name := "pod-a" } ["ovn-nbctl", "show"]).2
      = .ok (parseOutput "switch 1 (w)\n") :=
  ⟨(runCommand_spec ⟨⟨⟨fun _ _ _ _ => .error (.client "pod not found")⟩⟩⟩
      { Namespace := "ovn-k8s", Name := "pod-a" } ["ovn-nbctl", "show"]).1 _ rfl,
    (runCommand_spec (mockServer "switch 1 (w)\n" "warning: deprecated")
      { Namespace := "ovn-k8s", Name := "pod-a" } ["ovn-nbctl", "show"]).2.1
      "switch 1 (w)\n" "warning: deprecated" rfl (by decide),
    (runCommand_spec (mockServer "switch 1 (w)\n" "")
      { Namespace := "ovn-k8s", Name := "pod-a" } ["ovn-nbctl", "show"]).2.2.1
      "switch 1 (w)\n" rfl⟩

/-! ## Line windows -/

/-- C16: `limitLines L n` is the prefix of `L` of length `min (len L) m`, where `m` is `n`
when `n > 0` and 100 when `n ≤ 0`; the function is total, so a zero or negative limit is
not an error and selects the default of 100. -/
theorem limitLines_spec (L : List String) (n : Int) :
    limitLines L n = L.take (min L.length (if n > 0 then n else 100).toNat) ∧
      (limitLines L n).length = min L.length (if n > 0 then n else 100).toNat := by
  have key : limitLines L n = L.take (min L.length (if n > 0 then n else 100).toNat) := by
    unfold limitLines defaultMaxLines
    by_cases hn : n ≤ 0
    · have hn2 : ¬ n > 0 := not_lt.mpr hn
      simp only [hn, hn2, if_true, if_false]
      by_cases hl : (L.length : Int) > 100
      · have : (100 : Int).toNat ≤ L.length := by omega
        rw [if_pos hl, Nat.min_eq_right this]
      · have : L.length ≤ (100 : Int).toNat := by omega
        rw [if_neg hl, Nat.min_eq_left this, List.take_length]
    · have hn2 : n > 0 := not_le.mp hn
      simp only [hn, hn2, if_true, if_false]
      by_cases hl : (L.length : Int) > n
      · have : n.toNat ≤ L.length := by omega
        rw [if_pos hl, Nat.min_eq_right this]
      · have : L.length ≤ n.toNat := by omega
        rw [if_neg hl, Nat.min_eq_left this, List.take_length]
  refine ⟨key, ?_⟩
  rw [key, List.length_take]
  omega

/-- The primitive `head` outside its saturation cases. -/
theorem head_inner (L : List String) (n : Int) (h0 : 0 < n) (h1 : n < L.length) :
    Utils.head L n = L.take n.toNat := by
  unfold Utils.head
  have hl : ¬ L.length = 0 := by omega
  have hs : ¬ (n ≤ 0 ∨ n ≥ (L.length : Int)) := by omega
  rw [if_neg hl, if_neg hs]

/-- The primitive `tail` outside its saturation cases. -/
theorem tail_inner (L : List String) (n : Int) (h0 : 0 < n) (h1 : n < L.length) :
    Utils.tail L n = L.drop (L.length - n.toNat) := by
  unfold Utils.tail
  have hl : ¬ L.length = 0 := by omega
  have hs : ¬ (n ≤ 0 ∨ n ≥ (L.length : Int)) := by omega
  have he : ((L.length : Int) - n).toNat = L.length - n.toNat := by omega
  rw [if_neg hl, if_neg hs, he]

/-- The primitive `head` in its saturation cases. -/
theorem head_saturated (L : List String) (n : Int)
    (h : L = [] ∨ n ≤ 0 ∨ n ≥ (L.length : Int)) : Utils.head L n = L := by
  unfold Utils.head
  by_cases hl : L.length = 0
  · rw [if_pos hl]
  · have hs : n ≤ 0 ∨ n ≥ (L.length : Int) := by
      rcases h with h | h
      · exact absurd (by rw [h]; rfl) hl
      · exact h
    rw [if_neg hl, if_pos hs]

/-- The primitive `tail` in its saturation cases. -/
theorem tail_saturated (L : List String) (n : Int)
    (h : L = [] ∨ n ≤ 0 ∨ n ≥ (L.length : Int)) : Utils.tail L n = L := by
  unfold Utils.tail
  by_cases hl : L.length = 0
  · rw [if_pos hl]
  · have hs : n ≤ 0 ∨ n ≥ (L.length : Int) := by
      rcases h with h | h
      · exact absurd (by rw [h]; rfl) hl
      · exact h
    rw [if_neg hl, if_pos hs]

/-- C17: `Apply` follows the windowing table: no head and no tail gives `head L d`; a
positive head alone gives `head L head`; a positive tail alone gives `tail L tail`; both
positive give `tail (head L head) tail` when `apply_tail_first` is false and
`head (tail L tail) head` when it is true; and when at most one of the two is set the
flag `apply_tail_first` does not change the result. -/
theorem Apply_table (L : List String) (d : Int) :
    (∀ b, Utils.HeadTailParams.Apply ⟨0, 0, b⟩ L d = Utils.head L d) ∧
    (∀ h b, h > 0 → Utils.HeadTailParams.Apply ⟨h, 0, b⟩ L d = Utils.head L h) ∧
    (∀ t b, t > 0 → Utils.HeadTailParams.Apply ⟨0, t, b⟩ L d = Utils.tail L t) ∧
    (∀ h t, h > 0 → t > 0 →
      Utils.HeadTailParams.Apply ⟨h, t, false⟩ L d = Utils.tail (Utils.head L h) t ∧
      Utils.HeadTailParams.Apply ⟨h, t, true⟩ L d = Utils.head (Utils.tail L t) h) ∧
    (∀ h t, h = 0 ∨ t = 0 →
      Utils.HeadTailParams.Apply ⟨h, t, true⟩ L d =
        Utils.HeadTailParams.Apply ⟨h, t, false⟩ L d) := by
  refine ⟨?_, ?_, ?_, ?_, ?_⟩
  · intro b
    simp [Utils.HeadTailParams.Apply]
  · intro h b hh
    have : h ≠ 0 := by omega
    simp [Utils.HeadTailParams.Apply, this]
  · intro t b ht
    have : t ≠ 0 := by omega
    simp [Utils.HeadTailParams.Apply, this]
  · intro h t hh ht
    have h1 : h ≠ 0 := by omega
    have h2 : t ≠ 0 := by omega
    simp [Utils.HeadTailParams.Apply, h1, h2]
  · intro h t hz
    rcases hz with hz | hz
    · subst hz
      by_cases ht : t = 0 <;> simp [Utils.HeadTailParams.Apply, ht]
    · subst hz
      by_cases hh : h = 0 <;> simp [Utils.HeadTailParams.Apply, hh]

/-- Instances of C17 on five lines with default 2: head 3 and tail 2, head first, gives
lines 2 and 3; head 2 and tail 3, tail first, gives lines 3 and 4. -/
theorem Apply_table_witness :
    Utils.HeadTailParams.Apply ⟨3, 2, false⟩
        ["line 1", "line 2", "line 3", "line 4", "line 5"] 2 = ["line 2", "line 3"] ∧
    Utils.HeadTailParams.Apply ⟨2, 3, true⟩
        ["line 1", "line 2", "line 3", "line 4", "line 5"] 2 = ["line 3", "line 4"] :=
  ⟨((Apply_table ["line 1", "line 2", "line 3", "line 4", "line 5"] 2).2.2.2.1 3 2
      (by decide) (by decide)).1.trans (by decide),
    ((Apply_table ["line 1", "line 2", "line 3", "line 4", "line 5"] 2).2.2.2.1 2 3
      (by decide) (by decide)).2.trans (by decide)⟩

/-- C18: `head` and `tail` saturate: when `L` is empty, or `n ≤ 0`, or `n ≥ len L`, both
return `L`; otherwise `head L n` is the first `n` elements of `L` and `tail L n` is the
last `n` elements of `L`. -/
theorem head_tail_saturate (L : List String) (n : Int) :
    ((L = [] ∨ n ≤ 0 ∨ n ≥ (L.length : Int)) → Utils.head L n = L ∧ Utils.tail L n = L) ∧
    (¬ (L = [] ∨ n ≤ 0 ∨ n ≥ (L.length : Int)) →
      Utils.head L n = L.take n.toNat ∧ (Utils.head L n).length = n.toNat ∧
      Utils.tail L n = L.drop (L.length - n.toNat) ∧ (Utils.tail L n).length = n.toNat ∧
      L.take (L.length - n.toNat) ++ Utils.tail L n = L) := by
  constructor
  · intro h
    exact ⟨head_saturated L n h, tail_saturated L n h⟩
  · intro h
    have h0 : 0 < n := by
      by_contra hc
      exact h (Or.inr (Or.inl (not_lt.mp hc)))
    have h1 : n < (L.length : Int) := by
      by_contra hc
      exact h (Or.inr (Or.inr (not_lt.mp hc)))
    rw [head_inner L n h0 h1, tail_inner L n h0 h1]
    refine ⟨rfl, ?_, rfl, ?_, List.take_append_drop _ _⟩
    · rw [List.length_take]; omega
    · rw [List.length_drop]; omega

/-- Instances of C18 on five lines: two lines are cut from either end, and a count of
zero, a negative count or a count of ten returns all five lines. -/
theorem head_tail_saturate_witness :
    (Utils.head ["line 1", "line 2", "line 3", "line 4", "line 5"] 2 = ["line 1", "line 2"] ∧
      Utils.tail ["line 1", "line 2", "line 3", "line 4", "line 5"] 2 = ["line 4", "line 5"]) ∧
    (Utils.head ["line 1", "line 2", "line 3", "line 4", "line 5"] (-1) =
        ["line 1", "line 2", "line 3", "line 4", "line 5"] ∧
      Utils.tail ["line 1", "line 2", "line 3", "line 4", "line 5"] (-1) =
        ["line 1", "line 2", "line 3", "line 4", "line 5"]) ∧
    (Utils.head ["line 1", "line 2", "line 3", "line 4", "line 5"] 10 =
        ["line 1", "line 2", "line 3", "line 4", "line 5"] ∧
      Utils.tail ["line 1", "line 2", "line 3", "line 4", "line 5"] 10 =
        ["line 1", "line 2", "line 3", "line 4", "line 5"]) := by
  have h := (head_tail_saturate ["line 1", "line 2", "line 3", "line 4", "line 5"] 2).2
    (by decide)
  exact ⟨⟨h.1.trans (by decide), h.2.2.1.trans (by decide)⟩,
    (head_tail_saturate ["line 1", "line 2", "line 3", "line 4", "line 5"] (-1)).1
      (Or.inr (Or.inl (by decide))),
    (head_tail_saturate ["line 1", "line 2", "line 3", "line 4", "line 5"] 10).1
      (Or.inr (Or.inr (by decide)))⟩

/-! ## The parser -/

/-- A loop that appends the elements passing a test builds the filtered list. -/
theorem foldl_append_filter {α : Type} (q : α → Bool) (l init : List α) :
    l.foldl (fun acc x => if q x = true then acc ++ [x] else acc) init = init ++ l.filter q := by
  induction l generalizing init with
  | nil => simp
  | cons x xs ih =>
    by_cases hq : q x = true
    · simp [List.foldl_cons, hq, ih, List.filter_cons]
    · simp [List.foldl_cons, hq, ih, List.filter_cons]

/-- The loop of `parseOutput` from an arbitrary start. -/
theorem parseOutput_loop (l init : List String) :
    l.foldl
        (fun output line =>
          let line := TrimSpace line
          if line ≠ "" then output ++ [line] else output) init =
      init ++ (l.map TrimSpace).filter fun t => decide (t ≠ "") := by
  induction l generalizing init with
  | nil => simp
  | cons x xs ih =>
    rw [List.foldl_cons, ih]
    by_cases hq : TrimSpace x = ""
    · simp [hq, List.filter_cons]
    · simp [hq, List.filter_cons]

/-- The parser keeps the trimmed pieces that are not empty. -/
theorem parseOutput_eq (s : String) :
    parseOutput s = ((Split s).map TrimSpace).filter fun t => decide (t ≠ "") := by
  unfold parseOutput
  rw [parseOutput_loop]
  simp

/-- A trimmed text does not start with white space. -/
theorem TrimSpace_head (x : String) (c : Char) (h : (TrimSpace x).data.head? = some c) :
    isSpace c = false := by
  unfold TrimSpace at h
  simp only at h
  have hsplit := List.takeWhile_append_dropWhile isSpace (x.data.dropWhile isSpace).reverse
  have hrev : ((x.data.dropWhile isSpace).reverse.dropWhile isSpace).reverse ++
      ((x.data.dropWhile isSpace).reverse.takeWhile isSpace).reverse =
      x.data.dropWhile isSpace := by
    rw [← List.reverse_append, hsplit, List.reverse_reverse]
  have hhead : (x.data.dropWhile isSpace).head? = some c := by
    rw [← hrev, List.head?_append, h]
    rfl
  have hnot := List.head?_dropWhile_not isSpace x.data
  rw [hhead] at hnot
  exact hnot

/-- A trimmed text does not end with white space. -/
theorem TrimSpace_getLast (x : String) (c : Char)
    (h : (TrimSpace x).data.getLast? = some c) : isSpace c = false := by
  unfold TrimSpace at h
  simp only [List.getLast?_reverse] at h
  have hnot := List.head?_dropWhile_not isSpace (x.data.dropWhile isSpace).reverse
  rw [h] at hnot
  exact hnot

/-- Trimming a text made of white space leaves nothing. -/
theorem TrimSpace_of_all_space (x : String) (h : ∀ c ∈ x.data, isSpace c = true) :
    TrimSpace x = "" := by
  unfold TrimSpace
  have h1 : x.data.dropWhile isSpace = [] := List.dropWhile_eq_nil_iff.2 h
  rw [h1]
  rfl

/-- The characters of the pieces of a text are characters of the text. -/
theorem mem_of_mem_splitNewline (xs : List Char) :
    ∀ piece ∈ splitNewline xs, ∀ c ∈ piece, c ∈ xs := by
  induction xs with
  | nil =>
    intro piece hp c hc
    simp [splitNewline] at hp
    subst hp
    exact hc
  | cons x xs ih =>
    intro piece hp c hc
    unfold splitNewline at hp
    by_cases hx : x = '\n'
    · rw [if_pos hx] at hp
      rcases List.mem_cons.1 hp with h | h
      · subst h
        cases hc
      · exact List.mem_cons_of_mem _ (ih piece h c hc)
    · rw [if_neg hx] at hp
      cases hsp : splitNewline xs with
      | nil =>
        rw [hsp] at hp
        simp only [List.mem_singleton] at hp
        subst hp
        simp only [List.mem_singleton] at hc
        rw [hc]
        exact List.mem_cons_self _ _
      | cons l ls =>
        rw [hsp] at hp ih
        rcases List.mem_cons.1 hp with h | h
        · subst h
          rcases List.mem_cons.1 hc with h2 | h2
          · rw [h2]
            exact List.mem_cons_self _ _
          · exact List.mem_cons_of_mem _ (ih l (List.mem_cons_self _ _) c h2)
        · exact List.mem_cons_of_mem _ (ih piece (List.mem_cons_of_mem _ h) c hc)

/-- C14: no element of `parseOutput s` is the empty string, and no element starts or
ends with a white space character; the parser returns no line for the empty string and
for every text made of newlines and other white space only, and one line for `hello`
and for `hello` followed by a newline. -/
theorem parseOutput_normalised :
    (∀ (s : String), ∀ l ∈ parseOutput s,
      l ≠ "" ∧ (∀ c, l.data.head? = some c → isSpace c = false) ∧
        (∀ c, l.data.getLast? = some c → isSpace c = false)) ∧
    parseOutput "" = [] ∧
    parseOutput "\n\n\n" = [] ∧
    parseOutput "   \n   \n   " = [] ∧
    (∀ s : String, (∀ c ∈ s.data, isSpace c = true) → parseOutput s = []) ∧
    parseOutput "hello" = ["hello"] ∧
    parseOutput "hello\n" = ["hello"] := by
  refine ⟨?_, by decide, by decide, by decide, ?_, by decide, by decide⟩
  · intro s l hl
    rw [parseOutput_eq] at hl
    obtain ⟨hmem, hne⟩ := List.mem_filter.1 hl
    obtain ⟨x, _, hx⟩ := List.mem_map.1 hmem
    subst hx
    refine ⟨by simpa using hne, TrimSpace_head x, TrimSpace_getLast x⟩
  · intro s hs
    rw [parseOutput_eq]
    apply List.filter_eq_nil_iff.2
    intro t ht
    obtain ⟨x, hx, hxt⟩ := List.mem_map.1 ht
    subst hxt
    unfold Split at hx
    obtain ⟨piece, hpiece, hpx⟩ := List.mem_map.1 hx
    subst hpx
    have hall : ∀ c ∈ (String.mk piece).data, isSpace c = true :=
      fun c hc => hs c (mem_of_mem_splitNewline s.data piece hpiece c hc)
    simp [TrimSpace_of_all_space _ hall]

/-- Instance of C14 on a text of tabs, spaces, carriage returns and newlines. -/
theorem parseOutput_normalised_witness : parseOutput " \t\r\n \n\n" = [] :=
  parseOutput_normalised.2.2.2.2.1 " \t\r\n \n\n" (by decide)

/-! ## Filtering -/

/-- The loop of `filterLines` keeps the lines the compiled pattern matches. -/
theorem filterLines_compiled (compile : Compile) (L : List String) (P : String)
    (m : String → Bool) (hP : P ≠ "") (hm : compile P = .ok m) :
    filterLines compile L P = .ok (L.filter m) := by
  unfold filterLines
  rw [if_neg hP, hm]
  simp only
  rw [foldl_append_filter m L []]
  rfl

/-- The run of `Get` on a request that passes validation and on which the exec succeeds
with empty stderr: the filter is consulted in list mode only. -/
theorem Get_valid_run (compile : Compile) (s : MCPServer) (inp : GetParams) (stdout : String)
    (h1 : validateDatabase inp.Database = none) (h2 : validateTableName inp.Table = none)
    (h3 : validateColumnSpec inp.Columns = none)
    (h4 : inp.Record ≠ "" → validateRecordName inp.Record = none)
    (hexec : s.k8sMcpServer.clientSet.ExecPod inp.Name inp.Namespace ""
      ([getDBCommand inp.Database] ++
        (if inp.Columns ≠ "" then ["--columns=" ++ inp.Columns] else []) ++
        ["list", inp.Table] ++ (if inp.Record ≠ "" then [inp.Record] else []))
      = .ok (stdout, "")) :
    MCPServer.Get compile s inp =
      match (if inp.Record = "" then filterLines compile (parseOutput stdout) inp.Filter
        else .ok (parseOutput stdout)) with
      | .error err =>
        ⟨[⟨inp.Name, inp.Namespace, "",
            [getDBCommand inp.Database] ++
              (if inp.Columns ≠ "" then ["--columns=" ++ inp.Columns] else []) ++
              ["list", inp.Table] ++ (if inp.Record ≠ "" then [inp.Record] else [])⟩],
          ⟨inp.Database, inp.Table, inp.Record, ""⟩, some (.filterFailed err)⟩
      | .ok lines =>
        ⟨[⟨inp.Name, inp.Namespace, "",
            [getDBCommand inp.Database] ++
              (if inp.Columns ≠ "" then ["--columns=" ++ inp.Columns] else []) ++
              ["list", inp.Table] ++ (if inp.Record ≠ "" then [inp.Record] else [])⟩],
          ⟨inp.Database, inp.Table, inp.Record, joinLines (limitLines lines inp.MaxLines)⟩,
          none⟩ := by
  unfold MCPServer.Get
  simp only [h1, h2, h3]
  by_cases hr : inp.Record = ""
  · simp only [hr, if_true, ne_eq, not_true_eq_false, if_false] at hexec ⊢
    generalize hargs : (if ¬inp.Columns = "" then
      [getDBCommand inp.Database] ++ ["--columns=" ++ inp.Columns]
      else [getDBCommand inp.Database]) ++ ["list", inp.Table] = args
    have hargs2 : [getDBCommand inp.Database] ++
          (if ¬inp.Columns = "" then ["--columns=" ++ inp.Columns] else []) ++
          ["list", inp.Table] ++ [] = args := by
      rw [← hargs]; by_cases hc : inp.Columns = "" <;> simp [hc]
    rw [hargs2] at hexec ⊢
    rw [runCommand_ok s inp.toNamespacedNameParams args stdout hexec]
  · simp only [hr, if_false, ne_eq, not_false_eq_true, if_true, h4 hr] at hexec ⊢
    generalize hargs : (if ¬inp.Columns = "" then
      [getDBCommand inp.Database] ++ ["--columns=" ++ inp.Columns]
      else [getDBCommand inp.Database]) ++ ["list", inp.Table, inp.Record] = args
    have hargs2 : [getDBCommand inp.Database] ++
          (if ¬inp.Columns = "" then ["--columns=" ++ inp.Columns] else []) ++
          ["list", inp.Table] ++ [inp.Record] = args := by
      rw [← hargs]; by_cases hc : inp.Columns = "" <;> simp [hc]
    rw [hargs2] at hexec ⊢
    rw [runCommand_ok s inp.toNamespacedNameParams args stdout hexec]

/-- C12: `Get` applies the filter if and only if the record is empty.  On a valid request
on which the exec succeeds with empty stderr and stdout `stdout`: with a non-empty
record the handler succeeds and the output is the lines
`limitLines (parseOutput stdout) max_lines` joined with newlines, whatever the filter is
(one that matches nothing or one that does not compile included); with an empty record
the output is `limitLines (filterLines (parseOutput stdout) filter) max_lines` joined with
newlines, and a filter that does not compile gives an error. -/
theorem Get_filter_in_list_mode_only (compile : Compile) (s : MCPServer) (inp : GetParams)
    (stdout : String)
    (h1 : validateDatabase inp.Database = none) (h2 : validateTableName inp.Table = none)
    (h3 : validateColumnSpec inp.Columns = none)
    (h4 : inp.Record ≠ "" → validateRecordName inp.Record = none)
    (hexec : s.k8sMcpServer.clientSet.ExecPod inp.Name inp.Namespace ""
      ([getDBCommand inp.Database] ++
        (if inp.Columns ≠ "" then ["--columns=" ++ inp.Columns] else []) ++
        ["list", inp.Table] ++ (if inp.Record ≠ "" then [inp.Record] else []))
      = .ok (stdout, "")) :
    (inp.Record ≠ "" →
      (MCPServer.Get compile s inp).err = none ∧
      (MCPServer.Get compile s inp).result.Output =
        String.intercalate "\n" (limitLines (parseOutput stdout) inp.MaxLines)) ∧
    (inp.Record = "" →
      (∀ lines, filterLines compile (parseOutput stdout) inp.Filter = .ok lines →
        (MCPServer.Get compile s inp).err = none ∧
        (MCPServer.Get compile s inp).result.Output =
          String.intercalate "\n" (limitLines lines inp.MaxLines)) ∧
      (∀ cause, inp.Filter ≠ "" → compile inp.Filter = .error cause →
        (MCPServer.Get compile s inp).err ≠ none)) := by
  rw [Get_valid_run compile s inp stdout h1 h2 h3 h4 hexec]
  constructor
  · intro hr
    simp [hr, joinLines]
  · intro hr
    constructor
    · intro lines hl
      simp [hr, hl, joinLines]
    · intro cause hne hc
      have hf : filterLines compile (parseOutput stdout) inp.Filter =
          .error (.invalidFilter inp.Filter cause) := by
        unfold filterLines
        rw [if_neg hne, hc]
      simp [hr, hf]

/-- Instances of C12: for the record `ovn_cluster_router` of `Logical_Router` all five
lines of stdout come back under the filter `xyz`, which matches none of them, and under
a filter that does not compile; in list mode the filter `xyz` leaves nothing. -/
theorem Get_filter_in_list_mode_only_witness :
    (MCPServer.Get literalCompile
        (mockServer "_uuid : 4c4a\nname : r\nports : p\nnat : n\n\noptions : o\n" "")
        { Namespace := "ovn-k8s", Name := "pod-a", Database := "nbdb",
          Table := "Logical_Router", Record := "ovn_cluster_router", Columns := "",
          Filter := "xyz", MaxLines := 0 }).result.Output =
      "_uuid : 4c4a\nname : r\nports : p\nnat : n\noptions : o" ∧
    (MCPServer.Get literalCompile
        (mockServer "_uuid : 4c4a\nname : r\nports : p\nnat : n\n\noptions : o\n" "")
        { Namespace := "ovn-k8s", Name := "pod-a", Database := "nbdb",
          Table := "Logical_Router", Record := "ovn_cluster_router", Columns := "",
          Filter := "[invalid", MaxLines := 0 }).err = none ∧
    (MCPServer.Get literalCompile
        (mockServer "_uuid : 4c4a\nname : r\nports : p\nnat : n\n\noptions : o\n" "")
        { Namespace := "ovn-k8s", Name := "pod-a", Database := "nbdb",
          Table := "Logical_Router", Record := "", Columns := "",
          Filter := "[invalid", MaxLines := 0 }).err ≠ none := by
  have ha := (Get_filter_in_list_mode_only literalCompile
    (mockServer "_uuid : 4c4a\nname : r\nports : p\nnat : n\n\noptions : o\n" "")
    { Namespace := "ovn-k8s", Name := "pod-a", Database := "nbdb",
      Table := "Logical_Router", Record := "ovn_cluster_router", Columns := "",
      Filter := "xyz", MaxLines := 0 }
    "_uuid : 4c4a\nname : r\nports : p\nnat : n\n\noptions : o\n"
    (by decide) (by decide) (by decide) (by decide) rfl).1 (by decide)
  have hb := (Get_filter_in_list_mode_only literalCompile
    (mockServer "_uuid : 4c4a\nname : r\nports : p\nnat : n\n\noptions : o\n" "")
    { Namespace := "ovn-k8s", Name := "pod-a", Database := "nbdb",
      Table := "Logical_Router", Record := "ovn_cluster_router", Columns := "",
      Filter := "[invalid", MaxLines := 0 }
    "_uuid : 4c4a\nname : r\nports : p\nnat : n\n\noptions : o\n"
    (by decide) (by decide) (by decide) (by decide) rfl).1 (by decide)
  have hc := ((Get_filter_in_list_mode_only literalCompile
    (mockServer "_uuid : 4c4a\nname : r\nports : p\nnat : n\n\noptions : o\n" "")
    { Namespace := "ovn-k8s", Name := "pod-a", Database := "nbdb",
      Table := "Logical_Router", Record := "", Columns := "",
      Filter := "[invalid", MaxLines := 0 }
    "_uuid : 4c4a\nname : r\nports : p\nnat : n\n\noptions : o\n"
    (by decide) (by decide) (by decide) (by decide) rfl).2 rfl).2
    "unsupported pattern" (by decide) rfl
  exact ⟨ha.2.trans (by decide), hb.1, hc⟩

/-- C15: `filterLines L P` returns `L` unchanged when `P` is empty; fails when `P` is not
empty and does not compile; and otherwise returns, in their order, exactly the lines of
`L` that the compiled expression matches, which is the empty sequence when it matches
no line. -/
theorem filterLines_spec (compile : Compile) (L : List String) (P : String) :
    (P = "" → filterLines compile L P = .ok L) ∧
    (P ≠ "" → ∀ cause, compile P = .error cause → ∃ e, filterLines compile L P = .error e) ∧
    (P ≠ "" → ∀ m, compile P = .ok m →
      filterLines compile L P = .ok (L.filter m) ∧
      ((∀ l ∈ L, m l = false) → filterLines compile L P = .ok [])) := by
  refine ⟨?_, ?_, ?_⟩
  · intro hP
    simp [filterLines, hP]
  · intro hP cause hc
    refine ⟨.invalidFilter P cause, ?_⟩
    unfold filterLines
    rw [if_neg hP, hc]
  · intro hP m hm
    have key := filterLines_compiled compile L P m hP hm
    refine ⟨key, fun hall => ?_⟩
    rw [key]
    have : L.filter m = [] := List.filter_eq_nil_iff.2 (fun l hl => by simp [hall l hl])
    rw [this]

/-- Instances of C15 with the library of literal patterns: the pattern `[invalid` makes
`filterLines` fail; the pattern `table=0` keeps the lines that hold it anywhere, in
their order; a pattern that occurs in no line gives the empty sequence. -/
theorem filterLines_spec_witness :
    (∃ e, filterLines literalCompile ["test line 1", "test line 2"] "[invalid" = .error e) ∧
    filterLines literalCompile ["table=0 a", "table=1 b", "c table=0", "table=", "xtable=0y"]
        "table=0" = .ok ["table=0 a", "c table=0", "xtable=0y"] ∧
    filterLines literalCompile ["test line 1", "test line 2"] "line 3" = .ok [] := by
  refine ⟨?_, ?_, ?_⟩
  · exact (filterLines_spec literalCompile ["test line 1", "test line 2"] "[invalid").2.1
      (by decide) "unsupported pattern" rfl
  · exact ((filterLines_spec literalCompile
      ["table=0 a", "table=1 b", "c table=0", "table=", "xtable=0y"] "table=0").2.2
      (by decide) _ rfl).1.trans (by rfl)
  · exact ((filterLines_spec literalCompile ["test line 1", "test line 2"] "line 3").2.2
      (by decide) _ rfl).2 (by decide)

/-- The run of `ExecuteWithMatch` on a compiled pattern: the closure runs, and its
lines are filtered or its error is handed on. -/
theorem ExecuteWithMatch_compiled {σ : Type} (compile : Compile) (P : String)
    (f : σ → Except Err (List String) × σ) (st : σ) (m : String → Bool)
    (hP : P ≠ "") (hm : compile P = .ok m) :
    Utils.PatternParams.ExecuteWithMatch compile ⟨P⟩ f st =
      (match (f st).1 with
        | .error err => .error err
        | .ok lines => .ok (lines.filter m),
        (f st).2) := by
  unfold Utils.PatternParams.ExecuteWithMatch
  simp only [if_neg hP, hm]
  cases hf : f st with
  | mk r st1 =>
    cases r with
    | error err => rfl
    | ok lines =>
      simp only
      rw [foldl_append_filter m lines []]
      rfl

/-- The run of `ExecuteWithMatch` on a pattern that does not compile: the closure
does not run. -/
theorem ExecuteWithMatch_not_compiled {σ : Type} (compile : Compile) (P : String)
    (f : σ → Except Err (List String) × σ) (st : σ) (cause : String)
    (hP : P ≠ "") (hc : compile P = .error cause) :
    Utils.PatternParams.ExecuteWithMatch compile ⟨P⟩ f st =
      (.error (.invalidSearchPattern cause), st) := by
  unfold Utils.PatternParams.ExecuteWithMatch
  simp only [if_neg hP, hc]

/-- C19: on a closure that returns the lines `L` without error, `ExecuteWithMatch` with
the pattern `P` succeeds if and only if `filterLines L P` succeeds, and when both
succeed they return the same lines. -/
theorem ExecuteWithMatch_agrees_with_filterLines {σ : Type} (compile : Compile)
    (L : List String) (P : String) (f : σ → Except Err (List String) × σ) (st : σ)
    (hf : (f st).1 = .ok L) :
    ((∃ out, (Utils.PatternParams.ExecuteWithMatch compile ⟨P⟩ f st).1 = .ok out) ↔
      ∃ out, filterLines compile L P = .ok out) ∧
    (∀ out1 out2, (Utils.PatternParams.ExecuteWithMatch compile ⟨P⟩ f st).1 = .ok out1 →
      filterLines compile L P = .ok out2 → out1 = out2) := by
  by_cases hP : P = ""
  · have h1 : (Utils.PatternParams.ExecuteWithMatch compile ⟨P⟩ f st).1 = .ok L := by
      unfold Utils.PatternParams.ExecuteWithMatch
      simp only [hP, if_true]
      exact hf
    have h2 : filterLines compile L P = .ok L := by simp [filterLines, hP]
    rw [h1, h2]
    refine ⟨⟨fun _ => ⟨L, rfl⟩, fun _ => ⟨L, rfl⟩⟩, ?_⟩
    intro out1 out2 e1 e2
    injection e1 with e1
    injection e2 with e2
    rw [← e1, ← e2]
  · cases hc : compile P with
    | error cause =>
      have h1 := ExecuteWithMatch_not_compiled compile P f st cause hP hc
      have h2 : filterLines compile L P = .error (.invalidFilter P cause) := by
        unfold filterLines
        rw [if_neg hP, hc]
      rw [h1, h2]
      refine ⟨⟨?_, ?_⟩, ?_⟩
      · rintro ⟨out, h⟩; cases h
      · rintro ⟨out, h⟩; cases h
      · intro out1 out2 e1; cases e1
    | ok m =>
      have h1 := ExecuteWithMatch_compiled compile P f st m hP hc
      have h2 := filterLines_compiled compile L P m hP hc
      rw [h1, h2, hf]
      refine ⟨⟨fun _ => ⟨_, rfl⟩, fun _ => ⟨_, rfl⟩⟩, ?_⟩
      intro out1 out2 e1 e2
      injection e1 with e1
      injection e2 with e2
      rw [← e1, ← e2]

/-- Instance of C19 with the library of literal patterns, on the pattern `line 2`. -/
theorem ExecuteWithMatch_agrees_with_filterLines_witness :
    (Utils.PatternParams.ExecuteWithMatch literalCompile ⟨"line 2"⟩
        (countingThunk (.ok ["line 1", "line 2", "line 3", "a line 2"])) 0).1 =
      .ok ["line 2", "a line 2"] ∧
    filterLines literalCompile ["line 1", "line 2", "line 3", "a line 2"] "line 2" =
      .ok ["line 2", "a line 2"] := by
  have h1 : (Utils.PatternParams.ExecuteWithMatch literalCompile ⟨"line 2"⟩
      (countingThunk (.ok ["line 1", "line 2", "line 3", "a line 2"])) 0).1 =
      .ok ["line 2", "a line 2"] := by rfl
  have h2 : filterLines literalCompile ["line 1", "line 2", "line 3", "a line 2"] "line 2" =
      .ok (["line 1", "line 2", "line 3", "a line 2"].filter fun l =>
        (literalRegexp "line 2".data).MatchString l) := by rfl
  have h := (ExecuteWithMatch_agrees_with_filterLines literalCompile
    ["line 1", "line 2", "line 3", "a line 2"] "line 2"
    (countingThunk (.ok ["line 1", "line 2", "line 3", "a line 2"])) 0 rfl).2 _ _ h1 h2
  exact ⟨h1, by rw [h2, ← h]⟩

/-- C20, as stated, fails: with the pattern `[invalid(`, which is not empty and does not
compile, the closure is not run (its counter stays at 0, where one run would set it
to 1) and the error returned is not the error of the closure. -/
theorem ExecuteWithMatch_invalid_pattern_skips_thunk :
    ("[invalid(" ≠ "" ∧
      (countingThunk (.error (.client "connection closed")) 0).2 = 1) ∧
    (Utils.PatternParams.ExecuteWithMatch literalCompile ⟨"[invalid("⟩
        (countingThunk (.error (.client "connection closed"))) 0).2 = 0 ∧
    (Utils.PatternParams.ExecuteWithMatch literalCompile ⟨"[invalid("⟩
        (countingThunk (.error (.client "connection closed"))) 0).1 ≠
      .error (.client "connection closed") := by
  refine ⟨⟨by decide, rfl⟩, rfl, ?_⟩
  intro h
  have h2 : (Utils.PatternParams.ExecuteWithMatch literalCompile ⟨"[invalid("⟩
      (countingThunk (.error (.client "connection closed"))) 0).1 =
      .error (.invalidSearchPattern "unsupported pattern") := rfl
  rw [h2] at h
  injection h with h
  cases h

/-- C20, amended: `ExecuteWithMatch` compiles the pattern first.  For every non-empty
pattern that compiles, the closure is run (the state that comes back is the one the
closure leaves) and an error of the closure is returned as it is; for every non-empty
pattern that does not compile, `ExecuteWithMatch` fails with the compile error and
the closure is not run (the state is unchanged). -/
theorem ExecuteWithMatch_order {σ : Type} (compile : Compile) (P : String)
    (f : σ → Except Err (List String) × σ) (st : σ) (hP : P ≠ "") :
    (∀ m, compile P = .ok m →
      (Utils.PatternParams.ExecuteWithMatch compile ⟨P⟩ f st).2 = (f st).2 ∧
      ∀ e, (f st).1 = .error e →
        (Utils.PatternParams.ExecuteWithMatch compile ⟨P⟩ f st).1 = .error e) ∧
    (∀ cause, compile P = .error cause →
      Utils.PatternParams.ExecuteWithMatch compile ⟨P⟩ f st =
        (.error (.invalidSearchPattern cause), st)) := by
  constructor
  · intro m hm
    rw [ExecuteWithMatch_compiled compile P f st m hP hm]
    refine ⟨rfl, fun e he => ?_⟩
    simp only [he]
  · intro cause hc
    exact ExecuteWithMatch_not_compiled compile P f st cause hP hc

/-- Instance of the amended C20: under the pattern `error`, which compiles, a closure
that fails is run once and its error comes back. -/
theorem ExecuteWithMatch_order_witness :
    (Utils.PatternParams.ExecuteWithMatch literalCompile ⟨"error"⟩
        (countingThunk (.error (.client "connection closed"))) 0).2 = 1 ∧
    (Utils.PatternParams.ExecuteWithMatch literalCompile ⟨"error"⟩
        (countingThunk (.error (.client "connection closed"))) 0).1 =
      .error (.client "connection closed") := by
  have h := (ExecuteWithMatch_order literalCompile "error"
    (countingThunk (.error (.client "connection closed"))) 0 (by decide)).1 _ rfl
  exact ⟨h.1, h.2 _ rfl⟩

/-! ## Laws of the pipeline stages -/

/-- C25: `getDBCommand d` is `ovn-sbctl` when `d` is exactly `sbdb` and `ovn-nbctl` for
every other value, values outside the enumeration such as `unknown` included. -/
theorem getDBCommand_spec :
    getDBCommand "sbdb" = "ovn-sbctl" ∧
    (∀ d : Database, d ≠ "sbdb" → getDBCommand d = "ovn-nbctl") ∧
    getDBCommand "nbdb" = "ovn-nbctl" ∧
    getDBCommand "unknown" = "ovn-nbctl" ∧
    getDBCommand "SBDB" = "ovn-nbctl" := by
  refine ⟨by decide, ?_, by decide, by decide, by decide⟩
  intro d hd
  unfold getDBCommand SouthboundDB
  rw [if_neg hd]

/-- Instance of C25 at the empty database value. -/
theorem getDBCommand_spec_witness : getDBCommand "" = "ovn-nbctl" :=
  getDBCommand_spec.2.1 "" (by decide)

/-- A text is empty after trimming exactly when all its characters are white space. -/
theorem TrimSpace_eq_empty_iff (x : String) :
    TrimSpace x = "" ↔ ∀ c ∈ x.data, isSpace c = true := by
  constructor
  · intro h
    by_contra hcon
    have hne : x.data.dropWhile isSpace ≠ [] := fun he => hcon (List.dropWhile_eq_nil_iff.1 he)
    obtain ⟨c, hc⟩ : ∃ c, (x.data.dropWhile isSpace).head? = some c := by
      cases hd : x.data.dropWhile isSpace with
      | nil => exact absurd hd hne
      | cons a as => exact ⟨a, rfl⟩
    have hnot := List.head?_dropWhile_not isSpace x.data
    rw [hc] at hnot
    have hmem : c ∈ (x.data.dropWhile isSpace).reverse := by
      rw [List.mem_reverse]
      exact List.mem_of_mem_head? hc
    have hne2 : (x.data.dropWhile isSpace).reverse.dropWhile isSpace ≠ [] := by
      intro he
      have := List.dropWhile_eq_nil_iff.1 he c hmem
      rw [hnot] at this
      cases this
    have hdata : (TrimSpace x).data = [] := by rw [h]
    unfold TrimSpace at hdata
    simp only [List.reverse_eq_nil_iff] at hdata
    exact hne2 hdata
  · exact TrimSpace_of_all_space x

/-- The loop of `StripEmptyLines` keeps the lines that are not empty after trimming. -/
theorem StripEmptyLines_eq (L : List String) :
    Utils.StripEmptyLines L = L.filter fun l => decide (TrimSpace l ≠ "") := by
  unfold Utils.StripEmptyLines
  by_cases hl : L.length = 0
  · rw [if_pos hl, List.length_eq_zero.1 hl]
    rfl
  · rw [if_neg hl]
    have key := foldl_append_filter (fun l => decide (TrimSpace l ≠ "")) L []
    simp only [decide_eq_true_eq, List.nil_append] at key
    exact key

/-- C26: `StripEmptyLines L` is the subsequence of `L` made of exactly the elements that
are not empty after trimming white space, in their order and unchanged (a kept line is
not trimmed); the elements that are empty or made of white space only are removed. -/
theorem StripEmptyLines_spec :
    (∀ L : List String,
      Utils.StripEmptyLines L = L.filter (fun l => decide (TrimSpace l ≠ "")) ∧
      (Utils.StripEmptyLines L).Sublist L ∧
      (∀ l, l ∈ Utils.StripEmptyLines L ↔ (l ∈ L ∧ ∃ c ∈ l.data, isSpace c = false))) ∧
    Utils.StripEmptyLines ["line 1", "   ", "\t", "", "  line 2 "] = ["line 1", "  line 2 "] ∧
    Utils.StripEmptyLines ["", "   ", "\t"] = [] := by
  refine ⟨?_, by decide, by decide⟩
  intro L
  rw [StripEmptyLines_eq]
  refine ⟨rfl, List.filter_sublist L, ?_⟩
  intro l
  rw [List.mem_filter]
  have key : decide (TrimSpace l ≠ "") = true ↔ ∃ c ∈ l.data, isSpace c = false := by
    rw [decide_eq_true_eq, ne_eq, TrimSpace_eq_empty_iff]
    constructor
    · intro h
      by_contra hcon
      apply h
      intro c hc
      by_contra hs
      exact hcon ⟨c, hc, by simpa using hs⟩
    · rintro ⟨c, hc, hs⟩ hall
      rw [hall c hc] at hs
      cases hs
  rw [key]

/-- C28: when `filterLines L P` succeeds, its result is a subsequence of `L`, and
filtering the result again with the same pattern gives the same result. -/
theorem filterLines_idempotent (compile : Compile) (L : List String) (P : String)
    (out : List String) (h : filterLines compile L P = .ok out) :
    out.Sublist L ∧ filterLines compile out P = .ok out := by
  by_cases hP : P = ""
  · have h2 : filterLines compile L P = .ok L := by simp [filterLines, hP]
    rw [h2] at h
    injection h with h
    subst h
    exact ⟨List.Sublist.refl _, h2⟩
  · cases hc : compile P with
    | error cause =>
      have h2 : filterLines compile L P = .error (.invalidFilter P cause) := by
        unfold filterLines
        rw [if_neg hP, hc]
      rw [h2] at h
      cases h
    | ok m =>
      rw [filterLines_compiled compile L P m hP hc] at h
      injection h with h
      subst h
      refine ⟨List.filter_sublist L, ?_⟩
      rw [filterLines_compiled compile _ P m hP hc, List.filter_filter]
      simp

/-- Instance of C28 with the library of literal patterns, on the pattern `line 2`. -/
theorem filterLines_idempotent_witness :
    ["line 2", "a line 2"].Sublist ["line 1", "line 2", "line 3", "a line 2"] ∧
    filterLines literalCompile ["line 2", "a line 2"] "line 2" = .ok ["line 2", "a line 2"] :=
  filterLines_idempotent literalCompile ["line 1", "line 2", "line 3", "a line 2"] "line 2"
    ["line 2", "a line 2"] (by rfl)

/-- C29: `head L n` is an initial segment of `L` and `tail L n` is a final segment of
`L`; and when `0 < n < len L`, `head L n` followed by `L` without its first `n` elements
is `L`. -/
theorem head_tail_segments (L : List String) (n : Int) :
    (∃ rest, Utils.head L n ++ rest = L) ∧
    (∃ front, front ++ Utils.tail L n = L) ∧
    (0 < n → n < (L.length : Int) → Utils.head L n ++ L.drop n.toNat = L) := by
  by_cases hs : L = [] ∨ n ≤ 0 ∨ n ≥ (L.length : Int)
  · rw [head_saturated L n hs, tail_saturated L n hs]
    refine ⟨⟨[], List.append_nil L⟩, ⟨[], List.nil_append L⟩, ?_⟩
    intro h0 h1
    rcases hs with h | h | h
    · subst h
      simp at h1
      omega
    · omega
    · omega
  · have h0 : 0 < n := by
      by_contra hc
      exact hs (Or.inr (Or.inl (not_lt.mp hc)))
    have h1 : n < (L.length : Int) := by
      by_contra hc
      exact hs (Or.inr (Or.inr (not_lt.mp hc)))
    rw [head_inner L n h0 h1, tail_inner L n h0 h1]
    exact ⟨⟨L.drop n.toNat, List.take_append_drop _ _⟩,
      ⟨L.take (L.length - n.toNat), List.take_append_drop _ _⟩,
      fun _ _ => List.take_append_drop _ _⟩

/-- Instance of C29 on five lines with `n` two. -/
theorem head_tail_segments_witness :
    Utils.head ["line 1", "line 2", "line 3", "line 4", "line 5"] 2 ++
        ["line 3", "line 4", "line 5"] =
      ["line 1", "line 2", "line 3", "line 4", "line 5"] :=
  (head_tail_segments ["line 1", "line 2", "line 3", "line 4", "line 5"] 2).2.2
    (by decide) (by decide)

/-- C30: windowing is idempotent, `limitLines (limitLines L n) n = limitLines L n`, and
`limitLines L n = L` whenever the length of `L` is at most the effective limit, which is
`n` when `n > 0` and 100 otherwise. -/
theorem limitLines_idempotent (L : List String) (n : Int) :
    limitLines (limitLines L n) n = limitLines L n ∧
    ((L.length : Int) ≤ (if n > 0 then n else 100) → limitLines L n = L) := by
  have short : ∀ M : List String, (M.length : Int) ≤ (if n > 0 then n else 100) →
      limitLines M n = M := by
    intro M hM
    unfold limitLines defaultMaxLines
    by_cases hn : n ≤ 0
    · have hn2 : ¬ n > 0 := not_lt.mpr hn
      simp only [hn2, if_false] at hM
      simp only [hn, if_true]
      rw [if_neg (not_lt.mpr hM)]
    · have hn2 : n > 0 := not_le.mp hn
      simp only [hn2, if_true] at hM
      simp only [hn, if_false]
      rw [if_neg (not_lt.mpr hM)]
  refine ⟨?_, short L⟩
  apply short
  have hlen : (limitLines L n).length ≤ (if n > 0 then n else 100).toNat := by
    unfold limitLines defaultMaxLines
    by_cases hn : n ≤ 0
    · have hn2 : ¬ n > 0 := not_lt.mpr hn
      simp only [hn, hn2, if_true, if_false]
      by_cases hl : (L.length : Int) > 100
      · rw [if_pos hl, List.length_take]; omega
      · rw [if_neg hl]; omega
    · have hn2 : n > 0 := not_le.mp hn
      simp only [hn, hn2, if_true, if_false]
      by_cases hl : (L.length : Int) > n
      · rw [if_pos hl, List.length_take]; omega
      · rw [if_neg hl]; omega
  have hpos : 0 < (if n > 0 then n else 100) := by
    by_cases hn : n > 0
    · rw [if_pos hn]; exact hn
    · rw [if_neg hn]; decide
  omega

/-- Instance of C30: three lines under a limit of five, and under the default limit. -/
theorem limitLines_idempotent_witness :
    limitLines ["a", "b", "c"] 5 = ["a", "b", "c"] ∧
    limitLines ["a", "b", "c"] (-1) = ["a", "b", "c"] :=
  ⟨(limitLines_idempotent ["a", "b", "c"] 5).2 (by decide),
    (limitLines_idempotent ["a", "b", "c"] (-1)).2 (by decide)⟩

/-! ## The handlers after validation -/

/-- A non-empty pattern that does not compile makes `filterLines` fail. -/
theorem filterLines_not_compiled (compile : Compile) (L : List String) (P cause : String)
    (hP : P ≠ "") (hc : compile P = .error cause) :
    filterLines compile L P = .error (.invalidFilter P cause) := by
  unfold filterLines
  rw [if_neg hP, hc]

/-- The run of `Get` after validation, in terms of the dispatcher. -/
theorem Get_valid (compile : Compile) (s : MCPServer) (inp : GetParams)
    (h1 : validateDatabase inp.Database = none) (h2 : validateTableName inp.Table = none)
    (h3 : validateColumnSpec inp.Columns = none)
    (h4 : inp.Record ≠ "" → validateRecordName inp.Record = none) :
    MCPServer.Get compile s inp =
      match s.runCommand inp.toNamespacedNameParams
          ([getDBCommand inp.Database] ++
            (if inp.Columns ≠ "" then ["--columns=" ++ inp.Columns] else []) ++
            ["list", inp.Table] ++ (if inp.Record ≠ "" then [inp.Record] else [])) with
      | (calls, .error err) =>
        ⟨calls, ⟨inp.Database, inp.Table, inp.Record, ""⟩,
          some (if inp.Record ≠ "" then
            .getRecordFailed inp.Record inp.Table inp.Namespace inp.Name err
            else .listTableFailed inp.Table inp.Namespace inp.Name err)⟩
      | (calls, .ok lines) =>
        match (if inp.Record = "" then filterLines compile lines inp.Filter
          else .ok lines) with
        | .error err =>
          ⟨calls, ⟨inp.Database, inp.Table, inp.Record, ""⟩, some (.filterFailed err)⟩
        | .ok lines =>
          ⟨calls,
            ⟨inp.Database, inp.Table, inp.Record, joinLines (limitLines lines inp.MaxLines)⟩,
            none⟩ := by
  unfold MCPServer.Get
  simp only [h1, h2, h3]
  by_cases hr : inp.Record = ""
  · simp only [hr, if_true, ne_eq, not_true_eq_false, if_false]
    generalize hargs : (if ¬inp.Columns = "" then
      [getDBCommand inp.Database] ++ ["--columns=" ++ inp.Columns]
      else [getDBCommand inp.Database]) ++ ["list", inp.Table] = args
    have hargs2 : [getDBCommand inp.Database] ++
          (if ¬inp.Columns = "" then ["--columns=" ++ inp.Columns] else []) ++
          ["list", inp.Table] ++ [] = args := by
      rw [← hargs]; by_cases hc : inp.Columns = "" <;> simp [hc]
    rw [hargs2]
  · simp only [hr, if_false, ne_eq, not_false_eq_true, if_true, h4 hr]
    generalize hargs : (if ¬inp.Columns = "" then
      [getDBCommand inp.Database] ++ ["--columns=" ++ inp.Columns]
      else [getDBCommand inp.Database]) ++ ["list", inp.Table, inp.Record] = args
    have hargs2 : [getDBCommand inp.Database] ++
          (if ¬inp.Columns = "" then ["--columns=" ++ inp.Columns] else []) ++
          ["list", inp.Table] ++ [inp.Record] = args := by
      rw [← hargs]; by_cases hc : inp.Columns = "" <;> simp [hc]
    rw [hargs2]

/-- The run of `Trace` after validation, in terms of the dispatcher. -/
theorem Trace_valid (compile : Compile) (s : MCPServer) (inp : OVNTraceParams)
    (h1 : validateDatapath inp.Datapath = none) (h2 : validateMicroflow inp.Microflow = none) :
    MCPServer.Trace compile s inp =
      match s.runCommand inp.toNamespacedNameParams
          (["ovn-trace"] ++
            (if inp.Mode = "summary" then ["--summary"]
              else if inp.Mode = "minimal" then ["--minimal"]
              else if inp.Mode = "detailed" ∨ inp.Mode = "" then ["--detailed"]
              else []) ++
            [inp.Datapath, inp.Microflow]) with
      | (calls, .error err) =>
        ⟨calls, ⟨inp.Datapath, inp.Microflow, ""⟩,
          some (.traceFailed inp.Namespace inp.Name err)⟩
      | (calls, .ok lines) =>
        match filterLines compile lines inp.Filter with
        | .error err => ⟨calls, ⟨inp.Datapath, inp.Microflow, ""⟩, some (.filterFailed err)⟩
        | .ok lines =>
          ⟨calls, ⟨inp.Datapath, inp.Microflow, joinLines (limitLines lines inp.MaxLines)⟩,
            none⟩ := by
  unfold MCPServer.Trace
  simp only [h1, h2, TraceModeSummary, TraceModeMinimal, TraceModeDetailed]
  generalize hargs : (if inp.Mode = "summary" then ["ovn-trace"] ++ ["--summary"]
      else if inp.Mode = "minimal" then ["ovn-trace"] ++ ["--minimal"]
      else if inp.Mode = "detailed" ∨ inp.Mode = "" then ["ovn-trace"] ++ ["--detailed"]
      else ["ovn-trace"]) ++ [inp.Datapath, inp.Microflow] = args
  have hargs2 : ["ovn-trace"] ++
          (if inp.Mode = "summary" then ["--summary"]
            else if inp.Mode = "minimal" then ["--minimal"]
            else if inp.Mode = "detailed" ∨ inp.Mode = "" then ["--detailed"]
            else []) ++
          [inp.Datapath, inp.Microflow] = args := by
    rw [← hargs]
    split_ifs <;> rfl
  rw [hargs2]

/-- The calls made by `ListLogicalFlows` on a request that passes validation. -/
theorem ListLogicalFlows_valid_calls (compile : Compile) (s : MCPServer)
    (inp : LogicalFlowListParams)
    (h : inp.Datapath = "" ∨ validateDatapath inp.Datapath = none) :
    (MCPServer.ListLogicalFlows compile s inp).calls =
      [⟨inp.Name, inp.Namespace, "",
        ["ovn-sbctl", "lflow-list"] ++ (if inp.Datapath ≠ "" then [inp.Datapath] else [])⟩] := by
  rw [ListLogicalFlows_valid compile s inp h]
  have hc := runCommand_calls s inp.toNamespacedNameParams
    (["ovn-sbctl", "lflow-list"] ++ (if inp.Datapath ≠ "" then [inp.Datapath] else []))
  cases hrun : s.runCommand inp.toNamespacedNameParams
    (["ovn-sbctl", "lflow-list"] ++ (if inp.Datapath ≠ "" then [inp.Datapath] else [])) with
  | mk calls r =>
    rw [hrun] at hc
    simp only at hc
    cases r with
    | error e => simp [hc]
    | ok lines =>
      cases hf : filterLines compile lines inp.Filter <;> simp [hc, hf]

/-! ## What the handlers do not check before the exec -/

/-- C21, as stated, fails: `ListLogicalFlows` on datapath `node1` with the filter
`[invalid`, which does not compile, returns an error, but the exec has been called. -/
theorem ListLogicalFlows_bad_filter_contacts_cluster :
    (∃ cause, literalCompile "[invalid" = .error cause) ∧
    (MCPServer.ListLogicalFlows literalCompile (mockServer "table=0 a\n" "")
        { Namespace := "ovn-k8s", Name := "pod-a", Datapath := "node1", Filter := "[invalid",
          MaxLines := 0 }).err ≠ none ∧
    (MCPServer.ListLogicalFlows literalCompile (mockServer "table=0 a\n" "")
        { Namespace := "ovn-k8s", Name := "pod-a", Datapath := "node1", Filter := "[invalid",
          MaxLines := 0 }).calls =
      [⟨"pod-a", "ovn-k8s", "", ["ovn-sbctl", "lflow-list", "node1"]⟩] ∧
    (MCPServer.ListLogicalFlows literalCompile (mockServer "table=0 a\n" "")
        { Namespace := "ovn-k8s", Name := "pod-a", Datapath := "node1", Filter := "[invalid",
          MaxLines := 0 }).calls ≠ [] := by
  refine ⟨⟨_, rfl⟩, by decide, by decide, by decide⟩

/-- C21, amended: a filter that fails to compile gives an error, but the filter is
compiled only after the exec.  For every `ListLogicalFlows` or `Trace` request, and every
`Get` request in list mode, whose filter is not empty and does not compile, the handler
returns an error; and when the request passes the validators the exec collaborator has
been called exactly once. -/
theorem bad_filter_fails_after_exec (compile : Compile) (s : MCPServer)
    (filter cause : String) (hne : filter ≠ "") (hc : compile filter = .error cause) :
    (∀ inp : LogicalFlowListParams, inp.Filter = filter →
      (MCPServer.ListLogicalFlows compile s inp).err ≠ none ∧
      ((inp.Datapath = "" ∨ validateDatapath inp.Datapath = none) →
        (MCPServer.ListLogicalFlows compile s inp).calls.length = 1)) ∧
    (∀ inp : OVNTraceParams, inp.Filter = filter →
      (MCPServer.Trace compile s inp).err ≠ none ∧
      (validateDatapath inp.Datapath = none → validateMicroflow inp.Microflow = none →
        (MCPServer.Trace compile s inp).calls.length = 1)) ∧
    (∀ inp : GetParams, inp.Filter = filter → inp.Record = "" →
      (MCPServer.Get compile s inp).err ≠ none ∧
      (validateDatabase inp.Database = none → validateTableName inp.Table = none →
        validateColumnSpec inp.Columns = none →
        (MCPServer.Get compile s inp).calls.length = 1)) := by
  refine ⟨?_, ?_, ?_⟩
  · intro inp hf
    subst hf
    constructor
    · by_cases hv : inp.Datapath = "" ∨ validateDatapath inp.Datapath = none
      · rw [ListLogicalFlows_valid compile s inp hv]
        cases hrun : s.runCommand inp.toNamespacedNameParams
          (["ovn-sbctl", "lflow-list"] ++
            (if inp.Datapath ≠ "" then [inp.Datapath] else [])) with
        | mk calls r =>
          cases r with
          | error e => simp
          | ok lines =>
            simp [filterLines_not_compiled compile lines inp.Filter cause hne hc]
      · have h0 : inp.Datapath ≠ "" := fun h => hv (Or.inl h)
        have h1 : validateDatapath inp.Datapath ≠ none := fun h => hv (Or.inr h)
        exact (ListLogicalFlows_invalid compile s inp h0 h1).1
    · intro hv
      rw [ListLogicalFlows_valid_calls compile s inp hv]
      rfl
  · intro inp hf
    subst hf
    constructor
    · by_cases hv : validateDatapath inp.Datapath = none ∧ validateMicroflow inp.Microflow = none
      · rw [Trace_valid compile s inp hv.1 hv.2]
        cases hrun : s.runCommand inp.toNamespacedNameParams
          (["ovn-trace"] ++
            (if inp.Mode = "summary" then ["--summary"]
              else if inp.Mode = "minimal" then ["--minimal"]
              else if inp.Mode = "detailed" ∨ inp.Mode = "" then ["--detailed"]
              else []) ++
            [inp.Datapath, inp.Microflow]) with
        | mk calls r =>
          cases r with
          | error e => simp
          | ok lines =>
            simp [filterLines_not_compiled compile lines inp.Filter cause hne hc]
      · have hv2 : validateDatapath inp.Datapath ≠ none ∨
            validateMicroflow inp.Microflow ≠ none := by
          by_contra hcon
          push_neg at hcon
          exact hv hcon
        exact (Trace_invalid compile s inp hv2).1
    · intro h1 h2
      rw [Trace_valid_calls compile s inp h1 h2]
      rfl
  · intro inp hf hr
    subst hf
    have h4 : inp.Record ≠ "" → validateRecordName inp.Record = none :=
      fun h => absurd hr h
    constructor
    · by_cases hv : validateDatabase inp.Database = none ∧
          validateTableName inp.Table = none ∧ validateColumnSpec inp.Columns = none
      · rw [Get_valid compile s inp hv.1 hv.2.1 hv.2.2 h4]
        cases hrun : s.runCommand inp.toNamespacedNameParams
          ([getDBCommand inp.Database] ++
            (if inp.Columns ≠ "" then ["--columns=" ++ inp.Columns] else []) ++
            ["list", inp.Table] ++ (if inp.Record ≠ "" then [inp.Record] else [])) with
        | mk calls r =>
          cases r with
          | error e => simp
          | ok lines =>
            simp [hr, filterLines_not_compiled compile lines inp.Filter cause hne hc]
      · have hv2 : validateDatabase inp.Database ≠ none ∨
            validateTableName inp.Table ≠ none ∨ validateColumnSpec inp.Columns ≠ none ∨
            (inp.Record ≠ "" ∧ validateRecordName inp.Record ≠ none) := by
          by_contra hcon
          push_neg at hcon
          exact hv ⟨hcon.1, hcon.2.1, hcon.2.2.1⟩
        exact (Get_invalid compile s inp hv2).1
    · intro h1 h2 h3
      rw [Get_valid_calls compile s inp h1 h2 h3 h4]
      rfl

/-- Instance of the amended C21: `Trace` with the filter `[invalid` returns an error
after one exec call. -/
theorem bad_filter_fails_after_exec_witness :
    (MCPServer.Trace literalCompile (mockServer "ingress\n" "")
        { Namespace := "ovn-k8s", Name := "pod-a", Datapath := "node1",
          Microflow := "inport==\"p\"", Mode := "", Filter := "[invalid",
          MaxLines := 0 }).err ≠ none ∧
    (MCPServer.Trace literalCompile (mockServer "ingress\n" "")
        { Namespace := "ovn-k8s", Name := "pod-a", Datapath := "node1",
          Microflow := "inport==\"p\"", Mode := "", Filter := "[invalid",
          MaxLines := 0 }).calls.length = 1 := by
  have h := (bad_filter_fails_after_exec literalCompile (mockServer "ingress\n" "")
    "[invalid" "unsupported pattern" (by decide) rfl).2.1
    { Namespace := "ovn-k8s", Name := "pod-a", Datapath := "node1",
      Microflow := "inport==\"p\"", Mode := "", Filter := "[invalid", MaxLines := 0 } rfl
  exact ⟨h.1, h.2 (by decide) (by decide)⟩

/-- C22, as stated, fails: `Trace` with the mode `verbose`, which is outside the
enumeration, returns no error, and the exec has been called. -/
theorem Trace_unknown_mode_is_not_rejected :
    (MCPServer.Trace literalCompile (mockServer "ingress\n" "")
        { Namespace := "ovn-k8s", Name := "pod-a", Datapath := "node1",
          Microflow := "inport==\"p\"", Mode := "verbose", Filter := "",
          MaxLines := 0 }).err = none ∧
    (MCPServer.Trace literalCompile (mockServer "ingress\n" "")
        { Namespace := "ovn-k8s", Name := "pod-a", Datapath := "node1",
          Microflow := "inport==\"p\"", Mode := "verbose", Filter := "",
          MaxLines := 0 }).calls ≠ [] := by
  refine ⟨by decide, by decide⟩

/-- C22, amended: `Trace` does not validate the mode.  For every `Trace` request with a
valid datapath and microflow whose mode is not empty and is none of `detailed`,
`summary`, `minimal`, the exec collaborator is called exactly once; and when that exec
succeeds with empty stderr and the filter is empty or compiles, `Trace` returns no
error. -/
theorem Trace_mode_is_not_validated (compile : Compile) (s : MCPServer)
    (inp : OVNTraceParams)
    (h1 : validateDatapath inp.Datapath = none) (h2 : validateMicroflow inp.Microflow = none)
    (hm : inp.Mode ≠ "" ∧ inp.Mode ≠ "detailed" ∧ inp.Mode ≠ "summary" ∧
      inp.Mode ≠ "minimal") :
    (MCPServer.Trace compile s inp).calls.length = 1 ∧
    (∀ stdout : String,
      s.k8sMcpServer.clientSet.ExecPod inp.Name inp.Namespace ""
          ["ovn-trace", inp.Datapath, inp.Microflow] = .ok (stdout, "") →
      (inp.Filter = "" ∨ ∃ m, compile inp.Filter = .ok m) →
      (MCPServer.Trace compile s inp).err = none) := by
  constructor
  · rw [Trace_valid_calls compile s inp h1 h2]
    rfl
  · intro stdout hexec hfilter
    rw [Trace_valid compile s inp h1 h2]
    have hargs : ["ovn-trace"] ++
        (if inp.Mode = "summary" then ["--summary"]
          else if inp.Mode = "minimal" then ["--minimal"]
          else if inp.Mode = "detailed" ∨ inp.Mode = "" then ["--detailed"]
          else []) ++
        [inp.Datapath, inp.Microflow] = ["ovn-trace", inp.Datapath, inp.Microflow] := by
      simp [hm.1, hm.2.1, hm.2.2.1, hm.2.2.2]
    rw [hargs, runCommand_ok s inp.toNamespacedNameParams _ stdout hexec]
    obtain ⟨lines, hl⟩ := filterLines_ok compile (parseOutput stdout) inp.Filter hfilter
    simp [hl]

/-- Instance of the amended C22 at the mode `verbose`. -/
theorem Trace_mode_is_not_validated_witness :
    (MCPServer.Trace literalCompile (mockServer "ingress\n" "")
        { Namespace := "ovn-k8s", Name := "pod-a", Datapath := "node1",
          Microflow := "inport==\"p\"", Mode := "verbose", Filter := "",
          MaxLines := 0 }).calls.length = 1 ∧
    (MCPServer.Trace literalCompile (mockServer "ingress\n" "")
        { Namespace := "ovn-k8s", Name := "pod-a", Datapath := "node1",
          Microflow := "inport==\"p\"", Mode := "verbose", Filter := "",
          MaxLines := 0 }).err = none := by
  have h := Trace_mode_is_not_validated literalCompile (mockServer "ingress\n" "")
    { Namespace := "ovn-k8s", Name := "pod-a", Datapath := "node1",
      Microflow := "inport==\"p\"", Mode := "verbose", Filter := "", MaxLines := 0 }
    (by decide) (by decide) (by decide)
  exact ⟨h.1, h.2 "ingress\n" rfl (Or.inl rfl)⟩

/-- C23, the code at the failing input: for the mode `verbose`, which is none of
`summary` and `minimal`, the claim and the comment of the switch in `Trace` (default to
detailed) call for the argv `ovn-trace`, `--detailed`, the datapath, the microflow; the
switch has no default branch, and the argv given to exec is `ovn-trace`, the datapath
and the microflow, three elements, without any flag. -/
theorem Trace_unknown_mode_adds_no_flag :
    (MCPServer.Trace literalCompile (mockServer "ingress\n" "")
        { Namespace := "ovn-k8s", Name := "pod-a", Datapath := "node1",
          Microflow := "inport==\"p\"", Mode := "verbose", Filter := "",
          MaxLines := 0 }).calls.map ExecCall.Command =
      [["ovn-trace", "node1", "inport==\"p\""]] ∧
    (MCPServer.Trace literalCompile (mockServer "ingress\n" "")
        { Namespace := "ovn-k8s", Name := "pod-a", Datapath := "node1",
          Microflow := "inport==\"p\"", Mode := "verbose", Filter := "",
          MaxLines := 0 }).calls.map ExecCall.Command ≠
      [["ovn-trace", "--detailed", "node1", "inport==\"p\""]] := by
  refine ⟨by decide, by decide⟩

/-- C24, as stated, fails: `Show` on a request whose namespace and name are both empty
returns no error, and the exec has been called with the empty name and namespace. -/
theorem Show_empty_pod_target_reaches_exec :
    (MCPServer.Show (mockServer "switch 1 (w)\n" "")
        { Namespace := "", Name := "", Database := "nbdb", MaxLines := 0 }).err = none ∧
    (MCPServer.Show (mockServer "switch 1 (w)\n" "")
        { Namespace := "", Name := "", Database := "nbdb", MaxLines := 0 }).calls =
      [⟨"", "", "", ["ovn-nbctl", "show"]⟩] ∧
    (MCPServer.Show (mockServer "switch 1 (w)\n" "")
        { Namespace := "", Name := "", Database := "nbdb", MaxLines := 0 }).calls ≠ [] := by
  refine ⟨by decide, by decide, by decide⟩

/-- C24, amended: the handlers do not check the pod target.  For each of `Show`, `Get`,
`ListLogicalFlows` and `Trace`, a request that passes the validators of the handler makes
exactly one exec call, which carries the namespace and the name of the request
unchanged, whatever they are, the empty string included. -/
theorem pod_target_is_passed_through :
    (∀ (s : MCPServer) (inp : ShowParams), validateDatabase inp.Database = none →
      (s.Show inp).calls.map (fun c => (c.Namespace, c.Name)) =
        [(inp.Namespace, inp.Name)]) ∧
    (∀ (compile : Compile) (s : MCPServer) (inp : GetParams),
      validateDatabase inp.Database = none → validateTableName inp.Table = none →
      validateColumnSpec inp.Columns = none →
      (inp.Record ≠ "" → validateRecordName inp.Record = none) →
      (MCPServer.Get compile s inp).calls.map (fun c => (c.Namespace, c.Name)) =
        [(inp.Namespace, inp.Name)]) ∧
    (∀ (compile : Compile) (s : MCPServer) (inp : LogicalFlowListParams),
      (inp.Datapath = "" ∨ validateDatapath inp.Datapath = none) →
      (MCPServer.ListLogicalFlows compile s inp).calls.map (fun c => (c.Namespace, c.Name)) =
        [(inp.Namespace, inp.Name)]) ∧
    (∀ (compile : Compile) (s : MCPServer) (inp : OVNTraceParams),
      validateDatapath inp.Datapath = none → validateMicroflow inp.Microflow = none →
      (MCPServer.Trace compile s inp).calls.map (fun c => (c.Namespace, c.Name)) =
        [(inp.Namespace, inp.Name)]) := by
  refine ⟨?_, ?_, ?_, ?_⟩
  · intro s inp h
    rw [Show_calls, if_pos h]
    rfl
  · intro compile s inp h1 h2 h3 h4
    rw [Get_valid_calls compile s inp h1 h2 h3 h4]
    rfl
  · intro compile s inp h
    rw [ListLogicalFlows_valid_calls compile s inp h]
    rfl
  · intro compile s inp h1 h2
    rw [Trace_valid_calls compile s inp h1 h2]
    rfl

/-- Instance of the amended C24: `ListLogicalFlows` with an empty namespace and name. -/
theorem pod_target_is_passed_through_witness :
    (MCPServer.ListLogicalFlows literalCompile (mockServer "table=0 a\n" "")
        { Namespace := "", Name := "", Datapath := "", Filter := "",
          MaxLines := 0 }).calls.map (fun c => (c.Namespace, c.Name)) = [("", "")] :=
  pod_target_is_passed_through.2.2.1 literalCompile (mockServer "table=0 a\n" "")
    { Namespace := "", Name := "", Datapath := "", Filter := "", MaxLines := 0 }
    (Or.inl rfl)

/-! ## Safety of the argv -/

/-- A string accepted by `validateSafeString` holds none of the eight characters. -/
theorem freeOf_of_validateSafeString (value fieldName : String) (allowEmpty : Bool)
    (h : validateSafeString value fieldName allowEmpty = none) :
    freeOf [';', '&', '|', '$', '`', '<', '>', '\\'] value := by
  rcases (validateSafeString_eq_none value fieldName allowEmpty).1 h with ⟨he, _⟩ | ⟨_, hs⟩
  · intro c hc
    rw [he] at hc
    cases hc
  · exact hs

/-- A table name accepted by `validateTableName` holds none of the eight characters. -/
theorem freeOf_of_validateTableName (table : String) (h : validateTableName table = none) :
    freeOf [';', '&', '|', '$', '`', '<', '>', '\\'] table := by
  have hm : validTableNamePattern.MatchString table = true := by
    unfold validateTableName at h
    by_cases ht : table = ""
    · rw [if_pos ht] at h; cases h
    · rw [if_neg ht] at h
      by_cases hmm : validTableNamePattern.MatchString table = true
      · exact hmm
      · simp [hmm] at h
  obtain ⟨c0, cs, hdata, hc0, hcs⟩ := (MatchString_validTableNamePattern table).1 hm
  have hbad : ∀ c ∈ [';', '&', '|', '$', '`', '<', '>', '\\'],
      c.isAlpha = false ∧ c.isAlphanum = false ∧ c ≠ '_' := by decide
  intro c hc hmem
  obtain ⟨b1, b2, b3⟩ := hbad c hmem
  rw [hdata] at hc
  rcases List.mem_cons.1 hc with h1 | h1
  · rw [h1, hc0] at b1
    cases b1
  · rcases hcs c h1 with h2 | h2
    · rw [h2] at b2
      cases b2
    · exact b3 h2

/-- The binary names hold none of the eight characters. -/
theorem freeOf_getDBCommand (db : Database) :
    freeOf [';', '&', '|', '$', '`', '<', '>', '\\'] (getDBCommand db) := by
  unfold getDBCommand freeOf
  by_cases h : db = SouthboundDB
  · rw [if_pos h]; decide
  · rw [if_neg h]; decide

/-- A text free of the eight characters is free of the seven, and has no ampersand. -/
theorem freeOf_seven_of_eight (e : String)
    (h : freeOf [';', '&', '|', '$', '`', '<', '>', '\\'] e) :
    freeOf [';', '|', '$', '`', '<', '>', '\\'] e ∧ freeOf ['&'] e := by
  constructor
  · intro c hc hmem
    apply h c hc
    simp only [List.mem_cons, List.mem_singleton] at hmem ⊢
    tauto
  · intro c hc hmem
    apply h c hc
    simp only [List.mem_cons, List.mem_singleton] at hmem ⊢
    tauto

/-- The columns flag of a safe column specification is safe. -/
theorem freeOf_columns_flag (columns : String)
    (h : freeOf [';', '&', '|', '$', '`', '<', '>', '\\'] columns) :
    freeOf [';', '&', '|', '$', '`', '<', '>', '\\'] ("--columns=" ++ columns) := by
  intro c hc
  rw [String.data_append, List.mem_append] at hc
  rcases hc with hc | hc
  · revert c
    decide
  · exact h c hc

/-- C27: on every request on which `Show`, `Get`, `ListLogicalFlows` or `Trace` calls the
exec, no element of the argv holds any of the characters `;`, `|`, `$`, backtick, `<`,
`>`, backslash, and no element other than the last element of the argv of `Trace`, the
microflow, holds `&`. -/
theorem argv_is_shell_safe :
    (∀ (s : MCPServer) (inp : ShowParams),
      ∀ argv ∈ (s.Show inp).calls.map ExecCall.Command, ∀ e ∈ argv,
        freeOf [';', '&', '|', '$', '`', '<', '>', '\\'] e) ∧
    (∀ (compile : Compile) (s : MCPServer) (inp : GetParams),
      ∀ argv ∈ (MCPServer.Get compile s inp).calls.map ExecCall.Command, ∀ e ∈ argv,
        freeOf [';', '&', '|', '$', '`', '<', '>', '\\'] e) ∧
    (∀ (compile : Compile) (s : MCPServer) (inp : LogicalFlowListParams),
      ∀ argv ∈ (MCPServer.ListLogicalFlows compile s inp).calls.map ExecCall.Command,
        ∀ e ∈ argv, freeOf [';', '&', '|', '$', '`', '<', '>', '\\'] e) ∧
    (∀ (compile : Compile) (s : MCPServer) (inp : OVNTraceParams),
      ∀ argv ∈ (MCPServer.Trace compile s inp).calls.map ExecCall.Command,
        (∀ e ∈ argv, freeOf [';', '|', '$', '`', '<', '>', '\\'] e) ∧
        (∀ e ∈ argv.dropLast, freeOf ['&'] e)) := by
  refine ⟨?_, ?_, ?_, ?_⟩
  · intro s inp argv hargv e he
    rw [Show_calls] at hargv
    by_cases hv : validateDatabase inp.Database = none
    · rw [if_pos hv] at hargv
      simp only [List.map_cons, List.map_nil, List.mem_singleton] at hargv
      subst hargv
      simp only [List.mem_cons, List.mem_singleton, List.not_mem_nil, or_false] at he
      rcases he with he | he
      · rw [he]; exact freeOf_getDBCommand _
      · rw [he]; unfold freeOf; decide
    · rw [if_neg hv] at hargv
      cases hargv
  · intro compile s inp argv hargv e he
    by_cases hv : validateDatabase inp.Database = none ∧ validateTableName inp.Table = none ∧
        validateColumnSpec inp.Columns = none ∧
        (inp.Record ≠ "" → validateRecordName inp.Record = none)
    · obtain ⟨h1, h2, h3, h4⟩ := hv
      rw [Get_valid_calls compile s inp h1 h2 h3 h4] at hargv
      simp only [List.map_cons, List.map_nil, List.mem_singleton] at hargv
      subst hargv
      simp only [List.mem_append, List.mem_cons, List.mem_singleton, List.not_mem_nil,
        or_false] at he
      rcases he with ((he | he) | he | he) | he
      · rw [he]; exact freeOf_getDBCommand _
      · by_cases hc : inp.Columns = ""
        · simp [hc] at he
        · simp only [ne_eq, hc, not_false_eq_true, if_true, List.mem_singleton] at he
          rw [he]
          exact freeOf_columns_flag _ (freeOf_of_validateSafeString _ _ _ h3)
      · rw [he]; unfold freeOf; decide
      · rw [he]; exact freeOf_of_validateTableName _ h2
      · by_cases hr : inp.Record = ""
        · simp [hr] at he
        · simp only [ne_eq, hr, not_false_eq_true, if_true, List.mem_singleton] at he
          rw [he]
          exact freeOf_of_validateSafeString _ _ _ (h4 hr)
    · have hv2 : validateDatabase inp.Database ≠ none ∨
          validateTableName inp.Table ≠ none ∨ validateColumnSpec inp.Columns ≠ none ∨
          (inp.Record ≠ "" ∧ validateRecordName inp.Record ≠ none) := by
        by_contra hcon
        push_neg at hcon
        exact hv ⟨hcon.1, hcon.2.1, hcon.2.2.1, hcon.2.2.2⟩
      rw [(Get_invalid compile s inp hv2).2] at hargv
      cases hargv
  · intro compile s inp argv hargv e he
    by_cases hv : inp.Datapath = "" ∨ validateDatapath inp.Datapath = none
    · rw [ListLogicalFlows_valid_calls compile s inp hv] at hargv
      simp only [List.map_cons, List.map_nil, List.mem_singleton] at hargv
      subst hargv
      simp only [List.mem_append, List.mem_cons, List.mem_singleton, List.not_mem_nil,
        or_false] at he
      rcases he with (he | he) | he
      · rw [he]; unfold freeOf; decide
      · rw [he]; unfold freeOf; decide
      · by_cases hd : inp.Datapath = ""
        · simp [hd] at he
        · simp only [ne_eq, hd, not_false_eq_true, if_true, List.mem_singleton] at he
          rw [he]
          exact freeOf_of_validateSafeString _ _ _ (hv.resolve_left hd)
    · have h0 : inp.Datapath ≠ "" := fun h => hv (Or.inl h)
      have h1 : validateDatapath inp.Datapath ≠ none := fun h => hv (Or.inr h)
      rw [(ListLogicalFlows_invalid compile s inp h0 h1).2] at hargv
      cases hargv
  · intro compile s inp argv hargv
    by_cases hv : validateDatapath inp.Datapath = none ∧ validateMicroflow inp.Microflow = none
    · obtain ⟨h1, h2⟩ := hv
      have hdp := freeOf_seven_of_eight _ (freeOf_of_validateSafeString _ _ _ h1)
      have hmf := ((validateMicroflow_eq_none inp.Microflow).1 h2).2
      have hk : ∀ k ∈ ["ovn-trace", "--summary", "--minimal", "--detailed"],
          freeOf [';', '|', '$', '`', '<', '>', '\\'] k ∧ freeOf ['&'] k := by
        unfold freeOf
        decide
      rw [Trace_valid_calls compile s inp h1 h2] at hargv
      simp only [List.map_cons, List.map_nil, List.mem_singleton] at hargv
      subst hargv
      split_ifs
      · refine ⟨fun e he => ?_, fun e he => ?_⟩
        · simp only [List.cons_append, List.nil_append, List.mem_cons, List.mem_singleton,
            List.not_mem_nil, or_false] at he
          rcases he with he | he | he | he
          · rw [he]; exact (hk _ (by decide)).1
          · rw [he]; exact (hk _ (by decide)).1
          · rw [he]; exact hdp.1
          · rw [he]; exact hmf
        · simp only [List.cons_append, List.nil_append, List.dropLast, List.mem_cons,
            List.mem_singleton, List.not_mem_nil, or_false] at he
          rcases he with he | he | he
          · rw [he]; exact (hk _ (by decide)).2
          · rw [he]; exact (hk _ (by decide)).2
          · rw [he]; exact hdp.2
      · refine ⟨fun e he => ?_, fun e he => ?_⟩
        · simp only [List.cons_append, List.nil_append, List.mem_cons, List.mem_singleton,
            List.not_mem_nil, or_false] at he
          rcases he with he | he | he | he
          · rw [he]; exact (hk _ (by decide)).1
          · rw [he]; exact (hk _ (by decide)).1
          · rw [he]; exact hdp.1
          · rw [he]; exact hmf
        · simp only [List.cons_append, List.nil_append, List.dropLast, List.mem_cons,
            List.mem_singleton, List.not_mem_nil, or_false] at he
          rcases he with he | he | he
          · rw [he]; exact (hk _ (by decide)).2
          · rw [he]; exact (hk _ (by decide)).2
          · rw [he]; exact hdp.2
      · refine ⟨fun e he => ?_, fun e he => ?_⟩
        · simp only [List.cons_append, List.nil_append, List.mem_cons, List.mem_singleton,
            List.not_mem_nil, or_false] at he
          rcases he with he | he | he | he
          · rw [he]; exact (hk _ (by decide)).1
          · rw [he]; exact (hk _ (by decide)).1
          · rw [he]; exact hdp.1
          · rw [he]; exact hmf
        · simp only [List.cons_append, List.nil_append, List.dropLast, List.mem_cons,
            List.mem_singleton, List.not_mem_nil, or_false] at he
          rcases he with he | he | he
          · rw [he]; exact (hk _ (by decide)).2
          · rw [he]; exact (hk _ (by decide)).2
          · rw [he]; exact hdp.2
      · refine ⟨fun e he => ?_, fun e he => ?_⟩
        · simp only [List.cons_append, List.nil_append, List.append_nil, List.mem_cons,
            List.mem_singleton, List.not_mem_nil, or_false] at he
          rcases he with he | he | he
          · rw [he]; exact (hk _ (by decide)).1
          · rw [he]; exact hdp.1
          · rw [he]; exact hmf
        · simp only [List.cons_append, List.nil_append, List.append_nil, List.dropLast,
            List.mem_cons, List.mem_singleton, List.not_mem_nil, or_false] at he
          rcases he with he | he
          · rw [he]; exact (hk _ (by decide)).2
          · rw [he]; exact hdp.2
    · have hv2 : validateDatapath inp.Datapath ≠ none ∨
          validateMicroflow inp.Microflow ≠ none := by
        by_contra hcon
        push_neg at hcon
        exact hv hcon
      rw [(Trace_invalid compile s inp hv2).2] at hargv
      cases hargv

/-- Instance of C27: in the argv of a `Trace` request whose microflow is joined by `&&`,
the microflow holds none of the seven characters and the datapath holds no `&`. -/
theorem argv_is_shell_safe_witness :
    freeOf [';', '|', '$', '`', '<', '>', '\\'] "inport==\"p\" && ip4" ∧
    freeOf ['&'] "node1" := by
  have h := argv_is_shell_safe.2.2.2 literalCompile (mockServer "ingress\n" "")
    { Namespace := "ovn-k8s", Name := "pod-a", Datapath := "node1",
      Microflow := "inport==\"p\" && ip4", Mode := "", Filter := "", MaxLines := 0 }
    ["ovn-trace", "--detailed", "node1", "inport==\"p\" && ip4"] (by decide)
  exact ⟨h.1 _ (by decide), h.2 _ (by decide)⟩

/-! ## Relations between the validators -/

/-- C39: the validators are nested.  Every string accepted by `validateTableName` is
accepted by `validateRecordName`, `validateDatapath` and `validateColumnSpec`; every string
accepted by `validateDatapath` is accepted by `validateMicroflow`; and a string accepted
by `validateMicroflow` but not by `validateDatapath` holds an `&`. -/
theorem validators_nested (s : String) :
    (validateTableName s = none →
      validateRecordName s = none ∧ validateDatapath s = none ∧
        validateColumnSpec s = none) ∧
    (validateDatapath s = none → validateMicroflow s = none) ∧
    (validateMicroflow s = none → validateDatapath s ≠ none → '&' ∈ s.data) := by
  refine ⟨?_, ?_, ?_⟩
  · intro h
    have hfree := freeOf_of_validateTableName s h
    have hne : s ≠ "" := by
      intro he
      unfold validateTableName at h
      rw [if_pos he] at h
      cases h
    have key : ∀ (fieldName : String) (allowEmpty : Bool),
        validateSafeString s fieldName allowEmpty = none :=
      fun fieldName allowEmpty =>
        (validateSafeString_eq_none s fieldName allowEmpty).2 (Or.inr ⟨hne, hfree⟩)
    exact ⟨key _ _, key _ _, key _ _⟩
  · intro h
    unfold validateDatapath at h
    rcases (validateSafeString_eq_none s _ _).1 h with ⟨_, hb⟩ | ⟨hne, hfree⟩
    · cases hb
    · exact (validateMicroflow_eq_none s).2 ⟨hne, (freeOf_seven_of_eight s hfree).1⟩
  · intro hm hd
    obtain ⟨hne, hfree⟩ := (validateMicroflow_eq_none s).1 hm
    by_contra hamp
    apply hd
    unfold validateDatapath
    refine (validateSafeString_eq_none s _ _).2 (Or.inr ⟨hne, ?_⟩)
    intro c hc hmem
    simp only [List.mem_cons, List.mem_singleton, List.not_mem_nil, or_false] at hmem
    rcases hmem with h | h | h | h | h | h | h | h
    · exact hfree c hc (by rw [h]; decide)
    · exact hamp (h ▸ hc)
    · exact hfree c hc (by rw [h]; decide)
    · exact hfree c hc (by rw [h]; decide)
    · exact hfree c hc (by rw [h]; decide)
    · exact hfree c hc (by rw [h]; decide)
    · exact hfree c hc (by rw [h]; decide)
    · exact hfree c hc (by rw [h]; decide)

/-- Instances of C39: the table name `Logical_Switch` passes the three other validators,
and the microflow `a&&b`, refused as a datapath, holds an `&`. -/
theorem validators_nested_witness :
    (validateRecordName "Logical_Switch" = none ∧ validateDatapath "Logical_Switch" = none ∧
      validateColumnSpec "Logical_Switch" = none) ∧
    validateMicroflow "node1" = none ∧
    '&' ∈ "a&&b".data :=
  ⟨(validators_nested "Logical_Switch").1 (by decide),
    (validators_nested "node1").2.1 (by decide),
    (validators_nested "a&&b").2.2 (by decide) (by decide)⟩

/-- C40: the validators do not refuse values that look like options or that hold
spaces.  `validateRecordName` accepts `--help`, and a `Get` request with a valid database
and table and that record makes one exec call whose argv ends with the record,
unchanged; `validateDatapath` accepts `dp rm`, which holds a space. -/
theorem option_like_values_accepted :
    validateRecordName "--help" = none ∧
    (∀ (compile : Compile) (s : MCPServer) (inp : GetParams),
      validateDatabase inp.Database = none → validateTableName inp.Table = none →
      validateColumnSpec inp.Columns = none → inp.Record = "--help" →
      ∃ argv, (MCPServer.Get compile s inp).calls.map ExecCall.Command = [argv] ∧
        argv.getLast? = some "--help") ∧
    validateDatapath "dp rm" = none ∧ ' ' ∈ "dp rm".data := by
  refine ⟨by decide, ?_, by decide, by decide⟩
  intro compile s inp h1 h2 h3 hr
  have hrec : validateRecordName inp.Record = none := by rw [hr]; decide
  have hne : inp.Record ≠ "" := by rw [hr]; decide
  refine ⟨_, by rw [Get_valid_calls compile s inp h1 h2 h3 (fun _ => hrec)]; rfl, ?_⟩
  rw [if_pos hne, List.getLast?_append, hr]
  rfl

/-- Instance of C40: `Get` on `Logical_Router` with the record `--help`. -/
theorem option_like_values_accepted_witness :
    ∃ argv,
      (MCPServer.Get literalCompile (mockServer "usage\n" "")
        { Namespace := "ovn-k8s", Name := "pod-a", Database := "nbdb",
          Table := "Logical_Router", Record := "--help", Columns := "", Filter := "",
          MaxLines := 0 }).calls.map ExecCall.Command = [argv] ∧
      argv.getLast? = some "--help" :=
  option_like_values_accepted.2.1 literalCompile (mockServer "usage\n" "")
    { Namespace := "ovn-k8s", Name := "pod-a", Database := "nbdb",
      Table := "Logical_Router", Record := "--help", Columns := "", Filter := "",
      MaxLines := 0 } (by decide) (by decide) (by decide) rfl

/-! ## Laws of the windows -/

/-- The length of `head L n` for a positive `n`. -/
theorem head_length (L : List String) (n : Int) (h0 : 0 < n) :
    (Utils.head L n).length = min n.toNat L.length := by
  by_cases h1 : n < (L.length : Int)
  · rw [head_inner L n h0 h1, List.length_take]
  · rw [head_saturated L n (Or.inr (Or.inr (not_lt.mp h1)))]
    omega

/-- The length of `tail L n` for a positive `n`. -/
theorem tail_length (L : List String) (n : Int) (h0 : 0 < n) :
    (Utils.tail L n).length = min n.toNat L.length := by
  by_cases h1 : n < (L.length : Int)
  · rw [tail_inner L n h0 h1, List.length_drop]
    omega
  · rw [tail_saturated L n (Or.inr (Or.inr (not_lt.mp h1)))]
    omega

/-- The primitive `head` never makes a list longer, and cuts it to a positive `n`. -/
theorem head_length_le (L : List String) (n : Int) :
    (Utils.head L n).length ≤ L.length ∧ (n ≤ 0 ∨ ((Utils.head L n).length : Int) ≤ n) := by
  by_cases h0 : 0 < n
  · rw [head_length L n h0]
    omega
  · rw [head_saturated L n (Or.inr (Or.inl (not_lt.mp h0)))]
    omega

/-- The primitive `tail` never makes a list longer, and cuts it to a positive `n`. -/
theorem tail_length_le (L : List String) (n : Int) :
    (Utils.tail L n).length ≤ L.length ∧ (n ≤ 0 ∨ ((Utils.tail L n).length : Int) ≤ n) := by
  by_cases h0 : 0 < n
  · rw [tail_length L n h0]
    omega
  · rw [tail_saturated L n (Or.inr (Or.inl (not_lt.mp h0)))]
    omega

/-- On a list within the limit `head` is the identity. -/
theorem head_of_short (M : List String) (n : Int) (h : n ≤ 0 ∨ (M.length : Int) ≤ n) :
    Utils.head M n = M :=
  head_saturated M n (Or.inr h)

/-- On a list within the limit `tail` is the identity. -/
theorem tail_of_short (M : List String) (n : Int) (h : n ≤ 0 ∨ (M.length : Int) ≤ n) :
    Utils.tail M n = M :=
  tail_saturated M n (Or.inr h)

/-- C35: the two windowing functions agree on non-negative limits: for every `n ≥ 0`,
`limitLines L n` is `Apply` with head `n` and no tail, under the default 100. -/
theorem limitLines_eq_Apply (L : List String) (n : Int) (b : Bool) (hn : 0 ≤ n) :
    limitLines L n = Utils.HeadTailParams.Apply ⟨n, 0, b⟩ L 100 := by
  unfold limitLines defaultMaxLines Utils.HeadTailParams.Apply
  by_cases h0 : n = 0
  · subst h0
    simp only [le_refl, if_true, and_self]
    by_cases hl : (L.length : Int) > 100
    · rw [if_pos hl, head_inner L 100 (by decide) hl]
    · rw [if_neg hl, head_saturated L 100 (Or.inr (Or.inr (not_lt.mp hl)))]
  · have hpos : 0 < n := lt_of_le_of_ne hn (Ne.symm h0)
    have hle : ¬ n ≤ 0 := not_le.mpr hpos
    simp only [hle, if_false, h0, false_and, ne_eq, not_true_eq_false, and_false,
      not_false_eq_true, if_true]
    by_cases hl : (L.length : Int) > n
    · rw [if_pos hl, head_inner L n hpos hl]
    · rw [if_neg hl, head_saturated L n (Or.inr (Or.inr (not_lt.mp hl)))]

/-- Instances of C35: a limit of two and the limit zero on three lines. -/
theorem limitLines_eq_Apply_witness :
    limitLines ["a", "b", "c"] 2 = ["a", "b"] ∧
    Utils.HeadTailParams.Apply ⟨2, 0, false⟩ ["a", "b", "c"] 100 = ["a", "b"] ∧
    limitLines ["a", "b", "c"] 0 = Utils.HeadTailParams.Apply ⟨0, 0, true⟩ ["a", "b", "c"] 100 :=
  ⟨by decide,
    (limitLines_eq_Apply ["a", "b", "c"] 2 false (by decide)).symm.trans (by decide),
    limitLines_eq_Apply ["a", "b", "c"] 0 true (by decide)⟩

/-- C36: `Apply` is idempotent, for all integers head and tail, either flag, every
default and every list. -/
theorem Apply_idempotent (p : Utils.HeadTailParams) (d : Int) (L : List String) :
    p.Apply (p.Apply L d) d = p.Apply L d := by
  by_cases hH : p.Head = 0 <;> by_cases hT : p.Tail = 0
  · have e : ∀ M : List String, p.Apply M d = Utils.head M d := by
      intro M
      simp [Utils.HeadTailParams.Apply, hH, hT]
    rw [e (p.Apply L d), e L]
    exact head_of_short _ d (head_length_le L d).2
  · have e : ∀ M : List String, p.Apply M d = Utils.tail M p.Tail := by
      intro M
      simp [Utils.HeadTailParams.Apply, hH, hT]
    rw [e (p.Apply L d), e L]
    exact tail_of_short _ _ (tail_length_le L p.Tail).2
  · have e : ∀ M : List String, p.Apply M d = Utils.head M p.Head := by
      intro M
      simp [Utils.HeadTailParams.Apply, hH, hT]
    rw [e (p.Apply L d), e L]
    exact head_of_short _ _ (head_length_le L p.Head).2
  · cases hb : p.ApplyTailFirst with
    | true =>
      have e : ∀ M : List String,
          p.Apply M d = Utils.head (Utils.tail M p.Tail) p.Head := by
        intro M
        simp [Utils.HeadTailParams.Apply, hH, hT, hb]
      rw [e (p.Apply L d), e L]
      have hTl := tail_length_le L p.Tail
      have hHl := head_length_le (Utils.tail L p.Tail) p.Head
      have e1 : Utils.tail (Utils.head (Utils.tail L p.Tail) p.Head) p.Tail =
          Utils.head (Utils.tail L p.Tail) p.Head :=
        tail_of_short _ _ (by omega)
      rw [e1]
      exact head_of_short _ _ hHl.2
    | false =>
      have e : ∀ M : List String,
          p.Apply M d = Utils.tail (Utils.head M p.Head) p.Tail := by
        intro M
        simp [Utils.HeadTailParams.Apply, hH, hT, hb]
      rw [e (p.Apply L d), e L]
      have hHl := head_length_le L p.Head
      have hTl := tail_length_le (Utils.head L p.Head) p.Tail
      have e1 : Utils.head (Utils.tail (Utils.head L p.Head) p.Tail) p.Head =
          Utils.tail (Utils.head L p.Head) p.Tail :=
        head_of_short _ _ (by omega)
      rw [e1]
      exact tail_of_short _ _ hTl.2

/-- C37: for a positive head `h` and a positive tail `t`, the result of `Apply` has
`min h t (len L)` elements whether `apply_tail_first` is true or false, and the two
orders return the same list whenever `h ≥ len L` or `t ≥ len L`. -/
theorem Apply_both_length (L : List String) (d h t : Int) (hh : 0 < h) (ht : 0 < t) :
    (∀ b, (Utils.HeadTailParams.Apply ⟨h, t, b⟩ L d).length =
      min (min h.toNat t.toNat) L.length) ∧
    ((h ≥ (L.length : Int) ∨ t ≥ (L.length : Int)) →
      Utils.HeadTailParams.Apply ⟨h, t, true⟩ L d =
        Utils.HeadTailParams.Apply ⟨h, t, false⟩ L d) := by
  have h1 : h ≠ 0 := by omega
  have h2 : t ≠ 0 := by omega
  have eT : Utils.HeadTailParams.Apply ⟨h, t, true⟩ L d = Utils.head (Utils.tail L t) h := by
    simp [Utils.HeadTailParams.Apply, h1, h2]
  have eF : Utils.HeadTailParams.Apply ⟨h, t, false⟩ L d = Utils.tail (Utils.head L h) t := by
    simp [Utils.HeadTailParams.Apply, h1, h2]
  constructor
  · intro b
    cases b with
    | true =>
      rw [eT, head_length _ h hh, tail_length L t ht]
      omega
    | false =>
      rw [eF, tail_length _ t ht, head_length L h hh]
      omega
  · intro hge
    rw [eT, eF]
    rcases hge with hge | hge
    · have hT := tail_length_le L t
      rw [head_of_short (Utils.tail L t) h (by omega), head_of_short L h (Or.inr hge)]
    · have hH := head_length_le L h
      rw [tail_of_short L t (Or.inr hge), tail_of_short (Utils.head L h) t (by omega)]

/-- Instances of C37 on five lines with head 3 and tail 2: two lines in either order,
which are not the same lines; with head 7 the two orders agree. -/
theorem Apply_both_length_witness :
    (Utils.HeadTailParams.Apply ⟨3, 2, true⟩
        ["line 1", "line 2", "line 3", "line 4", "line 5"] 100).length = 2 ∧
    (Utils.HeadTailParams.Apply ⟨3, 2, false⟩
        ["line 1", "line 2", "line 3", "line 4", "line 5"] 100).length = 2 ∧
    Utils.HeadTailParams.Apply ⟨7, 2, true⟩
        ["line 1", "line 2", "line 3", "line 4", "line 5"] 100 =
      Utils.HeadTailParams.Apply ⟨7, 2, false⟩
        ["line 1", "line 2", "line 3", "line 4", "line 5"] 100 :=
  ⟨(Apply_both_length ["line 1", "line 2", "line 3", "line 4", "line 5"] 100 3 2
      (by decide) (by decide)).1 true,
    (Apply_both_length ["line 1", "line 2", "line 3", "line 4", "line 5"] 100 3 2
      (by decide) (by decide)).1 false,
    (Apply_both_length ["line 1", "line 2", "line 3", "line 4", "line 5"] 100 7 2
      (by decide) (by decide)).2 (Or.inl (by decide))⟩

/-- C38: a negative head or tail switches the default window off.  `Apply` with a
negative head and no tail, or with no head and a negative tail, returns the whole of
`L`, whatever the default and the length of `L`; so `GetPodLogs` without a pattern
returns every line that `StripEmptyLines` keeps, and not the first 100 only. -/
theorem negative_window_returns_all (L : List String) (d : Int) (b : Bool) :
    (∀ h : Int, h < 0 → Utils.HeadTailParams.Apply ⟨h, 0, b⟩ L d = L) ∧
    (∀ t : Int, t < 0 → Utils.HeadTailParams.Apply ⟨0, t, b⟩ L d = L) ∧
    (∀ (compile : Compile)
        (clientGetPodLogs : String → String → String → Bool → Except Err (List String))
        (inp : GetPodLogsParams),
      clientGetPodLogs inp.Namespace inp.Name inp.Container inp.Previous = .ok L →
      inp.PatternParams.Pattern = "" →
      ((inp.HeadTailParams.Head < 0 ∧ inp.HeadTailParams.Tail = 0) ∨
        (inp.HeadTailParams.Head = 0 ∧ inp.HeadTailParams.Tail < 0)) →
      (Kubernetes.GetPodLogs compile clientGetPodLogs inp).1 =
        .ok { Logs := Utils.StripEmptyLines L }) := by
  have hhead : ∀ (M : List String) (h : Int), h < 0 →
      Utils.HeadTailParams.Apply ⟨h, 0, b⟩ M d = M := by
    intro M h hh
    have h0 : h ≠ 0 := by omega
    have e : Utils.HeadTailParams.Apply ⟨h, 0, b⟩ M d = Utils.head M h := by
      simp [Utils.HeadTailParams.Apply, h0]
    rw [e]
    exact head_of_short M h (Or.inl (by omega))
  have htail : ∀ (M : List String) (t : Int), t < 0 →
      Utils.HeadTailParams.Apply ⟨0, t, b⟩ M d = M := by
    intro M t ht
    have h0 : t ≠ 0 := by omega
    have e : Utils.HeadTailParams.Apply ⟨0, t, b⟩ M d = Utils.tail M t := by
      simp [Utils.HeadTailParams.Apply, h0]
    rw [e]
    exact tail_of_short M t (Or.inl (by omega))
  refine ⟨hhead L, htail L, ?_⟩
  intro compile clientGetPodLogs inp hclient hpat hwin
  unfold Kubernetes.GetPodLogs Utils.PatternParams.ExecuteWithMatch
  simp only [hpat, if_true, hclient]
  have key : inp.HeadTailParams.Apply (Utils.StripEmptyLines L) Kubernetes.defaultMaxLines =
      Utils.StripEmptyLines L := by
    rcases hwin with ⟨hh, ht⟩ | ⟨hh, ht⟩
    · have h0 : inp.HeadTailParams.Head ≠ 0 := by omega
      have e : inp.HeadTailParams.Apply (Utils.StripEmptyLines L) Kubernetes.defaultMaxLines =
          Utils.head (Utils.StripEmptyLines L) inp.HeadTailParams.Head := by
        simp [Utils.HeadTailParams.Apply, h0, ht]
      rw [e]
      exact head_of_short _ _ (Or.inl (by omega))
    · have h0 : inp.HeadTailParams.Tail ≠ 0 := by omega
      have e : inp.HeadTailParams.Apply (Utils.StripEmptyLines L) Kubernetes.defaultMaxLines =
          Utils.tail (Utils.StripEmptyLines L) inp.HeadTailParams.Tail := by
        simp [Utils.HeadTailParams.Apply, h0, hh]
      rw [e]
      exact tail_of_short _ _ (Or.inl (by omega))
  rw [key]

/-- Instances of C38: with the default 2 and five lines, head `-1` returns the five
lines where head `0` returns two; and `GetPodLogs` with head `-1` returns 150 lines. -/
theorem negative_window_returns_all_witness :
    Utils.HeadTailParams.Apply ⟨-1, 0, false⟩
        ["line 1", "line 2", "line 3", "line 4", "line 5"] 2 =
      ["line 1", "line 2", "line 3", "line 4", "line 5"] ∧
    Utils.HeadTailParams.Apply ⟨0, 0, false⟩
        ["line 1", "line 2", "line 3", "line 4", "line 5"] 2 = ["line 1", "line 2"] ∧
    (Kubernetes.GetPodLogs literalCompile (fun _ _ _ _ => .ok (List.replicate 150 "log"))
        { Namespace := "default", Name := "my-pod", Container := "", Previous := false,
          PatternParams := ⟨""⟩, HeadTailParams := ⟨-1, 0, false⟩ }).1 =
      .ok { Logs := Utils.StripEmptyLines (List.replicate 150 "log") } :=
  ⟨(negative_window_returns_all ["line 1", "line 2", "line 3", "line 4", "line 5"] 2
      false).1 (-1) (by decide),
    by decide,
    (negative_window_returns_all (List.replicate 150 "log") 2 false).2.2 literalCompile
      (fun _ _ _ _ => .ok (List.replicate 150 "log"))
      { Namespace := "default", Name := "my-pod", Container := "", Previous := false,
        PatternParams := ⟨""⟩, HeadTailParams := ⟨-1, 0, false⟩ }
      rfl rfl (Or.inl ⟨by decide, rfl⟩)⟩

/-! ## The two line normalisers -/

/-- C34: the two line normalisers agree up to trimming: `parseOutput s` is the list
obtained by trimming every element of `StripEmptyLines (Split s)`, so both keep the
same number of lines, in the same order. -/
theorem parseOutput_eq_trimmed_StripEmptyLines (s : String) :
    parseOutput s = (Utils.StripEmptyLines (Split s)).map TrimSpace ∧
    (parseOutput s).length = (Utils.StripEmptyLines (Split s)).length := by
  have key : parseOutput s = (Utils.StripEmptyLines (Split s)).map TrimSpace := by
    rw [parseOutput_eq, StripEmptyLines_eq, List.filter_map]
    rfl
  refine ⟨key, ?_⟩
  rw [key, List.length_map]

/-! ## The shape of the results -/

/-- C31: results carry back the request on every path, success or error: the result of
`Show` has the database of the request, the result of `Get` its database, table and
record, the result of `ListLogicalFlows` its datapath, and the result of `Trace` its
datapath and microflow. -/
theorem result_echoes_request :
    (∀ (s : MCPServer) (inp : ShowParams), (s.Show inp).result.Database = inp.Database) ∧
    (∀ (compile : Compile) (s : MCPServer) (inp : GetParams),
      (MCPServer.Get compile s inp).result.Database = inp.Database ∧
      (MCPServer.Get compile s inp).result.Table = inp.Table ∧
      (MCPServer.Get compile s inp).result.Record = inp.Record) ∧
    (∀ (compile : Compile) (s : MCPServer) (inp : LogicalFlowListParams),
      (MCPServer.ListLogicalFlows compile s inp).result.Datapath = inp.Datapath) ∧
    (∀ (compile : Compile) (s : MCPServer) (inp : OVNTraceParams),
      (MCPServer.Trace compile s inp).result.Datapath = inp.Datapath ∧
      (MCPServer.Trace compile s inp).result.Microflow = inp.Microflow) := by
  refine ⟨?_, ?_, ?_, ?_⟩
  · intro s inp
    unfold MCPServer.Show
    dsimp only
    repeat' split
    all_goals rfl
  · intro compile s inp
    unfold MCPServer.Get
    dsimp only
    repeat' split
    all_goals exact ⟨rfl, rfl, rfl⟩
  · intro compile s inp
    unfold MCPServer.ListLogicalFlows
    dsimp only
    repeat' split
    all_goals rfl
  · intro compile s inp
    unfold MCPServer.Trace
    dsimp only
    repeat' split
    all_goals exact ⟨rfl, rfl⟩

/-- The parser returns no line for a text made of white space. -/
theorem parseOutput_of_all_space (s : String) (h : ∀ c ∈ s.data, isSpace c = true) :
    parseOutput s = [] := by
  rw [parseOutput_eq]
  apply List.filter_eq_nil_iff.2
  intro t ht
  obtain ⟨x, hx, hxt⟩ := List.mem_map.1 ht
  subst hxt
  unfold Split at hx
  obtain ⟨piece, hpiece, hpx⟩ := List.mem_map.1 hx
  subst hpx
  have hall : ∀ c ∈ (String.mk piece).data, isSpace c = true :=
    fun c hc => h c (mem_of_mem_splitNewline s.data piece hpiece c hc)
  simp [TrimSpace_of_all_space _ hall]

/-- Filtering no line succeeds with no line when the pattern is empty or compiles. -/
theorem filterLines_nil (compile : Compile) (P : String)
    (h : P = "" ∨ ∃ m, compile P = .ok m) : filterLines compile [] P = .ok [] := by
  by_cases hP : P = ""
  · simp [filterLines, hP]
  · rcases h with h | ⟨m, hm⟩
    · exact absurd h hP
    · rw [filterLines_compiled compile [] P m hP hm]
      rfl

/-- The window of no line is no line. -/
theorem limitLines_nil (n : Int) : limitLines [] n = [] := by
  unfold limitLines defaultMaxLines
  by_cases hn : n ≤ 0
  · simp [hn]
  · have : ¬ n < 0 := by omega
    simp [hn, this]

/-- The run of `Show` on a valid database when the exec succeeds with empty stderr. -/
theorem Show_valid_run (s : MCPServer) (inp : ShowParams) (stdout : String)
    (hv : validateDatabase inp.Database = none)
    (hexec : s.k8sMcpServer.clientSet.ExecPod inp.Name inp.Namespace ""
      [getDBCommand inp.Database, "show"] = .ok (stdout, "")) :
    s.Show inp =
      ⟨[⟨inp.Name, inp.Namespace, "", [getDBCommand inp.Database, "show"]⟩],
        ⟨inp.Database, joinLines (limitLines (parseOutput stdout) inp.MaxLines)⟩, none⟩ := by
  unfold MCPServer.Show
  simp only [hv]
  rw [runCommand_ok s inp.toNamespacedNameParams _ stdout hexec]

/-- The parser loop with the nil value tracked never leaves the non-nil slices. -/
theorem parseOutputSlice_loop (l : List String) (init : List String) :
    l.foldl
        (fun output line =>
          let line := TrimSpace line
          if line ≠ "" then sliceAppend output line else output) (some init) =
      some (l.foldl
        (fun output line =>
          let line := TrimSpace line
          if line ≠ "" then output ++ [line] else output) init) := by
  induction l generalizing init with
  | nil => rfl
  | cons x xs ih =>
    rw [List.foldl_cons, List.foldl_cons]
    by_cases hq : TrimSpace x = ""
    · simp only [hq, ne_eq, not_true_eq_false, if_false]
      exact ih init
    · simp only [hq, ne_eq, not_false_eq_true, if_true]
      exact ih (init ++ [TrimSpace x])

/-- The parser with the nil value tracked returns the lines of the parser, non-nil. -/
theorem parseOutputSlice_eq (stdout : String) :
    parseOutputSlice stdout = some (parseOutput stdout) := by
  unfold parseOutputSlice parseOutput
  exact parseOutputSlice_loop (Split stdout) []

/-- The filter loop with the nil value tracked never leaves the non-nil slices. -/
theorem filterSlice_loop (m : String → Bool) (l : List String) (init : List String) :
    l.foldl (fun filtered line => if m line then sliceAppend filtered line else filtered)
        (some init) =
      some (l.foldl (fun filtered line => if m line then filtered ++ [line] else filtered)
        init) := by
  induction l generalizing init with
  | nil => rfl
  | cons x xs ih =>
    rw [List.foldl_cons, List.foldl_cons]
    by_cases hq : m x = true
    · simp only [hq, if_true]
      exact ih (init ++ [x])
    · simp only [hq, if_false]
      exact ih init

/-- On a non-nil slice `filterLines` with the nil value tracked returns a non-nil slice
with the lines of `filterLines`, or fails as `filterLines` does. -/
theorem filterLinesSlice_eq (compile : Compile) (lines : List String) (P : String) :
    filterLinesSlice compile (some lines) P =
      match filterLines compile lines P with
      | .error err => .error err
      | .ok out => .ok (some out) := by
  unfold filterLinesSlice filterLines
  by_cases hP : P = ""
  · simp [hP]
  · simp only [hP, if_false]
    cases hc : compile P with
    | error cause => rfl
    | ok m =>
      simp only [sliceElems]
      rw [filterSlice_loop m lines []]

/-- On a non-nil slice `limitLines` with the nil value tracked returns a non-nil slice
with the lines of `limitLines`. -/
theorem limitLinesSlice_eq (lines : List String) (n : Int) :
    limitLinesSlice (some lines) n = some (limitLines lines n) := by
  unfold limitLinesSlice limitLines
  simp only [sliceElems]
  split_ifs <;> rfl

/-- The flows of `ListLogicalFlows` as a Go slice are never nil, and their elements are
the flows of the result. -/
theorem ListLogicalFlowsFlows_eq (compile : Compile) (s : MCPServer)
    (inp : LogicalFlowListParams) :
    MCPServer.ListLogicalFlowsFlows compile s inp =
      some (MCPServer.ListLogicalFlows compile s inp).result.Flows := by
  unfold MCPServer.ListLogicalFlowsFlows MCPServer.ListLogicalFlows MCPServer.runCommand
  dsimp only
  cases hchk : (if inp.Datapath ≠ "" then validateDatapath inp.Datapath else none) with
  | some err => rfl
  | none =>
    dsimp only
    generalize (if inp.Datapath ≠ "" then ["ovn-sbctl", "lflow-list"] ++ [inp.Datapath]
      else ["ovn-sbctl", "lflow-list"]) = args
    cases hexec : s.k8sMcpServer.ExecPod
        { toNamespacedNameParams := inp.toNamespacedNameParams, Container := "",
          Command := args } with
    | mk calls r =>
      cases r with
      | error err => rfl
      | ok result =>
        dsimp only
        by_cases hs : result.Stderr = ""
        · simp only [hs, ne_eq, not_true_eq_false, if_false]
          rw [parseOutputSlice_eq, filterLinesSlice_eq]
          cases hf : filterLines compile (parseOutput result.Stdout) inp.Filter with
          | error err => rfl
          | ok out =>
            dsimp only
            rw [limitLinesSlice_eq]
        · simp only [hs, ne_eq, not_false_eq_true, if_true]

/-- C32: empty output gives an empty result.  When the exec succeeds with empty stderr
and a stdout made of white space and newlines only, on a request that passes the
validators and whose filter is empty or compiles, `Show`, `Get` and `Trace` return the
output `""` and `ListLogicalFlows` returns no flow, all without error; and the flows of
`ListLogicalFlows`, as a Go slice, are not nil on any path, error paths included. -/
theorem empty_output_gives_empty_result (stdout : String)
    (hws : ∀ c ∈ stdout.data, isSpace c = true) :
    (∀ (s : MCPServer) (inp : ShowParams), validateDatabase inp.Database = none →
      s.k8sMcpServer.clientSet.ExecPod inp.Name inp.Namespace ""
        [getDBCommand inp.Database, "show"] = .ok (stdout, "") →
      (s.Show inp).err = none ∧ (s.Show inp).result.Output = "") ∧
    (∀ (compile : Compile) (s : MCPServer) (inp : GetParams),
      validateDatabase inp.Database = none → validateTableName inp.Table = none →
      validateColumnSpec inp.Columns = none →
      (inp.Record ≠ "" → validateRecordName inp.Record = none) →
      s.k8sMcpServer.clientSet.ExecPod inp.Name inp.Namespace ""
        ([getDBCommand inp.Database] ++
          (if inp.Columns ≠ "" then ["--columns=" ++ inp.Columns] else []) ++
          ["list", inp.Table] ++ (if inp.Record ≠ "" then [inp.Record] else []))
        = .ok (stdout, "") →
      (inp.Filter = "" ∨ ∃ m, compile inp.Filter = .ok m) →
      (MCPServer.Get compile s inp).err = none ∧
        (MCPServer.Get compile s inp).result.Output = "") ∧
    (∀ (compile : Compile) (s : MCPServer) (inp : LogicalFlowListParams),
      (inp.Datapath = "" ∨ validateDatapath inp.Datapath = none) →
      s.k8sMcpServer.clientSet.ExecPod inp.Name inp.Namespace ""
        (["ovn-sbctl", "lflow-list"] ++ (if inp.Datapath ≠ "" then [inp.Datapath] else []))
        = .ok (stdout, "") →
      (inp.Filter = "" ∨ ∃ m, compile inp.Filter = .ok m) →
      (MCPServer.ListLogicalFlows compile s inp).err = none ∧
        (MCPServer.ListLogicalFlows compile s inp).result.Flows = []) ∧
    (∀ (compile : Compile) (s : MCPServer) (inp : OVNTraceParams),
      validateDatapath inp.Datapath = none → validateMicroflow inp.Microflow = none →
      s.k8sMcpServer.clientSet.ExecPod inp.Name inp.Namespace ""
        (["ovn-trace"] ++
          (if inp.Mode = "summary" then ["--summary"]
            else if inp.Mode = "minimal" then ["--minimal"]
            else if inp.Mode = "detailed" ∨ inp.Mode = "" then ["--detailed"]
            else []) ++
          [inp.Datapath, inp.Microflow]) = .ok (stdout, "") →
      (inp.Filter = "" ∨ ∃ m, compile inp.Filter = .ok m) →
      (MCPServer.Trace compile s inp).err = none ∧
        (MCPServer.Trace compile s inp).result.Output = "") ∧
    (∀ (compile : Compile) (s : MCPServer) (inp : LogicalFlowListParams),
      MCPServer.ListLogicalFlowsFlows compile s inp ≠ none ∧
      sliceElems (MCPServer.ListLogicalFlowsFlows compile s inp) =
        (MCPServer.ListLogicalFlows compile s inp).result.Flows) := by
  have hparse : parseOutput stdout = [] := parseOutput_of_all_space stdout hws
  have hjoin : joinLines [] = "" := rfl
  refine ⟨?_, ?_, ?_, ?_, ?_⟩
  · intro s inp hv hexec
    rw [Show_valid_run s inp stdout hv hexec, hparse, limitLines_nil]
    exact ⟨rfl, rfl⟩
  · intro compile s inp h1 h2 h3 h4 hexec hfilter
    rw [Get_valid_run compile s inp stdout h1 h2 h3 h4 hexec, hparse]
    by_cases hr : inp.Record = ""
    · simp only [hr, if_true, filterLines_nil compile inp.Filter hfilter, limitLines_nil,
        hjoin]
      exact ⟨trivial, trivial⟩
    · simp only [hr, if_false, limitLines_nil, hjoin]
      exact ⟨trivial, trivial⟩
  · intro compile s inp hv hexec hfilter
    rw [ListLogicalFlows_valid compile s inp hv,
      runCommand_ok s inp.toNamespacedNameParams _ stdout hexec, hparse]
    simp only [filterLines_nil compile inp.Filter hfilter, limitLines_nil]
    exact ⟨trivial, trivial⟩
  · intro compile s inp h1 h2 hexec hfilter
    rw [Trace_valid compile s inp h1 h2,
      runCommand_ok s inp.toNamespacedNameParams _ stdout hexec, hparse]
    simp only [filterLines_nil compile inp.Filter hfilter, limitLines_nil, hjoin]
    exact ⟨trivial, trivial⟩
  · intro compile s inp
    rw [ListLogicalFlowsFlows_eq]
    exact ⟨by simp, rfl⟩

/-- Instances of C32 on the stdout of two blank lines: `Show` returns the output `""`
and `ListLogicalFlows` no flow; and on an exec that fails the flows are the empty
slice, not the nil slice. -/
theorem empty_output_gives_empty_result_witness :
    ((MCPServer.Show (mockServer " \n\t\n" "")
        { Namespace := "ovn-k8s", Name := "pod-a", Database := "nbdb", MaxLines := 0 }).err
        = none ∧
      (MCPServer.Show (mockServer " \n\t\n" "")
        { Namespace := "ovn-k8s", Name := "pod-a", Database := "nbdb",
          MaxLines := 0 }).result.Output = "") ∧
    ((MCPServer.ListLogicalFlows literalCompile (mockServer " \n\t\n" "")
        { Namespace := "ovn-k8s", Name := "pod-a", Datapath := "node1", Filter := "table",
          MaxLines := 0 }).err = none ∧
      (MCPServer.ListLogicalFlows literalCompile (mockServer " \n\t\n" "")
        { Namespace := "ovn-k8s", Name := "pod-a", Datapath := "node1", Filter := "table",
          MaxLines := 0 }).result.Flows = []) ∧
    MCPServer.ListLogicalFlowsFlows literalCompile (mockServer "" "no such datapath")
        { Namespace := "ovn-k8s", Name := "pod-a", Datapath := "node9", Filter := "",
          MaxLines := 0 } ≠ none := by
  have h := empty_output_gives_empty_result " \n\t\n" (by decide)
  refine ⟨h.1 (mockServer " \n\t\n" "") _ (by decide) rfl, ?_, ?_⟩
  · exact h.2.2.1 literalCompile (mockServer " \n\t\n" "")
      { Namespace := "ovn-k8s", Name := "pod-a", Datapath := "node1", Filter := "table",
        MaxLines := 0 } (Or.inr (by decide)) rfl (Or.inr ⟨_, rfl⟩)
  · exact (h.2.2.2.2 literalCompile (mockServer "" "no such datapath")
      { Namespace := "ovn-k8s", Name := "pod-a", Datapath := "node9", Filter := "",
        MaxLines := 0 }).1

/-! ## The round trip of the joined output -/

/-- The characters of the accumulator loop of `String.intercalate`. -/
theorem intercalate_go_data (acc sep : String) (l : List String) :
    (String.intercalate.go acc sep l).data =
      acc.data ++ l.flatMap fun a => sep.data ++ a.data := by
  induction l generalizing acc with
  | nil => simp [String.intercalate.go]
  | cons a as ih =>
    rw [String.intercalate.go, ih, String.data_append, String.data_append,
      List.flatMap_cons]
    simp [List.append_assoc]

/-- A text without newline is one piece. -/
theorem splitNewline_of_no_newline (xs : List Char) (h : '\n' ∉ xs) :
    splitNewline xs = [xs] := by
  induction xs with
  | nil => rfl
  | cons c cs ih =>
    have hc : c ≠ '\n' := fun e => h (e ▸ List.mem_cons_self _ _)
    have hcs : '\n' ∉ cs := fun e => h (List.mem_cons_of_mem _ e)
    unfold splitNewline
    rw [if_neg hc, ih hcs]

/-- The pieces of a text that starts with a piece without newline. -/
theorem splitNewline_append (xs ys : List Char) (h : '\n' ∉ xs) :
    splitNewline (xs ++ '\n' :: ys) = xs :: splitNewline ys := by
  induction xs with
  | nil =>
    rw [List.nil_append, splitNewline, if_pos rfl]
  | cons c cs ih =>
    have hc : c ≠ '\n' := fun e => h (e ▸ List.mem_cons_self _ _)
    have hcs : '\n' ∉ cs := fun e => h (List.mem_cons_of_mem _ e)
    rw [List.cons_append, splitNewline, if_neg hc, ih hcs]

/-- No piece of a text holds a newline. -/
theorem no_newline_in_pieces (xs : List Char) : ∀ piece ∈ splitNewline xs, '\n' ∉ piece := by
  induction xs with
  | nil =>
    intro piece hp
    simp [splitNewline] at hp
    subst hp
    exact List.not_mem_nil _
  | cons x xs ih =>
    intro piece hp
    unfold splitNewline at hp
    by_cases hx : x = '\n'
    · rw [if_pos hx] at hp
      rcases List.mem_cons.1 hp with h | h
      · subst h
        exact List.not_mem_nil _
      · exact ih piece h
    · rw [if_neg hx] at hp
      cases hsp : splitNewline xs with
      | nil =>
        rw [hsp] at hp
        simp only [List.mem_singleton] at hp
        subst hp
        intro hmem
        simp only [List.mem_singleton] at hmem
        exact hx hmem.symm
      | cons l ls =>
        rw [hsp] at hp ih
        rcases List.mem_cons.1 hp with h | h
        · subst h
          intro hmem
          rcases List.mem_cons.1 hmem with h2 | h2
          · exact hx h2.symm
          · exact ih l (List.mem_cons_self _ _) h2
        · exact ih piece (List.mem_cons_of_mem _ h)

/-- Splitting the join of lines without newline gives the lines back. -/
theorem Split_joinLines (a : String) (l : List String)
    (h : ∀ x ∈ a :: l, '\n' ∉ x.data) : Split (joinLines (a :: l)) = a :: l := by
  have key : ∀ (l : List String) (a : String), (∀ x ∈ a :: l, '\n' ∉ x.data) →
      splitNewline (a.data ++ l.flatMap fun b => "\n".data ++ b.data) =
        (a :: l).map String.data := by
    intro l
    induction l with
    | nil =>
      intro a h
      simp only [List.flatMap_nil, List.append_nil, List.map_cons, List.map_nil]
      exact splitNewline_of_no_newline _ (h a (List.mem_cons_self _ _))
    | cons b bs ih =>
      intro a h
      have hb : ∀ x ∈ b :: bs, '\n' ∉ x.data := fun x hx => h x (List.mem_cons_of_mem _ hx)
      have e : a.data ++ (b :: bs).flatMap (fun b => "\n".data ++ b.data) =
          a.data ++ '\n' :: (b.data ++ bs.flatMap fun b => "\n".data ++ b.data) := by
        rw [List.flatMap_cons]
        rfl
      rw [e, splitNewline_append _ _ (h a (List.mem_cons_self _ _)), ih b hb]
      rfl
  unfold Split joinLines
  rw [String.intercalate, intercalate_go_data, key l a h, List.map_map]
  exact List.map_id _

/-- A text that neither starts nor ends with white space is left alone by the trimming. -/
theorem TrimSpace_fixed (l : String) (hh : ∀ c, l.data.head? = some c → isSpace c = false)
    (hl : ∀ c, l.data.getLast? = some c → isSpace c = false) : TrimSpace l = l := by
  have drop_self : ∀ xs : List Char, (∀ c, xs.head? = some c → isSpace c = false) →
      xs.dropWhile isSpace = xs := by
    intro xs hxs
    cases xs with
    | nil => rfl
    | cons c cs =>
      have := hxs c rfl
      simp [List.dropWhile_cons, this]
  unfold TrimSpace
  rw [drop_self l.data hh, drop_self l.data.reverse (by rw [List.head?_reverse]; exact hl),
    List.reverse_reverse]

/-- The lines of the parser are not empty, hold no newline, and are left alone by the
trimming. -/
theorem parseOutput_lines_normal (s : String) :
    ∀ l ∈ parseOutput s, l ≠ "" ∧ '\n' ∉ l.data ∧ TrimSpace l = l := by
  intro l hl
  rw [parseOutput_eq] at hl
  obtain ⟨hmem, hne⟩ := List.mem_filter.1 hl
  obtain ⟨x, hx, hxl⟩ := List.mem_map.1 hmem
  subst hxl
  refine ⟨by simpa using hne, ?_, TrimSpace_fixed _ (TrimSpace_head x) (TrimSpace_getLast x)⟩
  unfold Split at hx
  obtain ⟨piece, hpiece, hpx⟩ := List.mem_map.1 hx
  subst hpx
  intro hmem2
  have hsub : ∀ c ∈ (TrimSpace (String.mk piece)).data, c ∈ piece := by
    intro c hc
    unfold TrimSpace at hc
    rw [List.mem_reverse] at hc
    have h1 := (List.dropWhile_sublist isSpace).subset hc
    rw [List.mem_reverse] at h1
    exact (List.dropWhile_sublist isSpace).subset h1
  exact no_newline_in_pieces s.data piece hpiece (hsub _ hmem2)

/-- Parsing the join of lines that are not empty, hold no newline and are left alone by
the trimming gives the lines back. -/
theorem parseOutput_joinLines (ls : List String)
    (h : ∀ l ∈ ls, l ≠ "" ∧ '\n' ∉ l.data ∧ TrimSpace l = l) :
    parseOutput (joinLines ls) = ls := by
  cases ls with
  | nil => decide
  | cons a l =>
    rw [parseOutput_eq, Split_joinLines a l (fun x hx => (h x hx).2.1)]
    have e1 : (a :: l).map TrimSpace = a :: l := by
      have : ∀ x ∈ a :: l, TrimSpace x = id x := fun x hx => (h x hx).2.2
      rw [List.map_congr_left this, List.map_id]
    rw [e1]
    apply List.filter_eq_self.2
    intro x hx
    simpa using (h x hx).1

/-- The lines that the dispatcher returns are the lines of the parser on some stdout. -/
theorem runCommand_lines (s : MCPServer) (nn : NamespacedNameParams) (commands : List String)
    (calls : List ExecCall) (lines : List String)
    (h : s.runCommand nn commands = (calls, .ok lines)) :
    ∃ stdout, lines = parseOutput stdout := by
  rw [runCommand_eq] at h
  cases hc : s.k8sMcpServer.clientSet.ExecPod nn.Name nn.Namespace "" commands with
  | error err =>
    rw [hc] at h
    simp at h
  | ok out =>
    obtain ⟨stdout, stderr⟩ := out
    rw [hc] at h
    by_cases hs : stderr = ""
    · simp [hs] at h
      exact ⟨stdout, h.2.symm⟩
    · simp [hs] at h

/-- A successful `filterLines` returns a sublist of its input. -/
theorem filterLines_sublist (compile : Compile) (L : List String) (P : String)
    (out : List String) (h : filterLines compile L P = .ok out) : out.Sublist L := by
  by_cases hP : P = ""
  · have h2 : filterLines compile L P = .ok L := by simp [filterLines, hP]
    rw [h2] at h
    injection h with h
    subst h
    exact List.Sublist.refl _
  · cases hc : compile P with
    | error cause =>
      rw [filterLines_not_compiled compile L P cause hP hc] at h
      cases h
    | ok m =>
      rw [filterLines_compiled compile L P m hP hc] at h
      injection h with h
      subst h
      exact List.filter_sublist L

/-- The window is a sublist of its input. -/
theorem limitLines_sublist (L : List String) (n : Int) : (limitLines L n).Sublist L := by
  unfold limitLines
  dsimp only
  split_ifs
  · exact List.take_sublist _ _
  · exact List.Sublist.refl _
  · exact List.take_sublist _ _
  · exact List.Sublist.refl _

/-- The join of some of the lines of the parser is a fixed point of parse and join. -/
theorem joinLines_fixed (stdout : String) (ls : List String)
    (h : ls.Sublist (parseOutput stdout)) :
    parseOutput (joinLines ls) = ls :=
  parseOutput_joinLines ls (fun l hl => parseOutput_lines_normal stdout l (h.subset hl))

/-- The output of `Show` is empty or the join of a window of parsed lines. -/
theorem Show_output_shape (s : MCPServer) (inp : ShowParams) :
    (s.Show inp).result.Output = "" ∨
      ∃ stdout ls, ls.Sublist (parseOutput stdout) ∧
        (s.Show inp).result.Output = joinLines ls := by
  unfold MCPServer.Show
  cases hv : validateDatabase inp.Database with
  | some err => exact Or.inl rfl
  | none =>
    dsimp only
    cases hrun : s.runCommand inp.toNamespacedNameParams [getDBCommand inp.Database, "show"] with
    | mk calls r =>
      cases r with
      | error err => exact Or.inl rfl
      | ok lines =>
        obtain ⟨stdout, hl⟩ := runCommand_lines s _ _ calls lines hrun
        subst hl
        exact Or.inr ⟨stdout, _, limitLines_sublist _ _, rfl⟩

/-- The output of `Get` is empty or the join of a window of parsed lines. -/
theorem Get_output_shape (compile : Compile) (s : MCPServer) (inp : GetParams) :
    (MCPServer.Get compile s inp).result.Output = "" ∨
      ∃ stdout ls, ls.Sublist (parseOutput stdout) ∧
        (MCPServer.Get compile s inp).result.Output = joinLines ls := by
  by_cases hv : validateDatabase inp.Database = none ∧ validateTableName inp.Table = none ∧
      validateColumnSpec inp.Columns = none ∧
      (inp.Record ≠ "" → validateRecordName inp.Record = none)
  · obtain ⟨h1, h2, h3, h4⟩ := hv
    rw [Get_valid compile s inp h1 h2 h3 h4]
    cases hrun : s.runCommand inp.toNamespacedNameParams
        ([getDBCommand inp.Database] ++
          (if inp.Columns ≠ "" then ["--columns=" ++ inp.Columns] else []) ++
          ["list", inp.Table] ++ (if inp.Record ≠ "" then [inp.Record] else [])) with
    | mk calls r =>
      cases r with
      | error err => exact Or.inl rfl
      | ok lines =>
        obtain ⟨stdout, hl⟩ := runCommand_lines s _ _ calls lines hrun
        subst hl
        by_cases hr : inp.Record = ""
        · simp only [hr, if_true]
          cases hf : filterLines compile (parseOutput stdout) inp.Filter with
          | error err => exact Or.inl rfl
          | ok out =>
            exact Or.inr ⟨stdout, _,
              (limitLines_sublist out inp.MaxLines).trans
                (filterLines_sublist compile _ _ out hf), rfl⟩
        · simp only [hr, if_false]
          exact Or.inr ⟨stdout, _, limitLines_sublist _ _, rfl⟩
  · left
    unfold MCPServer.Get
    cases h1 : validateDatabase inp.Database with
    | some err => rfl
    | none =>
      cases h2 : validateTableName inp.Table with
      | some err => rfl
      | none =>
        cases h3 : validateColumnSpec inp.Columns with
        | some err => rfl
        | none =>
          have hr : inp.Record ≠ "" := by
            intro hr
            exact hv ⟨h1, h2, h3, fun h => absurd hr h⟩
          cases h4 : validateRecordName inp.Record with
          | none => exact absurd ⟨h1, h2, h3, fun _ => h4⟩ hv
          | some err => simp [hr, h4]

/-- The output of `Trace` is empty or the join of a window of parsed lines. -/
theorem Trace_output_shape (compile : Compile) (s : MCPServer) (inp : OVNTraceParams) :
    (MCPServer.Trace compile s inp).result.Output = "" ∨
      ∃ stdout ls, ls.Sublist (parseOutput stdout) ∧
        (MCPServer.Trace compile s inp).result.Output = joinLines ls := by
  cases h1 : validateDatapath inp.Datapath with
  | some err =>
    left
    unfold MCPServer.Trace
    simp [h1]
  | none =>
    cases h2 : validateMicroflow inp.Microflow with
    | some err =>
      left
      unfold MCPServer.Trace
      simp [h1, h2]
    | none =>
      rw [Trace_valid compile s inp h1 h2]
      cases hrun : s.runCommand inp.toNamespacedNameParams
          (["ovn-trace"] ++
            (if inp.Mode = "summary" then ["--summary"]
              else if inp.Mode = "minimal" then ["--minimal"]
              else if inp.Mode = "detailed" ∨ inp.Mode = "" then ["--detailed"]
              else []) ++
            [inp.Datapath, inp.Microflow]) with
      | mk calls r =>
        cases r with
        | error err => exact Or.inl rfl
        | ok lines =>
          obtain ⟨stdout, hl⟩ := runCommand_lines s _ _ calls lines hrun
          subst hl
          dsimp only
          cases hf : filterLines compile (parseOutput stdout) inp.Filter with
          | error err => exact Or.inl rfl
          | ok out =>
            exact Or.inr ⟨stdout, _,
              (limitLines_sublist out inp.MaxLines).trans
                (filterLines_sublist compile _ _ out hf), rfl⟩

/-- An output of that shape is what joining its parsed lines gives. -/
theorem output_fixed_of_shape (out : String)
    (h : out = "" ∨ ∃ stdout ls, ls.Sublist (parseOutput stdout) ∧ out = joinLines ls) :
    String.intercalate "\n" (parseOutput out) = out ∧
      ∀ l ∈ parseOutput out, l ≠ "" ∧ '\n' ∉ l.data ∧ TrimSpace l = l := by
  refine ⟨?_, parseOutput_lines_normal out⟩
  rcases h with h | ⟨stdout, ls, hsub, h⟩
  · rw [h]
    decide
  · rw [h, joinLines_fixed stdout ls hsub]
    rfl

/-- C33: joined output round-trips through the parser:
`parseOutput (join "\n" (parseOutput s)) = parseOutput s`, and the same holds for every
selection `ls` of the parsed lines (the lines a filter and a window keep).  So on every
path the output string of `Show`, `Get` and `Trace` is what joining its own parsed lines
gives, and its parsed lines are not empty, hold no newline and neither start nor end
with white space: the output has no empty line and no untrimmed line, and splitting
it again gives back the same lines. -/
theorem parseOutput_round_trip :
    (∀ s : String, parseOutput (String.intercalate "\n" (parseOutput s)) = parseOutput s) ∧
    (∀ (s : String) (ls : List String), ls.Sublist (parseOutput s) →
      parseOutput (String.intercalate "\n" ls) = ls) ∧
    (∀ (s : MCPServer) (inp : ShowParams),
      String.intercalate "\n" (parseOutput (s.Show inp).result.Output) =
          (s.Show inp).result.Output ∧
        ∀ l ∈ parseOutput (s.Show inp).result.Output,
          l ≠ "" ∧ '\n' ∉ l.data ∧ TrimSpace l = l) ∧
    (∀ (compile : Compile) (s : MCPServer) (inp : GetParams),
      String.intercalate "\n" (parseOutput (MCPServer.Get compile s inp).result.Output) =
          (MCPServer.Get compile s inp).result.Output ∧
        ∀ l ∈ parseOutput (MCPServer.Get compile s inp).result.Output,
          l ≠ "" ∧ '\n' ∉ l.data ∧ TrimSpace l = l) ∧
    (∀ (compile : Compile) (s : MCPServer) (inp : OVNTraceParams),
      String.intercalate "\n" (parseOutput (MCPServer.Trace compile s inp).result.Output) =
          (MCPServer.Trace compile s inp).result.Output ∧
        ∀ l ∈ parseOutput (MCPServer.Trace compile s inp).result.Output,
          l ≠ "" ∧ '\n' ∉ l.data ∧ TrimSpace l = l) := by
  refine ⟨?_, ?_, ?_, ?_, ?_⟩
  · intro s
    exact joinLines_fixed s (parseOutput s) (List.Sublist.refl _)
  · intro s ls hsub
    exact joinLines_fixed s ls hsub
  · intro s inp
    exact output_fixed_of_shape _ (Show_output_shape s inp)
  · intro compile s inp
    exact output_fixed_of_shape _ (Get_output_shape compile s inp)
  · intro compile s inp
    exact output_fixed_of_shape _ (Trace_output_shape compile s inp)

/-- Instances of C33: the round trip on a stdout with blank and indented lines, and on
two of its three parsed lines. -/
theorem parseOutput_round_trip_witness :
    parseOutput (String.intercalate "\n" (parseOutput "switch 1 (w)\n\n    port p\n  x \n")) =
      ["switch 1 (w)", "port p", "x"] ∧
    parseOutput (String.intercalate "\n" ["switch 1 (w)", "x"]) = ["switch 1 (w)", "x"] :=
  ⟨(parseOutput_round_trip.1 "switch 1 (w)\n\n    port p\n  x \n").trans (by decide),
    parseOutput_round_trip.2.1 "switch 1 (w)\n\n    port p\n  x \n" ["switch 1 (w)", "x"]
      (by decide)⟩

end OvnMcp
